import Mathlib

/-!
# SSNFS server: a shallow embedding of `server.c`

The server keeps its whole state in process-wide variables (`users`,
`open_table`, `next_fd`, `block_used`) plus the virtual disk file.  Here the
state is an explicit record that every handler receives and returns.

Conventions of the embedding:

* a C `int` is an `Int`; every place where the C code does `int` arithmetic
  that can leave the 32-bit range goes through `wrap32`;
* a C array is a function from the index; a pointer into `users` or
  `open_table` is the index of the entry;
* a `char` array holding a name is represented by its string content, the
  list of bytes in front of the first NUL; `strncmp` and `strncpy` are the
  libc functions on that representation;
* the virtual disk is a function from the byte offset to the byte stored
  there, together with the length of the file;
* `ssnfs.h` is not part of the sources, so the two name sizes it defines and
  the memory image of the `users` table are fields of `Layout`;
* system calls do not fail (no I/O error, `malloc` succeeds).
-/

namespace SSNFS

/-! ## Constants of `server.c` -/

def BLOCK_SIZE : Int := 512

def DISK_SIZE : Int := 16 * 1024 * 1024

def TOTAL_BLOCKS : Int := DISK_SIZE / BLOCK_SIZE

def BLOCKS_PER_FILE : Int := 64

def MAX_USERS : Nat := 10

def MAX_FILES_USER : Nat := 10

def MAX_OPEN_FILES : Nat := 20

def file_max_size : Int := BLOCKS_PER_FILE * BLOCK_SIZE

/-- Size in bytes of a C `int` on the platforms the server is built for. -/
def SIZEOF_INT : Int := 4

/-- The value a 32-bit two's complement `int` holds after an arithmetic
result `x` is stored in it. -/
def wrap32 (x : Int) : Int := (x + 2147483648) % 4294967296 - 2147483648

/-! ## libc string functions on name contents -/

/-- C `strncmp(a, b, n)`: compares at most `n` characters and stops at a NUL;
a list that ends is followed by NULs.  The result is 0 exactly when the two
arrays agree. -/
def strncmp : List Nat → List Nat → Nat → Int
  | _, _, 0 => 0
  | a, b, n + 1 =>
    if a.headD 0 ≠ b.headD 0 then (a.headD 0 : Int) - (b.headD 0 : Int)
    else if a.headD 0 = 0 then 0
    else strncmp a.tail b.tail n

/-- C `strncpy(dst, src, n)` seen through the content of `dst`: the characters
of `src` in front of its first NUL, at most `n` of them (the rest of the `n`
bytes is filled with NULs). -/
def strncpy : List Nat → Nat → List Nat
  | _, 0 => []
  | [], _ + 1 => []
  | c :: cs, n + 1 => if c = 0 then [] else c :: strncpy cs n

/-! ## Data structures -/

/-- The struct `file_meta_t`: a name and the first block of the extent. -/
structure file_meta_t where
  file_name : List Nat
  start_block : Int

/-- The struct `user_meta_t`. -/
structure user_meta_t where
  user_name : List Nat
  in_use : Int
  files : Nat → file_meta_t

/-- The struct `open_entry_t`. -/
structure open_entry_t where
  in_use : Int
  fd : Int
  user_name : List Nat
  file_name : List Nat
  start_block : Int
  current_pos : Int

/-- The file behind `disk_fd`: its bytes and its length. -/
structure Disk where
  bytes : Int → Nat
  size : Int

/-- What `ssnfs.h` and the C ABI fix and the sources do not show: the sizes of
the name fields, and how the `users` table lies in memory (`sizeof(users)`,
the byte at each offset of the table, and the table a byte image denotes). -/
structure Layout where
  USER_NAME_SIZE : Nat
  FILE_NAME_SIZE : Nat
  sizeof_users : Int
  users_bytes : (Nat → user_meta_t) → Int → Nat
  users_of_bytes : (Int → Nat) → Nat → user_meta_t

/-- The global variables of the server together with the disk file. -/
structure State where
  disk : Disk
  users : Nat → user_meta_t
  open_table : Nat → open_entry_t
  next_fd : Int
  block_used : Int → Int

/-! ## Disk primitives -/

/-- Effect of `lseek(disk_fd, off, SEEK_SET); write(disk_fd, src, len)`: the
bytes `src 0 .. src (len-1)` land at `off ..`, the file grows if needed. -/
def disk_write (d : Disk) (off len : Int) (src : Int → Nat) : Disk :=
  { bytes := fun p => if off ≤ p ∧ p < off + len then src (p - off) else d.bytes p
    size := max d.size (off + len) }

/-- The bytes `f off, f (off+1), ...`, `n` of them. -/
def bytes_from (f : Int → Nat) : Int → Nat → List Nat
  | _, 0 => []
  | off, n + 1 => f off :: bytes_from f (off + 1) n

/-- Number of bytes `read(disk_fd, buf, len)` delivers at offset `off`: a read
stops at the end of the file. -/
def disk_read_count (d : Disk) (off len : Int) : Int :=
  max 0 (min len (d.size - off))

/-- The bytes `lseek(disk_fd, off, SEEK_SET); read(disk_fd, buf, len)`
delivers. -/
def disk_read (d : Disk) (off len : Int) : List Nat :=
  bytes_from d.bytes off (disk_read_count d off len).toNat

/-- Byte `k` (0 is the lowest) of a 32-bit little-endian `int`. -/
def int_byte (v : Int) (k : Int) : Nat :=
  ((v % 4294967296) / 256 ^ k.toNat % 256).toNat

/-- The `int` whose four little-endian bytes start at offset `off`. -/
def int_of_bytes (f : Int → Nat) (off : Int) : Int :=
  wrap32 ((f off : Int) + 256 * (f (off + 1) : Int) + 65536 * (f (off + 2) : Int)
    + 16777216 * (f (off + 3) : Int))

/-- Memory image of `block_used`: byte `p` of the array. -/
def block_used_bytes (block_used : Int → Int) (p : Int) : Nat :=
  int_byte (block_used (p / SIZEOF_INT)) (p % SIZEOF_INT)

/-- The value of `sizeof(block_used)`. -/
def sizeof_block_used : Int := TOTAL_BLOCKS * SIZEOF_INT

/-- The function `save_metadata`: `block_used` goes to offset 0 of the disk
file and `users` right behind it. -/
def save_metadata (L : Layout) (s : State) : State :=
  { s with
    disk := disk_write
      (disk_write s.disk 0 sizeof_block_used (block_used_bytes s.block_used))
      sizeof_block_used L.sizeof_users (L.users_bytes s.users) }

/-- The all-zero `users` table left by `memset(users, 0, sizeof(users))`. -/
def zero_files : Nat → file_meta_t := fun _ => { file_name := [], start_block := 0 }

def zero_users : Nat → user_meta_t :=
  fun _ => { user_name := [], in_use := 0, files := zero_files }

/-- The function `load_metadata`: both tables are read back from offset 0; a
short read leaves the table zeroed. -/
def load_metadata (L : Layout) (s : State) : State :=
  let n1 := disk_read_count s.disk 0 sizeof_block_used
  let bu : Int → Int :=
    if n1 ≠ sizeof_block_used then fun _ => 0
    else fun b =>
      if 0 ≤ b ∧ b < TOTAL_BLOCKS then int_of_bytes s.disk.bytes (b * SIZEOF_INT)
      else s.block_used b
  let n2 := disk_read_count s.disk (max 0 n1) L.sizeof_users
  let us : Nat → user_meta_t :=
    if n2 ≠ L.sizeof_users then zero_users
    else L.users_of_bytes (fun p => s.disk.bytes (max 0 n1 + p))
  { s with block_used := bu, users := us }

/-- The state `init_disk` builds when `virtual_disk.bin` does not exist yet:
a zero-filled file of `DISK_SIZE` bytes, zeroed tables written out with
`save_metadata`, an empty open table and `next_fd = 3`. -/
def init_disk (L : Layout) : State :=
  save_metadata L
    { disk := { bytes := fun _ => 0, size := DISK_SIZE }
      users := zero_users
      open_table := fun _ =>
        { in_use := 0, fd := 0, user_name := [], file_name := [],
          start_block := 0, current_pos := 0 }
      next_fd := 3
      block_used := fun _ => 0 }

/-! ## Directory and table helpers -/

/-- A C loop `for (i = lo; i < lo + n; i++) if (p i) return i;`: the first
index from `lo` on, among `n`, where `p` holds. -/
def first_index (p : Nat → Bool) : Nat → Nat → Option Nat
  | _, 0 => none
  | lo, n + 1 => if p lo then some lo else first_index p (lo + 1) n

/-- The function `find_user`; the result is the index into `users`. -/
def find_user (L : Layout) (s : State) (user : List Nat) : Option Nat :=
  first_index
    (fun i => decide ((s.users i).in_use ≠ 0 ∧
      strncmp (s.users i).user_name user L.USER_NAME_SIZE = 0))
    0 MAX_USERS

/-- The function `find_or_create_user`. -/
def find_or_create_user (L : Layout) (s : State) (user : List Nat) : State × Option Nat :=
  match find_user L s user with
  | some i => (s, some i)
  | none =>
    match first_index (fun i => decide ((s.users i).in_use = 0)) 0 MAX_USERS with
    | some i =>
      (save_metadata L
        { s with
          users := Function.update s.users i
            (user_meta_t.mk (strncpy user (L.USER_NAME_SIZE - 1)) 1 zero_files) }, some i)
    | none => (s, none)

/-- The function `find_file` on the files of one user; the result is the
index into `files`. -/
def find_file (L : Layout) (u : user_meta_t) (fname : List Nat) : Option Nat :=
  first_index
    (fun j => decide ((u.files j).start_block ≥ 0 ∧
      strncmp (u.files j).file_name fname L.FILE_NAME_SIZE = 0))
    0 MAX_FILES_USER

/-- Store `fm` in slot `j` of user `i`. -/
def set_file (s : State) (i j : Nat) (fm : file_meta_t) : State :=
  { s with
    users := Function.update s.users i
      (user_meta_t.mk (s.users i).user_name (s.users i).in_use
        (Function.update (s.users i).files j fm)) }

/-- The function `create_file_meta` for user `i`: the new state, the slot, and
the value left in `*err`. -/
def create_file_meta (L : Layout) (s : State) (i : Nat) (fname : List Nat) :
    State × Option Nat × Int :=
  match find_file L (s.users i) fname with
  | some _ => (s, none, 1)
  | none =>
    match first_index
        (fun j => decide (((s.users i).files j).start_block < 0 ∨
          ((s.users i).files j).file_name = []))
        0 MAX_FILES_USER with
    | some j =>
      (set_file s i j (file_meta_t.mk (strncpy fname (L.FILE_NAME_SIZE - 1)) (-1)),
        some j, 0)
    | none => (s, none, 2)

/-- The scan of `allocate_blocks` from block `i` on, `fuel` blocks long, with
the current values of `run` and `start`: the start of the first run of
`BLOCKS_PER_FILE` free blocks, if the scan meets one. -/
def allocate_scan (block_used : Int → Int) : Nat → Int → Int → Int → Option Int
  | 0, _, _, _ => none
  | fuel + 1, i, run, start =>
    if block_used i = 0 then
      if run + 1 = BLOCKS_PER_FILE then some (if run = 0 then i else start)
      else allocate_scan block_used fuel (i + 1) (run + 1) (if run = 0 then i else start)
    else allocate_scan block_used fuel (i + 1) 0 (-1)

/-- The function `allocate_blocks`. -/
def allocate_blocks (L : Layout) (s : State) : State × Int :=
  match allocate_scan s.block_used (TOTAL_BLOCKS - 2).toNat 2 0 (-1) with
  | some start =>
    (save_metadata L
      { s with
        block_used := fun j =>
          if start ≤ j ∧ j < start + BLOCKS_PER_FILE then 1 else s.block_used j }, start)
  | none => (s, -1)

/-- The function `free_blocks`. -/
def free_blocks (L : Layout) (s : State) (start_block : Int) : State :=
  if start_block < 0 then s
  else
    save_metadata L
      { s with
        block_used := fun i =>
          if start_block ≤ i ∧ i < start_block + BLOCKS_PER_FILE ∧ i < TOTAL_BLOCKS then 0
          else s.block_used i }

/-- The function `find_open_by_fd`; the result is the index into `open_table`. -/
def find_open_by_fd (s : State) (fd : Int) : Option Nat :=
  first_index
    (fun k => decide ((s.open_table k).in_use ≠ 0 ∧ (s.open_table k).fd = fd))
    0 MAX_OPEN_FILES

/-- The function `alloc_open_entry`. -/
def alloc_open_entry (s : State) : Option Nat :=
  first_index (fun k => decide ((s.open_table k).in_use = 0)) 0 MAX_OPEN_FILES

/-! ## Replies -/

/-- The struct `open_output`. -/
structure open_output where
  fd : Int
  out_msg : String

/-- The struct `read_output`; `buffer_len` and `buffer_val` are the two parts
of the field `buffer`. -/
structure read_output where
  success : Int
  buffer_len : Int
  buffer_val : List Nat
  out_msg : String

/-- The struct `write_output`. -/
structure write_output where
  success : Int
  out_msg : String

/-- The struct `list_output`; the message is a byte string, since it is made
of file names. -/
structure list_output where
  out_msg : List Nat

/-- The struct `delete_output`. -/
structure delete_output where
  out_msg : String

/-- The struct `close_output`. -/
structure close_output where
  out_msg : String

/-- The struct `seek_output`. -/
structure seek_output where
  success : Int
  out_msg : String

/-- The struct `create_output`. -/
structure create_output where
  success : Int
  out_msg : String

/-- The bytes of a C string literal. -/
def c_str (m : String) : List Nat := m.toList.map Char.toNat

/-! ## RPC implementations -/

/-- The handler `open_file_1_svc`. -/
def open_file_1_svc (L : Layout) (s : State) (user_name file_name : List Nat) :
    State × open_output :=
  match find_user L s user_name with
  | none => (s, ⟨-1, "User directory not found"⟩)
  | some i =>
    match find_file L (s.users i) file_name with
    | none => (s, ⟨-1, "File not found"⟩)
    | some j =>
      if ((s.users i).files j).start_block < 0 then (s, ⟨-1, "File not found"⟩)
      else
        match alloc_open_entry s with
        | none => (s, ⟨-1, "Open file table full"⟩)
        | some k =>
          ({ s with
             open_table := Function.update s.open_table k
               (open_entry_t.mk 1 s.next_fd (strncpy user_name L.USER_NAME_SIZE)
                 (strncpy file_name L.FILE_NAME_SIZE) ((s.users i).files j).start_block 0)
             next_fd := wrap32 (s.next_fd + 1) },
            ⟨s.next_fd, "File opened"⟩)

/-- The value of `to_read` / `to_write`: the request count clamped to what is
left of the file behind the cursor. -/
def clamp_count (current_pos numbytes : Int) : Int :=
  if wrap32 (current_pos + numbytes) > file_max_size then wrap32 (file_max_size - current_pos)
  else numbytes

/-- The value of `offset`: the disk offset of the cursor. -/
def disk_offset (start_block current_pos : Int) : Int :=
  wrap32 (wrap32 (start_block * BLOCK_SIZE) + current_pos)

/-- Store a new cursor in entry `k` of the open table. -/
def set_pos (s : State) (k : Nat) (pos : Int) : State :=
  { s with
    open_table := Function.update s.open_table k
      (open_entry_t.mk (s.open_table k).in_use (s.open_table k).fd (s.open_table k).user_name
        (s.open_table k).file_name (s.open_table k).start_block pos) }

/-- The handler `read_file_1_svc`.  A negative `to_read` makes `malloc` fail,
since the count is converted to `size_t`. -/
def read_file_1_svc (s : State) (fd numbytes : Int) : State × read_output :=
  match find_open_by_fd s fd with
  | none => (s, ⟨-1, 0, [], "Invalid file descriptor"⟩)
  | some k =>
    if numbytes ≤ 0 then (s, ⟨-1, 0, [], "Nothing to read"⟩)
    else if (s.open_table k).current_pos ≥ file_max_size then (s, ⟨-1, 0, [], "End of file"⟩)
    else
      let to_read := clamp_count (s.open_table k).current_pos numbytes
      let offset := disk_offset (s.open_table k).start_block (s.open_table k).current_pos
      if offset < 0 ∨ wrap32 (offset + to_read) > DISK_SIZE then
        (s, ⟨-1, 0, [], "Read offset out of range"⟩)
      else if to_read < 0 then (s, ⟨-1, 0, [], "Read alloc failed"⟩)
      else
        let r := disk_read_count s.disk offset to_read
        (set_pos s k (wrap32 ((s.open_table k).current_pos + r)),
          ⟨1, r, disk_read s.disk offset to_read, "Read ok"⟩)

/-- The handler `write_file_1_svc`.  `buffer` is the byte string of the
request (`buffer_val` is NULL exactly when it is empty); bytes the handler
takes from behind its end are read as 0, and `write` stores all `to_write`
bytes.  This is the code's behaviour when `numbytes` is the length of
`buffer`; with a longer `numbytes` the code reads memory behind the buffer. -/
def write_file_1_svc (s : State) (fd numbytes : Int) (buffer : List Nat) :
    State × write_output :=
  match find_open_by_fd s fd with
  | none => (s, ⟨-1, "Invalid file descriptor"⟩)
  | some k =>
    if numbytes ≤ 0 ∨ buffer = [] then (s, ⟨-1, "Nothing to write"⟩)
    else
      let to_write := clamp_count (s.open_table k).current_pos numbytes
      if to_write ≤ 0 then (s, ⟨-1, "No space left in file"⟩)
      else
        let offset := disk_offset (s.open_table k).start_block (s.open_table k).current_pos
        if offset < 0 ∨ wrap32 (offset + to_write) > DISK_SIZE then
          (s, ⟨-1, "Write offset out of range"⟩)
        else
          (set_pos { s with disk := disk_write s.disk offset to_write
                              (fun q => buffer.getD q.toNat 0) }
              k (wrap32 ((s.open_table k).current_pos + to_write)),
            ⟨1, "Write ok (" ++ toString to_write ++ " bytes)"⟩)

/-- The names `list_files_1_svc` appends to its buffer, in slot order. -/
def listed_names (u : user_meta_t) : List (List Nat) :=
  (List.range MAX_FILES_USER).filterMap (fun j =>
    if (u.files j).start_block ≥ 0 ∧ (u.files j).file_name ≠ [] then some (u.files j).file_name
    else none)

/-- The handler `list_files_1_svc`: every listed name is followed by a
newline (byte 10).  The 1024 bytes of `buf` are taken to hold the listing. -/
def list_files_1_svc (L : Layout) (s : State) (user_name : List Nat) : State × list_output :=
  match find_user L s user_name with
  | none => (s, ⟨c_str "User directory empty\n"⟩)
  | some i => (s, ⟨((listed_names (s.users i)).map (fun nm => nm ++ [10])).flatten⟩)

/-- The handler `delete_file_1_svc`.  The code clears the slot with
`file_name[0] = '\0'`, which makes the name the empty string; the bytes the
field keeps behind that NUL are not part of a name and are not modelled. -/
def delete_file_1_svc (L : Layout) (s : State) (user_name file_name : List Nat) :
    State × delete_output :=
  match find_user L s user_name with
  | none => (s, ⟨"User directory not found"⟩)
  | some i =>
    match find_file L (s.users i) file_name with
    | none => (s, ⟨"File not found"⟩)
    | some j =>
      match first_index
          (fun k => decide ((s.open_table k).in_use ≠ 0 ∧
            strncmp (s.open_table k).user_name user_name L.USER_NAME_SIZE = 0 ∧
            strncmp (s.open_table k).file_name file_name L.FILE_NAME_SIZE = 0))
          0 MAX_OPEN_FILES with
      | some _ => (s, ⟨"Cannot delete open file"⟩)
      | none =>
        (save_metadata L
          (set_file (free_blocks L s ((s.users i).files j).start_block) i j
            (file_meta_t.mk [] (-1))),
          ⟨"File deleted"⟩)

/-- The handler `close_file_1_svc`. -/
def close_file_1_svc (s : State) (fd : Int) : State × close_output :=
  match find_open_by_fd s fd with
  | none => (s, ⟨"Invalid file descriptor"⟩)
  | some k =>
    ({ s with
       open_table := Function.update s.open_table k
         (open_entry_t.mk 0 (s.open_table k).fd (s.open_table k).user_name
           (s.open_table k).file_name (s.open_table k).start_block
           (s.open_table k).current_pos) },
      ⟨"File closed"⟩)

/-- The handler `seek_position_1_svc`. -/
def seek_position_1_svc (s : State) (fd position : Int) : State × seek_output :=
  match find_open_by_fd s fd with
  | none => (s, ⟨-1, "Invalid file descriptor"⟩)
  | some k =>
    if position < 0 ∨ position > file_max_size then (s, ⟨-1, "Invalid position"⟩)
    else (set_pos s k position, ⟨1, "Seek ok"⟩)

/-- The handler `create_file_1_svc`. -/
def create_file_1_svc (L : Layout) (s : State) (user_name file_name : List Nat) :
    State × create_output :=
  let r1 := find_or_create_user L s user_name
  match r1.2 with
  | none => (r1.1, ⟨-1, "Too many users"⟩)
  | some i =>
    let r2 := create_file_meta L r1.1 i file_name
    match r2.2.1 with
    | none =>
      (r2.1, ⟨-1, if r2.2.2 = 1 then "File already exists" else "Max files per user reached"⟩)
    | some j =>
      let r3 := allocate_blocks L r2.1
      if r3.2 < 0 then (r3.1, ⟨-1, "No space on disk"⟩)
      else
        (save_metadata L
          (set_file r3.1 i j (file_meta_t.mk ((r3.1.users i).files j).file_name r3.2)),
          ⟨1, "File created"⟩)

/-! ## Requests and reachable states -/

/-- A request to the server, one constructor per remote procedure.  The user
name that read, write, seek and close requests carry as well is left out: the
server only prints it. -/
inductive Request where
  | create_file (user_name file_name : List Nat)
  | open_file (user_name file_name : List Nat)
  | read_file (fd numbytes : Int)
  | write_file (fd numbytes : Int) (buffer : List Nat)
  | seek_position (fd position : Int)
  | close_file (fd : Int)
  | delete_file (user_name file_name : List Nat)
  | list_files (user_name : List Nat)

/-- The state the server is in after it has served a request. -/
def serve (L : Layout) (s : State) : Request → State
  | .create_file u f => (create_file_1_svc L s u f).1
  | .open_file u f => (open_file_1_svc L s u f).1
  | .read_file fd n => (read_file_1_svc s fd n).1
  | .write_file fd n b => (write_file_1_svc s fd n b).1
  | .seek_position fd pos => (seek_position_1_svc s fd pos).1
  | .close_file fd => (close_file_1_svc s fd).1
  | .delete_file u f => (delete_file_1_svc L s u f).1
  | .list_files u => (list_files_1_svc L s u).1

/-- The state after a sequence of requests. -/
def serve_all (L : Layout) (s : State) (reqs : List Request) : State :=
  reqs.foldl (serve L) s

/-- States the server reaches from a fresh image by requests that all
satisfy `P`. -/
inductive ReachableBy (L : Layout) (P : Request → Prop) : State → Prop where
  | init : ReachableBy L P (init_disk L)
  | step (s : State) (r : Request) : ReachableBy L P s → P r → ReachableBy L P (serve L s r)

/-- States the server reaches from a fresh image by any sequence of
requests. -/
def Reachable (L : Layout) (s : State) : Prop := ReachableBy L (fun _ => True) s

/-! ## A concrete layout

The usual x86-64 layout of `users` for given name sizes (multiples of 4): a
user is its name, `in_use`, then ten files, each a name and `start_block`. -/

/-- The value of `sizeof(file_meta_t)` for a name field of `nf` bytes. -/
def abi_sizeof_file (nf : Nat) : Int := nf + 4

/-- The value of `sizeof(user_meta_t)` for name fields of `nu` and `nf` bytes. -/
def abi_sizeof_user (nu nf : Nat) : Int := nu + 4 + 10 * abi_sizeof_file nf

/-- Byte `q` of the memory image of one file entry. -/
def abi_file_byte (nf : Nat) (fm : file_meta_t) (q : Int) : Nat :=
  if q < nf then fm.file_name.getD q.toNat 0 else int_byte fm.start_block (q - nf)

/-- Byte `q` of the memory image of one user entry. -/
def abi_user_byte (nu nf : Nat) (u : user_meta_t) (q : Int) : Nat :=
  if q < nu then u.user_name.getD q.toNat 0
  else if q < nu + 4 then int_byte u.in_use (q - nu)
  else abi_file_byte nf (u.files ((q - (nu + 4)) / abi_sizeof_file nf).toNat)
    ((q - (nu + 4)) % abi_sizeof_file nf)

/-- The file entry whose memory image starts at offset `off` of `f`. -/
def abi_file_of_bytes (nf : Nat) (f : Int → Nat) (off : Int) : file_meta_t :=
  { file_name := strncpy (bytes_from f off nf) nf
    start_block := int_of_bytes f (off + nf) }

/-- The layout with name fields of `nu` and `nf` bytes. -/
def abi_layout (nu nf : Nat) : Layout :=
  { USER_NAME_SIZE := nu
    FILE_NAME_SIZE := nf
    sizeof_users := 10 * abi_sizeof_user nu nf
    users_bytes := fun us p =>
      abi_user_byte nu nf (us (p / abi_sizeof_user nu nf).toNat) (p % abi_sizeof_user nu nf)
    users_of_bytes := fun f i =>
      { user_name := strncpy (bytes_from f (i * abi_sizeof_user nu nf) nu) nu
        in_use := int_of_bytes f (i * abi_sizeof_user nu nf + nu)
        files := fun j =>
          abi_file_of_bytes nf f (i * abi_sizeof_user nu nf + nu + 4 + j * abi_sizeof_file nf) } }

/-! ## Predicates on states -/

/-- The field `start_block` of slot `j` of user `i`. -/
def slot_start (s : State) (i j : Nat) : Int := ((s.users i).files j).start_block

/-- The field `file_name` of slot `j` of user `i`. -/
def slot_name (s : State) (i j : Nat) : List Nat := ((s.users i).files j).file_name

/-- Facts that hold in every reachable state.  A slot's `start_block` is -1
(unallocated or deleted), 0 (zero-filled, never used) or the start of an
extent handed out by `allocate_blocks`; extents of different slots are
disjoint; the blocks of an extent from block 64 on are marked used; an open
session points at a start block whose extent lies on the disk. -/
structure Inv (s : State) : Prop where
  slot : ∀ i j, slot_start s i j = -1 ∨ slot_start s i j = 0 ∨
    (2 ≤ slot_start s i j ∧ slot_start s i j + 64 ≤ 32768)
  disjoint : ∀ i j i' j', (i ≠ i' ∨ j ≠ j') → 2 ≤ slot_start s i j → 2 ≤ slot_start s i' j' →
    slot_start s i j + 64 ≤ slot_start s i' j' ∨ slot_start s i' j' + 64 ≤ slot_start s i j
  marked : ∀ i j, 2 ≤ slot_start s i j → ∀ b, slot_start s i j ≤ b →
    b < slot_start s i j + 64 → 64 ≤ b → s.block_used b ≠ 0
  sess : ∀ k, (s.open_table k).in_use ≠ 0 →
    0 ≤ (s.open_table k).start_block ∧ (s.open_table k).start_block + 64 ≤ 32768
  size : DISK_SIZE ≤ s.disk.size

/-- Slot `j` of user `i` holds a file that was created and not deleted since:
`create_file_1_svc` stores the extent it got from `allocate_blocks` (never
block 0) in `start_block`, `delete_file_1_svc` stores -1, and a slot that was
never used still has the 0 of `memset`. -/
def holds_file (s : State) (i j : Nat) : Prop := 0 < slot_start s i j

instance (s : State) (i j : Nat) : Decidable (holds_file s i j) :=
  inferInstanceAs (Decidable (0 < slot_start s i j))

/-- The bitmap after `allocate_blocks` marked the extent starting at `st`. -/
def mark_used (block_used : Int → Int) (st : Int) : Int → Int :=
  fun j => if st ≤ j ∧ j < st + BLOCKS_PER_FILE then 1 else block_used j

/-- A name that is NUL-terminated inside a field of `n` bytes. -/
def terminated (a : List Nat) (n : Nat) : Prop := (strncpy a n).length < n

instance (a : List Nat) (n : Nat) : Decidable (terminated a n) :=
  inferInstanceAs (Decidable ((strncpy a n).length < n))

/-- The request is argument-valid in the sense of the spec (its section on
scope): every name it carries is NUL-terminated inside its field. -/
def names_terminated (L : Layout) : Request → Prop
  | .create_file u f => terminated u L.USER_NAME_SIZE ∧ terminated f L.FILE_NAME_SIZE
  | .open_file u f => terminated u L.USER_NAME_SIZE ∧ terminated f L.FILE_NAME_SIZE
  | .delete_file u f => terminated u L.USER_NAME_SIZE ∧ terminated f L.FILE_NAME_SIZE
  | .list_files u => terminated u L.USER_NAME_SIZE
  | _ => True

instance (L : Layout) (r : Request) : Decidable (names_terminated L r) := by
  cases r <;> unfold names_terminated <;> infer_instance

/-- Facts about the names in the directory that hold in every state reached
by requests with NUL-terminated names: a stored name is what `strncpy` leaves
of it, and a slot that holds a file shares its name with no other allocated
slot of the same user. -/
structure NInv (L : Layout) (s : State) : Prop where
  fixed : ∀ i j, strncpy (slot_name s i j) L.FILE_NAME_SIZE = slot_name s i j
  uniq : ∀ i j j', j < MAX_FILES_USER → j' < MAX_FILES_USER → j ≠ j' →
    0 < slot_start s i j → 0 ≤ slot_start s i j' → slot_name s i j ≠ slot_name s i j'

/-! ## Sample data for concrete runs -/

/-- A layout with 32-byte name fields. -/
def layout32 : Layout := abi_layout 32 32

def alice : List Nat := c_str "alice"

def file_F : List Nat := c_str "F"

def file_G : List Nat := c_str "G"

/-- A fresh server after `create("alice","F")`. -/
def state_F : State :=
  serve_all layout32 (init_disk layout32) [Request.create_file alice file_F]

/-- A fresh server after `create("alice","F")` and `open("alice","F")`, which
returns descriptor 3. -/
def state_open_F : State :=
  serve_all layout32 (init_disk layout32)
    [Request.create_file alice file_F, Request.open_file alice file_F]

/-- The requests `create("alice","F")`, `create("alice","G")`. -/
def requests_F_G : List Request :=
  [Request.create_file alice file_F, Request.create_file alice file_G]

/-- A fresh server after `create("alice","F")` and `create("alice","G")`. -/
def state_F_G : State := serve_all layout32 (init_disk layout32) requests_F_G

/-- A fresh server after `create("alice","F")` and twenty successful
`open("alice","F")`: every entry of the open table is in use. -/
def state_table_full : State :=
  serve_all layout32 (init_disk layout32)
    (Request.create_file alice file_F :: List.replicate 20 (Request.open_file alice file_F))

/-- A byte string of `file_max_size + 1` bytes. -/
def long_data : List Nat := List.replicate 32769 7

/-- A file name of 31 characters, NUL-terminated inside a 32-byte field. -/
def name_31 : List Nat := List.replicate 31 97

/-- A file name that fills a 32-byte field without a NUL. -/
def name_32 : List Nat := List.replicate 32 97

/-- A fresh server after `create("alice","F")` and two `open("alice","F")`,
which return the descriptors 3 and 4. -/
def state_two_sessions : State :=
  serve_all layout32 (init_disk layout32)
    [Request.create_file alice file_F, Request.open_file alice file_F,
      Request.open_file alice file_F]

/-- A fact about the zero-filled slots that holds in every reachable state: a
slot whose `start_block` is 0 has the empty name (it is as `memset` left
it). -/
def ZInv (s : State) : Prop := ∀ i j, slot_start s i j = 0 → slot_name s i j = []

/-- The requests `create("alice","0")`, ..., `create("alice","9")`. -/
def ten_creates : List Request :=
  (List.range 10).map (fun d => Request.create_file alice [48 + d])

/-- A fresh server after ten creates that fill the directory of alice,
`delete("alice","0")` and `create("alice","")`. -/
def state_unnamed_file : State :=
  serve_all layout32 (init_disk layout32)
    (ten_creates ++ [Request.delete_file alice [48], Request.create_file alice []])

/-- The server after `create("alice","F")`, `open("alice","F") = 3` and `m`
rounds of an `open("alice","F")` followed by the `close` of the descriptor it
returned: session 3 is open in entry 0, entry 1 is free again and holds the
descriptor of the last round, and `next_fd` has been incremented `m` times
more. -/
def cycle_state (m : Nat) : State :=
  State.mk state_open_F.disk state_open_F.users
    (Function.update state_open_F.open_table 1
      (open_entry_t.mk 0 (wrap32 (3 + (m : Int))) (strncpy alice layout32.USER_NAME_SIZE)
        (strncpy file_F layout32.FILE_NAME_SIZE) 2 0))
    (wrap32 (4 + (m : Int))) state_open_F.block_used

/-- The requests of `n` rounds from round `a` on: in round `m` the server is
asked `open("alice","F")`, which returns `wrap32 (4 + m)`, and then the `close`
of that descriptor. -/
def cycle_requests (a : Nat) : Nat → List Request
  | 0 => []
  | n + 1 =>
    cycle_requests a n ++
      [Request.open_file alice file_F, Request.close_file (wrap32 (4 + ((a + n : Nat) : Int)))]

/-- The requests that bring the descriptor counter back to 3: after
`create("alice","F")` and `open("alice","F") = 3`, which stays open,
4294967295 rounds of `open("alice","F")` and the `close` of the descriptor it
returned (4, 5, ..., 2147483647, -2147483648, ..., 2). -/
def wrap_requests : List Request :=
  [Request.open_file alice file_F, Request.close_file 4] ++ cycle_requests 1 4294967294

/-- The server after `create`, `open` and `wrap_requests`. -/
def state_wrapped : State := serve_all layout32 state_open_F wrap_requests

/-- Facts about the descriptors that hold as long as `next_fd` has not
wrapped around: the counter is at least 3, every session in use has a
descriptor from 3 up to the counter, and two sessions in use have different
descriptors. -/
structure FInv (s : State) : Prop where
  lo : 3 ≤ s.next_fd
  below : ∀ k, (s.open_table k).in_use ≠ 0 →
    3 ≤ (s.open_table k).fd ∧ (s.open_table k).fd < s.next_fd
  distinct : ∀ k k', k ≠ k' → (s.open_table k).in_use ≠ 0 → (s.open_table k').in_use ≠ 0 →
    (s.open_table k).fd ≠ (s.open_table k').fd

/-- The descriptors that the successful opens among the requests return, in
the order of the requests. -/
def open_handles (L : Layout) : State → List Request → List Int
  | _, [] => []
  | s, Request.open_file u f :: rs =>
    if (open_file_1_svc L s u f).2.out_msg = "File opened" then
      (open_file_1_svc L s u f).2.fd :: open_handles L (serve L s (Request.open_file u f)) rs
    else open_handles L (serve L s (Request.open_file u f)) rs
  | s, r :: rs => open_handles L (serve L s r) rs

/-- The byte count of a read or write request is small enough for
`current_pos + numbytes` not to overflow an `int` when the cursor is inside
the file: at most `INT_MAX - file_max_size`. -/
def small_counts : Request → Prop
  | .read_file _ n => n ≤ 2147450879
  | .write_file _ n _ => n ≤ 2147450879
  | _ => True

/-- Every session in use has its cursor inside the file. -/
def CInv (s : State) : Prop :=
  ∀ k, (s.open_table k).in_use ≠ 0 →
    0 ≤ (s.open_table k).current_pos ∧ (s.open_table k).current_pos ≤ file_max_size

/-- The file name of a create or delete request is not empty in the form the
directory stores or compares it: its first byte is not NUL (and the name field
has room for it). -/
def stored_names (L : Layout) : Request → Prop
  | .create_file _ f => strncpy f (L.FILE_NAME_SIZE - 1) ≠ []
  | .delete_file _ f => strncpy f L.FILE_NAME_SIZE ≠ []
  | _ => True

instance (L : Layout) (r : Request) : Decidable (stored_names L r) := by
  cases r <;> unfold stored_names <;> infer_instance

/-- Facts about the bitmap that hold in every state reached by requests whose
file names are not empty: a block is marked used exactly when it lies in the
extent of a slot; a slot with an extent has a name, belongs to a user in use
and lies inside the tables. -/
structure BInv (s : State) : Prop where
  exact : ∀ b, s.block_used b ≠ 0 ↔
    ∃ i j, 2 ≤ slot_start s i j ∧ slot_start s i j ≤ b ∧ b < slot_start s i j + 64
  named : ∀ i j, 2 ≤ slot_start s i j → slot_name s i j ≠ []
  idle : ∀ i, (s.users i).in_use = 0 → ∀ j, slot_start s i j < 2
  bounded : ∀ i j, 2 ≤ slot_start s i j → i < MAX_USERS ∧ j < MAX_FILES_USER

/-- The file name "x". -/
def file_x : List Nat := c_str "x"

/-- The directory of alice while one slot is churned: alice is user 0, her
slots 0 to 8 hold the files "0" to "8", slot 9 has the name `nm` and the start
block `st`, no other slot has an extent, the blocks marked used among the
allocatable ones are exactly the first `K` extents `[2, 2 + 64 * K)`, and no
session is open. -/
structure Churn (nm : List Nat) (st : Int) (K : Int) (s : State) : Prop where
  user : find_user layout32 s alice = some 0
  files : ∀ j, j < 9 → slot_name s 0 j = [48 + j] ∧ 0 ≤ slot_start s 0 j
  last : slot_name s 0 9 = nm ∧ slot_start s 0 9 = st
  only : ∀ i j, 2 ≤ slot_start s i j → i = 0 ∧ j < 10
  bitmap : ∀ b, 2 ≤ b → b < 32768 → (s.block_used b = 0 ↔ 2 + 64 * K ≤ b)
  closed : ∀ k, k < MAX_OPEN_FILES → (s.open_table k).in_use = 0

/-- One round that loses an extent: `create("alice","x")` takes slot 9, whose
file has the empty name, without freeing its extent; `delete("alice","x")` and
`create("alice","")` put a file with the empty name into slot 9 again. -/
def leak_round : List Request :=
  [Request.create_file alice file_x, Request.delete_file alice file_x,
    Request.create_file alice []]

/-- The requests that fill the disk: ten creates that fill the directory of
alice, `delete("alice","9")`, `create("alice","")`, and 501 rounds that lose
an extent each. -/
def leak_requests : List Request :=
  ten_creates ++ [Request.delete_file alice [57], Request.create_file alice []] ++
    (List.replicate 501 leak_round).flatten

/-- The server after `leak_requests`. -/
def state_disk_full : State := serve_all layout32 (init_disk layout32) leak_requests

/-- Every extent of a slot starts at a block congruent to 2 modulo 64. -/
def Aligned (s : State) : Prop :=
  ∀ i j, 2 ≤ slot_start s i j → (slot_start s i j - 2) % 64 = 0

/-- A fresh server after two `create` of alice with the same file name of 32
characters and no NUL: both succeed, and two slots have the first 31
characters as their name. -/
def state_twice_32 : State :=
  serve_all layout32 (init_disk layout32)
    [Request.create_file alice name_32, Request.create_file alice name_32]

/-! ## Basic facts -/

theorem wrap32_of_range (x : Int) (h1 : -2147483648 ≤ x) (h2 : x < 2147483648) :
    wrap32 x = x := by
  unfold wrap32
  omega

theorem first_index_some (p : Nat → Bool) :
    ∀ (n lo k : Nat), first_index p lo n = some k →
      lo ≤ k ∧ k < lo + n ∧ p k = true ∧ ∀ m, lo ≤ m → m < k → p m = false := by
  intro n
  induction n with
  | zero => intro lo k h; simp [first_index] at h
  | succ n ih =>
    intro lo k h
    unfold first_index at h
    by_cases hp : p lo = true
    · simp [hp] at h
      subst h
      refine ⟨le_refl _, by omega, hp, ?_⟩
      intro m h1 h2
      omega
    · simp [hp] at h
      obtain ⟨h1, h2, h3, h4⟩ := ih (lo + 1) k h
      refine ⟨by omega, by omega, h3, ?_⟩
      intro m hm1 hm2
      by_cases hml : m = lo
      · subst hml
        simpa using hp
      · exact h4 m (by omega) hm2

theorem first_index_none (p : Nat → Bool) :
    ∀ (n lo : Nat), first_index p lo n = none →
      ∀ m, lo ≤ m → m < lo + n → p m = false := by
  intro n
  induction n with
  | zero => intro lo _ m h1 h2; omega
  | succ n ih =>
    intro lo h m h1 h2
    unfold first_index at h
    by_cases hp : p lo = true
    · simp [hp] at h
    · simp [hp] at h
      by_cases hml : m = lo
      · subst hml
        simpa using hp
      · exact ih (lo + 1) h m (by omega) (by omega)

theorem first_index_first (p : Nat → Bool) :
    ∀ (n lo k : Nat), lo ≤ k → k < lo + n → p k = true →
      (∀ m, lo ≤ m → m < k → p m = false) → first_index p lo n = some k := by
  intro n
  induction n with
  | zero => intro lo k h1 h2; omega
  | succ n ih =>
    intro lo k h1 h2 h3 h4
    unfold first_index
    by_cases hkl : k = lo
    · subst hkl
      simp [h3]
    · have hlo : p lo = false := h4 lo (le_refl _) (by omega)
      simp [hlo]
      exact ih (lo + 1) k (by omega) (by omega) h3 (fun m hm1 hm2 => h4 m (by omega) hm2)

theorem first_index_congr (p q : Nat → Bool) (lo n : Nat)
    (h : ∀ m, lo ≤ m → m < lo + n → p m = q m) :
    first_index p lo n = first_index q lo n := by
  induction n generalizing lo with
  | zero => simp [first_index]
  | succ n ih =>
    unfold first_index
    rw [h lo (le_refl _) (by omega), ih (lo + 1) (fun m h1 h2 => h m (by omega) (by omega))]

theorem first_index_exists (p : Nat → Bool) (lo n k : Nat)
    (h1 : lo ≤ k) (h2 : k < lo + n) (h3 : p k = true) :
    ∃ k0, first_index p lo n = some k0 := by
  cases h : first_index p lo n with
  | some k0 => exact ⟨k0, rfl⟩
  | none =>
    have := first_index_none p n lo h k h1 h2
    rw [h3] at this
    cases this

theorem strncmp_eq_zero_iff (n : Nat) :
    ∀ (a b : List Nat), strncmp a b n = 0 ↔ strncpy a n = strncpy b n := by
  induction n with
  | zero => intro a b; simp [strncmp, strncpy]
  | succ n ih =>
    intro a b
    cases a with
    | nil =>
      cases b with
      | nil => simp [strncmp, strncpy]
      | cons d ds =>
        by_cases hd : d = 0
        · simp [strncmp, strncpy, hd]
        · simp [strncmp, strncpy, hd]
          omega
    | cons c cs =>
      cases b with
      | nil =>
        by_cases hc : c = 0
        · simp [strncmp, strncpy, hc]
        · simp [strncmp, strncpy, hc]
      | cons d ds =>
        by_cases hcd : c = d
        · subst hcd
          by_cases hc : c = 0
          · simp [strncmp, strncpy, hc]
          · simp [strncmp, strncpy, hc, ih]
        · by_cases hc : c = 0
          · by_cases hd : d = 0
            · omega
            · simp [strncmp, strncpy, hc, hd, hcd]
              omega
          · by_cases hd : d = 0
            · simp [strncmp, strncpy, hc, hd, hcd]
            · simp [strncmp, strncpy, hc, hd, hcd]
              omega

theorem strncpy_idem (n : Nat) : ∀ (a : List Nat), strncpy (strncpy a n) n = strncpy a n := by
  induction n with
  | zero => intro a; simp [strncpy]
  | succ n ih =>
    intro a
    cases a with
    | nil => simp [strncpy]
    | cons c cs =>
      by_cases hc : c = 0
      · simp [strncpy, hc]
      · simp [strncpy, hc, ih]

theorem strncpy_length_le (n : Nat) : ∀ (a : List Nat), (strncpy a n).length ≤ n := by
  induction n with
  | zero => intro a; simp [strncpy]
  | succ n ih =>
    intro a
    cases a with
    | nil => simp [strncpy]
    | cons c cs =>
      by_cases hc : c = 0
      · simp [strncpy, hc]
      · simp [strncpy, hc]
        exact ih cs

/-! ## The allocator scan -/

theorem BLOCKS_PER_FILE_eq : BLOCKS_PER_FILE = 64 := rfl

theorem TOTAL_BLOCKS_eq : TOTAL_BLOCKS = 32768 := by decide

theorem DISK_SIZE_eq : DISK_SIZE = 16777216 := by decide

theorem BLOCK_SIZE_eq : BLOCK_SIZE = 512 := rfl

theorem file_max_size_eq : file_max_size = 32768 := by decide

theorem allocate_scan_spec (bu : Int → Int) :
    ∀ (fuel : Nat) (i run start st : Int),
      allocate_scan bu fuel i run start = some st →
      0 ≤ run → run < 64 → 2 ≤ i - run →
      (run ≠ 0 → start = i - run) →
      (∀ b, i - run ≤ b → b < i → bu b = 0) →
      2 ≤ st ∧ st + 64 ≤ i + fuel ∧ ∀ b, st ≤ b → b < st + 64 → bu b = 0 := by
  intro fuel
  induction fuel with
  | zero => intro i run start st h; simp [allocate_scan] at h
  | succ fuel ih =>
    intro i run start st h h0 h1 h2 h3 h4
    unfold allocate_scan at h
    rw [BLOCKS_PER_FILE_eq] at h
    by_cases hfree : bu i = 0
    · rw [if_pos hfree] at h
      by_cases hrun : run + 1 = 64
      · rw [if_pos hrun] at h
        have hr0 : run ≠ 0 := by omega
        rw [if_neg hr0] at h
        have hst : st = start := by simpa using h.symm
        have hs := h3 hr0
        refine ⟨by omega, by push_cast; omega, ?_⟩
        intro b hb1 hb2
        by_cases hbi : b = i
        · rw [hbi]; exact hfree
        · exact h4 b (by omega) (by omega)
      · rw [if_neg hrun] at h
        have := ih (i + 1) (run + 1) (if run = 0 then i else start) st h (by omega) (by omega)
          (by omega)
          (by
            intro _
            by_cases hr0 : run = 0
            · rw [if_pos hr0]; omega
            · rw [if_neg hr0, h3 hr0]; omega)
          (by
            intro b hb1 hb2
            by_cases hbi : b = i
            · rw [hbi]; exact hfree
            · exact h4 b (by omega) (by omega))
        refine ⟨this.1, by push_cast; omega, this.2.2⟩
    · rw [if_neg hfree] at h
      have := ih (i + 1) 0 (-1) st h (by omega) (by omega) (by omega)
        (by intro hne; exact absurd rfl hne)
        (by intro b hb1 hb2; omega)
      refine ⟨this.1, by push_cast; omega, this.2.2⟩

/-- What a successful `allocate_blocks` returns: a start block from 2 on whose
64 blocks lie on the disk and were all free. -/
theorem allocate_scan_start (bu : Int → Int) (st : Int)
    (h : allocate_scan bu (TOTAL_BLOCKS - 2).toNat 2 0 (-1) = some st) :
    2 ≤ st ∧ st + 64 ≤ 32768 ∧ ∀ b, st ≤ b → b < st + 64 → bu b = 0 := by
  have := allocate_scan_spec bu (TOTAL_BLOCKS - 2).toNat 2 0 (-1) st h (by omega) (by omega)
    (by omega) (by intro hne; exact absurd rfl hne) (by intro b hb1 hb2; omega)
  rw [TOTAL_BLOCKS_eq] at this
  refine ⟨this.1, ?_, this.2.2⟩
  have h2 := this.2.1
  simp at h2
  omega

/-! ## The invariant of the directory, the bitmap and the open table -/

theorem slot_start_set_file (s : State) (i j : Nat) (fm : file_meta_t) (i' j' : Nat) :
    slot_start (set_file s i j fm) i' j' =
      if i' = i ∧ j' = j then fm.start_block else slot_start s i' j' := by
  unfold slot_start set_file
  by_cases hi : i' = i
  · subst hi
    by_cases hj : j' = j
    · subst hj; simp
    · simp [hj, Function.update_noteq hj]
  · simp [hi, Function.update_noteq hi]

theorem disk_write_size_le (d : Disk) (off len : Int) (src : Int → Nat) :
    d.size ≤ (disk_write d off len src).size := by
  unfold disk_write
  exact le_max_left _ _

theorem save_metadata_size_le (L : Layout) (s : State) :
    s.disk.size ≤ (save_metadata L s).disk.size := by
  unfold save_metadata
  exact le_trans (disk_write_size_le _ _ _ _) (disk_write_size_le _ _ _ _)

/-- A step that leaves the directory and the bitmap alone keeps the
invariant, if its sessions are sound and the disk did not shrink. -/
theorem Inv.inv_frame {s t : State} (h : Inv s) (hu : t.users = s.users)
    (hb : t.block_used = s.block_used)
    (hs : ∀ k, (t.open_table k).in_use ≠ 0 →
      0 ≤ (t.open_table k).start_block ∧ (t.open_table k).start_block + 64 ≤ 32768)
    (hd : s.disk.size ≤ t.disk.size) : Inv t := by
  constructor
  · intro i j; simpa [slot_start, hu] using h.slot i j
  · intro i j i' j'; simpa [slot_start, hu] using h.disjoint i j i' j'
  · intro i j; simpa [slot_start, hu, hb] using h.marked i j
  · exact hs
  · exact le_trans h.size hd

theorem Inv.inv_save_metadata {s : State} (L : Layout) (h : Inv s) : Inv (save_metadata L s) :=
  h.inv_frame rfl rfl h.sess (save_metadata_size_le L s)

/-- A step that only rewrites directory slots, each either kept or set to -1
or 0, and leaves the bitmap, the table and the disk alone, keeps the
invariant. -/
theorem Inv.inv_shrink {s t : State} (h : Inv s)
    (hu : ∀ i j, slot_start t i j = slot_start s i j ∨ slot_start t i j = -1 ∨
      slot_start t i j = 0)
    (hb : t.block_used = s.block_used) (ho : t.open_table = s.open_table)
    (hd : s.disk.size ≤ t.disk.size) : Inv t := by
  constructor
  · intro i j
    rcases hu i j with e | e | e
    · rw [e]; exact h.slot i j
    · exact Or.inl e
    · exact Or.inr (Or.inl e)
  · intro i j i' j' hne h1 h2
    rcases hu i j with e | e | e
    · rcases hu i' j' with e' | e' | e'
      · rw [e, e']; rw [e] at h1; rw [e'] at h2
        exact h.disjoint i j i' j' hne h1 h2
      · omega
      · omega
    · omega
    · omega
  · intro i j h1 b hb1 hb2 hb3
    rw [hb]
    rcases hu i j with e | e | e
    · rw [e] at h1 hb1 hb2
      exact h.marked i j h1 b hb1 hb2 hb3
    · omega
    · omega
  · intro k; rw [ho]; exact h.sess k
  · exact le_trans h.size hd

theorem Inv.inv_find_or_create_user {s : State} (L : Layout) (user : List Nat) (h : Inv s) :
    Inv (find_or_create_user L s user).1 := by
  unfold SSNFS.find_or_create_user
  split
  · exact h
  · split
    · rename_i i _
      apply Inv.inv_save_metadata
      refine h.inv_shrink ?_ rfl rfl (le_refl _)
      intro i' j
      by_cases hi : i' = i
      · right; right
        subst hi
        simp [slot_start, zero_files]
      · left
        simp [slot_start, Function.update_noteq hi]
    · exact h

theorem Inv.inv_create_file_meta {s : State} (L : Layout) (i : Nat) (fname : List Nat)
    (h : Inv s) : Inv (create_file_meta L s i fname).1 := by
  unfold SSNFS.create_file_meta
  split
  · exact h
  · split
    · rename_i j _
      refine h.inv_shrink ?_ rfl rfl (le_refl _)
      intro i' j'
      rw [slot_start_set_file]
      by_cases hc : i' = i ∧ j' = j
      · right; left; simp [hc]
      · left; simp [hc]
    · exact h

/-- The two outcomes of `allocate_blocks`. -/
theorem allocate_blocks_cases (L : Layout) (s : State) :
    (allocate_scan s.block_used (TOTAL_BLOCKS - 2).toNat 2 0 (-1) = none ∧
      allocate_blocks L s = (s, -1)) ∨
    (∃ st, allocate_scan s.block_used (TOTAL_BLOCKS - 2).toNat 2 0 (-1) = some st ∧
      allocate_blocks L s =
        (save_metadata L
          { s with
            block_used := fun j =>
              if st ≤ j ∧ j < st + BLOCKS_PER_FILE then 1 else s.block_used j }, st)) := by
  unfold allocate_blocks
  cases h : allocate_scan s.block_used (TOTAL_BLOCKS - 2).toNat 2 0 (-1) with
  | none => left; simp
  | some st => right; exact ⟨st, rfl, rfl⟩

/-- Giving slot `(i, j)` a freshly allocated extent keeps the invariant. -/
theorem Inv.inv_assign_extent {s t : State} (h : Inv s) (i j : Nat) (st : Int)
    (hst : 2 ≤ st ∧ st + 64 ≤ 32768 ∧ ∀ b, st ≤ b → b < st + 64 → s.block_used b = 0)
    (hu : ∀ i' j', slot_start t i' j' = if i' = i ∧ j' = j then st else slot_start s i' j')
    (hb : ∀ b, t.block_used b = if st ≤ b ∧ b < st + 64 then 1 else s.block_used b)
    (ho : t.open_table = s.open_table) (hd : s.disk.size ≤ t.disk.size) : Inv t := by
  obtain ⟨hs1, hs2, hs3⟩ := hst
  have key : ∀ i' j', 2 ≤ slot_start s i' j' →
      slot_start s i' j' + 64 ≤ st ∨ st + 64 ≤ slot_start s i' j' := by
    intro i' j' h2
    by_contra hcon
    by_cases hle : st ≤ slot_start s i' j'
    · have h1 := h.marked i' j' h2 (st + 63) (by omega) (by omega) (by omega)
      exact h1 (hs3 (st + 63) (by omega) (by omega))
    · have h1 := h.marked i' j' h2 (slot_start s i' j' + 63) (by omega) (by omega) (by omega)
      exact h1 (hs3 (slot_start s i' j' + 63) (by omega) (by omega))
  constructor
  · intro i' j'
    rw [hu]
    by_cases hc : i' = i ∧ j' = j
    · rw [if_pos hc]; right; right; exact ⟨hs1, hs2⟩
    · rw [if_neg hc]; exact h.slot i' j'
  · intro i1 j1 i2 j2 hne h1 h2
    rw [hu] at h1 h2 ⊢
    rw [hu]
    by_cases hc1 : i1 = i ∧ j1 = j
    · by_cases hc2 : i2 = i ∧ j2 = j
      · exfalso
        obtain ⟨a1, a2⟩ := hc1
        obtain ⟨b1, b2⟩ := hc2
        rcases hne with hne | hne
        · exact hne (a1.trans b1.symm)
        · exact hne (a2.trans b2.symm)
      · rw [if_pos hc1, if_neg hc2]
        rw [if_neg hc2] at h2
        have := key i2 j2 h2
        omega
    · by_cases hc2 : i2 = i ∧ j2 = j
      · rw [if_neg hc1, if_pos hc2]
        rw [if_neg hc1] at h1
        exact key i1 j1 h1
      · rw [if_neg hc1, if_neg hc2]
        rw [if_neg hc1] at h1
        rw [if_neg hc2] at h2
        exact h.disjoint i1 j1 i2 j2 hne h1 h2
  · intro i' j' h1 b hb1 hb2 hb3
    rw [hb]
    rw [hu] at h1 hb1 hb2
    by_cases hin : st ≤ b ∧ b < st + 64
    · rw [if_pos hin]; decide
    · rw [if_neg hin]
      by_cases hc : i' = i ∧ j' = j
      · rw [if_pos hc] at hb1 hb2
        omega
      · rw [if_neg hc] at h1 hb1 hb2
        exact h.marked i' j' h1 b hb1 hb2 hb3
  · intro k; rw [ho]; exact h.sess k
  · exact le_trans h.size hd

/-- Freeing the extent of slot `(i, j)` and clearing the slot keeps the
invariant. -/
theorem Inv.inv_release_extent {s t : State} (h : Inv s) (i j : Nat)
    (h0 : 0 ≤ slot_start s i j)
    (hu : ∀ i' j', slot_start t i' j' = if i' = i ∧ j' = j then -1 else slot_start s i' j')
    (hb : ∀ b, t.block_used b =
      if slot_start s i j ≤ b ∧ b < slot_start s i j + 64 ∧ b < 32768 then 0
      else s.block_used b)
    (ho : t.open_table = s.open_table) (hd : s.disk.size ≤ t.disk.size) : Inv t := by
  constructor
  · intro i' j'
    rw [hu]
    by_cases hc : i' = i ∧ j' = j
    · rw [if_pos hc]; left; rfl
    · rw [if_neg hc]; exact h.slot i' j'
  · intro i1 j1 i2 j2 hne h1 h2
    rw [hu] at h1 h2 ⊢
    rw [hu]
    by_cases hc1 : i1 = i ∧ j1 = j
    · rw [if_pos hc1] at h1; omega
    · by_cases hc2 : i2 = i ∧ j2 = j
      · rw [if_pos hc2] at h2; omega
      · rw [if_neg hc1, if_neg hc2]
        rw [if_neg hc1] at h1
        rw [if_neg hc2] at h2
        exact h.disjoint i1 j1 i2 j2 hne h1 h2
  · intro i' j' h1 b hb1 hb2 hb3
    rw [hu] at h1 hb1 hb2
    by_cases hc : i' = i ∧ j' = j
    · rw [if_pos hc] at h1; omega
    · rw [if_neg hc] at h1 hb1 hb2
      have hne : i' ≠ i ∨ j' ≠ j := by
        by_contra hcon
        push_neg at hcon
        exact hc hcon
      have hm := h.marked i' j' h1 b hb1 hb2 hb3
      rw [hb]
      have hout : ¬ (slot_start s i j ≤ b ∧ b < slot_start s i j + 64 ∧ b < 32768) := by
        rcases h.slot i j with e | e | e
        · omega
        · omega
        · have := h.disjoint i' j' i j hne h1 e.1
          omega
      rw [if_neg hout]
      exact hm
  · intro k; rw [ho]; exact h.sess k
  · exact le_trans h.size hd

/-! ## What the helpers leave alone -/

@[simp] theorem save_metadata_users (L : Layout) (s : State) :
    (save_metadata L s).users = s.users := rfl

@[simp] theorem save_metadata_block_used (L : Layout) (s : State) :
    (save_metadata L s).block_used = s.block_used := rfl

@[simp] theorem save_metadata_open_table (L : Layout) (s : State) :
    (save_metadata L s).open_table = s.open_table := rfl

@[simp] theorem save_metadata_next_fd (L : Layout) (s : State) :
    (save_metadata L s).next_fd = s.next_fd := rfl

@[simp] theorem slot_start_save_metadata (L : Layout) (s : State) (i j : Nat) :
    slot_start (save_metadata L s) i j = slot_start s i j := rfl

@[simp] theorem set_file_block_used (s : State) (i j : Nat) (fm : file_meta_t) :
    (set_file s i j fm).block_used = s.block_used := rfl

@[simp] theorem set_file_open_table (s : State) (i j : Nat) (fm : file_meta_t) :
    (set_file s i j fm).open_table = s.open_table := rfl

@[simp] theorem set_file_next_fd (s : State) (i j : Nat) (fm : file_meta_t) :
    (set_file s i j fm).next_fd = s.next_fd := rfl

@[simp] theorem set_file_disk (s : State) (i j : Nat) (fm : file_meta_t) :
    (set_file s i j fm).disk = s.disk := rfl

@[simp] theorem free_blocks_users (L : Layout) (s : State) (b : Int) :
    (free_blocks L s b).users = s.users := by
  unfold free_blocks; split <;> rfl

@[simp] theorem free_blocks_open_table (L : Layout) (s : State) (b : Int) :
    (free_blocks L s b).open_table = s.open_table := by
  unfold free_blocks; split <;> rfl

@[simp] theorem free_blocks_next_fd (L : Layout) (s : State) (b : Int) :
    (free_blocks L s b).next_fd = s.next_fd := by
  unfold free_blocks; split <;> rfl

@[simp] theorem slot_start_free_blocks (L : Layout) (s : State) (b : Int) (i j : Nat) :
    slot_start (free_blocks L s b) i j = slot_start s i j := by
  unfold slot_start; rw [free_blocks_users]

theorem free_blocks_block_used (L : Layout) (s : State) (sb : Int) (h : 0 ≤ sb) (b : Int) :
    (free_blocks L s sb).block_used b =
      if sb ≤ b ∧ b < sb + 64 ∧ b < 32768 then 0 else s.block_used b := by
  unfold free_blocks
  rw [if_neg (by omega)]
  simp [BLOCKS_PER_FILE_eq, TOTAL_BLOCKS_eq]

theorem free_blocks_size_le (L : Layout) (s : State) (b : Int) :
    s.disk.size ≤ (free_blocks L s b).disk.size := by
  unfold free_blocks
  split
  · exact le_refl _
  · exact save_metadata_size_le L _

/-- A slot `find_file` returns holds a name that compares equal and a
`start_block` that is not negative. -/
theorem find_file_some (L : Layout) (u : user_meta_t) (fname : List Nat) (j : Nat)
    (h : find_file L u fname = some j) :
    j < MAX_FILES_USER ∧ 0 ≤ (u.files j).start_block ∧
      strncmp (u.files j).file_name fname L.FILE_NAME_SIZE = 0 ∧
      ∀ m, m < j → ¬ (0 ≤ (u.files m).start_block ∧
        strncmp (u.files m).file_name fname L.FILE_NAME_SIZE = 0) := by
  unfold find_file at h
  obtain ⟨_, h2, h3, h4⟩ := first_index_some _ _ _ _ h
  simp only [decide_eq_true_eq, ge_iff_le] at h3
  refine ⟨by omega, h3.1, h3.2, ?_⟩
  intro m hm
  have := h4 m (Nat.zero_le _) hm
  simpa using this

/-! ## Every handler keeps the invariant -/

theorem Inv.inv_open_file {s : State} (L : Layout) (u f : List Nat) (h : Inv s) :
    Inv (open_file_1_svc L s u f).1 := by
  unfold open_file_1_svc
  split
  · exact h
  · split
    · exact h
    · rename_i i _ _ j hj
      split
      · exact h
      · rename_i hge
        split
        · exact h
        · rename_i k _
          refine h.inv_frame rfl rfl ?_ (le_refl _)
          intro k' hk'
          by_cases hkk : k' = k
          · subst hkk
            simp only [Function.update_same]
            rcases h.slot i j with e | e | e
            · exfalso; apply hge; unfold slot_start at e; rw [e]; decide
            · unfold slot_start at e; rw [e]; decide
            · unfold slot_start at e; omega
          · simp only [Function.update_noteq hkk] at hk' ⊢
            exact h.sess k' hk'

theorem Inv.inv_set_pos {s : State} (k : Nat) (pos : Int) (h : Inv s) : Inv (set_pos s k pos) := by
  refine h.inv_frame rfl rfl ?_ (le_refl _)
  intro k' hk'
  unfold SSNFS.set_pos at hk' ⊢
  by_cases hkk : k' = k
  · subst hkk
    simp only [Function.update_same] at hk' ⊢
    exact h.sess k' hk'
  · simp only [Function.update_noteq hkk] at hk' ⊢
    exact h.sess k' hk'

theorem Inv.inv_read_file {s : State} (fd n : Int) (h : Inv s) :
    Inv (read_file_1_svc s fd n).1 := by
  unfold read_file_1_svc
  split
  · exact h
  · split
    · exact h
    · split
      · exact h
      · simp only
        split
        · exact h
        · split
          · exact h
          · exact h.inv_set_pos _ _

theorem Inv.inv_write_file {s : State} (fd n : Int) (b : List Nat) (h : Inv s) :
    Inv (write_file_1_svc s fd n b).1 := by
  unfold write_file_1_svc
  split
  · exact h
  · split
    · exact h
    · simp only
      split
      · exact h
      · split
        · exact h
        · apply Inv.inv_set_pos
          exact h.inv_frame rfl rfl h.sess (disk_write_size_le _ _ _ _)

theorem Inv.inv_seek_position {s : State} (fd pos : Int) (h : Inv s) :
    Inv (seek_position_1_svc s fd pos).1 := by
  unfold seek_position_1_svc
  split
  · exact h
  · split
    · exact h
    · exact h.inv_set_pos _ _

theorem Inv.inv_close_file {s : State} (fd : Int) (h : Inv s) :
    Inv (close_file_1_svc s fd).1 := by
  unfold close_file_1_svc
  split
  · exact h
  · rename_i k _
    refine h.inv_frame rfl rfl ?_ (le_refl _)
    intro k' hk'
    by_cases hkk : k' = k
    · subst hkk
      simp only [Function.update_same] at hk'
      exact absurd rfl hk'
    · simp only [Function.update_noteq hkk] at hk' ⊢
      exact h.sess k' hk'

theorem Inv.inv_list_files {s : State} (L : Layout) (u : List Nat) (h : Inv s) :
    Inv (list_files_1_svc L s u).1 := by
  unfold list_files_1_svc
  split <;> exact h

theorem Inv.inv_delete_file {s : State} (L : Layout) (u f : List Nat) (h : Inv s) :
    Inv (delete_file_1_svc L s u f).1 := by
  unfold delete_file_1_svc
  split
  · exact h
  · split
    · exact h
    · rename_i i _ _ j hj
      split
      · exact h
      · have h0 := (find_file_some L _ _ _ hj).2.1
        refine h.inv_release_extent i j h0 ?_ ?_ ?_ ?_
        · intro i' j'
          rw [slot_start_save_metadata, slot_start_set_file, slot_start_free_blocks]
        · intro b
          rw [save_metadata_block_used, set_file_block_used,
            free_blocks_block_used L s _ h0 b]
          rfl
        · rw [save_metadata_open_table, set_file_open_table, free_blocks_open_table]
        · refine le_trans ?_ (save_metadata_size_le L _)
          rw [set_file_disk]
          exact free_blocks_size_le L s _

theorem Inv.inv_create_file {s : State} (L : Layout) (u f : List Nat) (h : Inv s) :
    Inv (create_file_1_svc L s u f).1 := by
  have h1 := h.inv_find_or_create_user L u
  unfold create_file_1_svc
  simp only []
  split
  · exact h1
  · rename_i i _
    have h2 := h1.inv_create_file_meta L i f
    split
    · exact h2
    · rename_i j _
      rcases allocate_blocks_cases L
          (SSNFS.create_file_meta L (SSNFS.find_or_create_user L s u).1 i f).1
        with ⟨_, e⟩ | ⟨st, hscan, e⟩
      · rw [e]
        simp only [show ((-1 : Int) < 0) from by decide, if_true]
        exact h2
      · have hst := allocate_scan_start _ st hscan
        rw [e]
        simp only [show ¬ (st < 0) from by omega, if_false]
        refine h2.inv_assign_extent i j st hst ?_ ?_ ?_ ?_
        · intro i' j'
          rw [slot_start_save_metadata, slot_start_set_file]
          rfl
        · intro b
          rw [save_metadata_block_used, set_file_block_used, save_metadata_block_used]
          rfl
        · rfl
        · exact le_trans (save_metadata_size_le L _) (save_metadata_size_le L _)

theorem Inv.inv_serve {s : State} (L : Layout) (r : Request) (h : Inv s) : Inv (serve L s r) := by
  cases r with
  | create_file u f => exact h.inv_create_file L u f
  | open_file u f => exact h.inv_open_file L u f
  | read_file fd n => exact h.inv_read_file fd n
  | write_file fd n b => exact h.inv_write_file fd n b
  | seek_position fd pos => exact h.inv_seek_position fd pos
  | close_file fd => exact h.inv_close_file fd
  | delete_file u f => exact h.inv_delete_file L u f
  | list_files u => exact h.inv_list_files L u

theorem Inv.inv_init (L : Layout) : Inv (init_disk L) := by
  unfold init_disk
  apply Inv.inv_save_metadata
  constructor
  · intro i j; right; left; rfl
  · intro i j i' j' _ h1
    exfalso
    change (2 : Int) ≤ 0 at h1
    omega
  · intro i j h1
    exfalso
    change (2 : Int) ≤ 0 at h1
    omega
  · intro k hk
    exact absurd rfl hk
  · exact le_refl _

theorem ReachableBy.by_inv {L : Layout} {P : Request → Prop} {s : State}
    (h : ReachableBy L P s) : Inv s := by
  induction h with
  | init => exact Inv.inv_init L
  | step s r _ _ ih => exact ih.inv_serve L r

theorem ReachableBy.by_mono {L : Layout} {P Q : Request → Prop} {s : State}
    (hPQ : ∀ r, P r → Q r) (h : ReachableBy L P s) : ReachableBy L Q s := by
  induction h with
  | init => exact ReachableBy.init
  | step s r _ hr ih => exact ReachableBy.step s r ih (hPQ r hr)

theorem Reachable.reach_serve_all {L : Layout} {s : State} (h : Reachable L s) (reqs : List Request) :
    Reachable L (serve_all L s reqs) := by
  induction reqs generalizing s with
  | nil => exact h
  | cons r rs ih => exact ih (ReachableBy.step s r h trivial)

/-! ## The handlers on their main paths -/

theorem find_open_by_fd_some (s : State) (fd : Int) (k : Nat)
    (h : find_open_by_fd s fd = some k) :
    k < MAX_OPEN_FILES ∧ (s.open_table k).in_use ≠ 0 ∧ (s.open_table k).fd = fd := by
  unfold find_open_by_fd at h
  obtain ⟨_, h2, h3, _⟩ := first_index_some _ _ _ _ h
  simp only [decide_eq_true_eq] at h3
  exact ⟨by omega, h3.1, h3.2⟩

/-- The lookup of a descriptor only reads the fields `in_use` and `fd`. -/
theorem find_open_by_fd_congr (s t : State) (fd : Int)
    (h : ∀ k, (t.open_table k).in_use = (s.open_table k).in_use ∧
      (t.open_table k).fd = (s.open_table k).fd) :
    find_open_by_fd t fd = find_open_by_fd s fd := by
  unfold find_open_by_fd
  apply first_index_congr
  intro m _ _
  rw [(h m).1, (h m).2]

theorem set_pos_entry (s : State) (k : Nat) (pos : Int) (k' : Nat) :
    (set_pos s k pos).open_table k' =
      if k' = k then
        open_entry_t.mk (s.open_table k).in_use (s.open_table k).fd (s.open_table k).user_name
          (s.open_table k).file_name (s.open_table k).start_block pos
      else s.open_table k' := by
  unfold set_pos
  by_cases hk : k' = k
  · subst hk; simp
  · simp [hk, Function.update_noteq hk]

@[simp] theorem set_pos_disk (s : State) (k : Nat) (pos : Int) :
    (set_pos s k pos).disk = s.disk := rfl

@[simp] theorem set_pos_users (s : State) (k : Nat) (pos : Int) :
    (set_pos s k pos).users = s.users := rfl

@[simp] theorem set_pos_block_used (s : State) (k : Nat) (pos : Int) :
    (set_pos s k pos).block_used = s.block_used := rfl

@[simp] theorem set_pos_next_fd (s : State) (k : Nat) (pos : Int) :
    (set_pos s k pos).next_fd = s.next_fd := rfl

theorem find_open_by_fd_set_pos (s : State) (k : Nat) (pos fd : Int) :
    find_open_by_fd (set_pos s k pos) fd = find_open_by_fd s fd := by
  apply find_open_by_fd_congr
  intro k'
  rw [set_pos_entry]
  by_cases hk : k' = k
  · subst hk; simp
  · simp [hk]

/-- The reply and the new state of a write that passes every check. -/
theorem write_file_ok (s : State) (fd n : Int) (buffer : List Nat) (k : Nat)
    (hk : find_open_by_fd s fd = some k) (hn : 0 < n) (hb : buffer ≠ [])
    (hw : 0 < clamp_count (s.open_table k).current_pos n)
    (ho1 : 0 ≤ disk_offset (s.open_table k).start_block (s.open_table k).current_pos)
    (ho2 : wrap32 (disk_offset (s.open_table k).start_block (s.open_table k).current_pos +
      clamp_count (s.open_table k).current_pos n) ≤ DISK_SIZE) :
    write_file_1_svc s fd n buffer =
      (set_pos
        { s with
          disk := disk_write s.disk
            (disk_offset (s.open_table k).start_block (s.open_table k).current_pos)
            (clamp_count (s.open_table k).current_pos n) (fun q => buffer.getD q.toNat 0) }
        k (wrap32 ((s.open_table k).current_pos + clamp_count (s.open_table k).current_pos n)),
       ⟨1, "Write ok (" ++ toString (clamp_count (s.open_table k).current_pos n) ++
         " bytes)"⟩) := by
  unfold write_file_1_svc
  rw [hk]
  simp only
  rw [if_neg (by intro hc; rcases hc with hc | hc; exact absurd hc (by omega); exact hb hc)]
  rw [if_neg (by omega)]
  rw [if_neg (by intro hc; rcases hc with hc | hc; exact absurd hc (by omega);
                 exact absurd hc (by omega))]

/-- The reply and the new state of a read that passes every check. -/
theorem read_file_ok (s : State) (fd n : Int) (k : Nat)
    (hk : find_open_by_fd s fd = some k) (hn : 0 < n)
    (hc : (s.open_table k).current_pos < file_max_size)
    (hw : 0 ≤ clamp_count (s.open_table k).current_pos n)
    (ho1 : 0 ≤ disk_offset (s.open_table k).start_block (s.open_table k).current_pos)
    (ho2 : wrap32 (disk_offset (s.open_table k).start_block (s.open_table k).current_pos +
      clamp_count (s.open_table k).current_pos n) ≤ DISK_SIZE) :
    read_file_1_svc s fd n =
      (set_pos s k (wrap32 ((s.open_table k).current_pos +
          disk_read_count s.disk
            (disk_offset (s.open_table k).start_block (s.open_table k).current_pos)
            (clamp_count (s.open_table k).current_pos n))),
       ⟨1, disk_read_count s.disk
            (disk_offset (s.open_table k).start_block (s.open_table k).current_pos)
            (clamp_count (s.open_table k).current_pos n),
          disk_read s.disk
            (disk_offset (s.open_table k).start_block (s.open_table k).current_pos)
            (clamp_count (s.open_table k).current_pos n), "Read ok"⟩) := by
  unfold read_file_1_svc
  rw [hk]
  simp only
  rw [if_neg (by omega), if_neg (by omega)]
  rw [if_neg (by intro hc; rcases hc with hc | hc; exact absurd hc (by omega);
                 exact absurd hc (by omega))]
  rw [if_neg (by omega)]

/-- The reply and the new state of a seek to a valid position. -/
theorem seek_position_ok (s : State) (fd pos : Int) (k : Nat)
    (hk : find_open_by_fd s fd = some k) (h0 : 0 ≤ pos) (h1 : pos ≤ file_max_size) :
    seek_position_1_svc s fd pos = (set_pos s k pos, ⟨1, "Seek ok"⟩) := by
  unfold seek_position_1_svc
  rw [hk]
  simp only
  rw [if_neg (by intro hc; rcases hc with hc | hc; exact absurd hc (by omega);
                 exact absurd hc (by omega))]

theorem bytes_from_eq (f : Int → Nat) :
    ∀ (B : List Nat) (off : Int), (∀ q : Nat, q < B.length → f (off + q) = B.getD q 0) →
      bytes_from f off B.length = B := by
  intro B
  induction B with
  | nil => intro off _; rfl
  | cons c cs ih =>
    intro off h
    simp only [List.length_cons, bytes_from]
    have h0 := h 0 (by simp)
    simp at h0
    rw [h0, ih (off + 1)]
    intro q hq
    have := h (q + 1) (by simp; omega)
    simp only [List.getD_cons_succ] at this
    rw [← this]
    congr 1
    push_cast
    omega

theorem bytes_from_length (f : Int → Nat) :
    ∀ (n : Nat) (off : Int), (bytes_from f off n).length = n := by
  intro n
  induction n with
  | zero => intro off; rfl
  | succ n ih => intro off; simp [bytes_from, ih]

theorem clamp_count_small (cur n : Int) (h0 : 0 ≤ cur) (h1 : 0 ≤ n)
    (h : cur + n ≤ file_max_size) : clamp_count cur n = n := by
  unfold clamp_count
  rw [file_max_size_eq] at *
  rw [wrap32_of_range _ (by omega) (by omega), if_neg (by omega)]

theorem disk_offset_eq (st cur : Int) (h0 : 0 ≤ st) (h1 : st + 64 ≤ 32768) (h2 : 0 ≤ cur)
    (h3 : cur ≤ 32768) : disk_offset st cur = st * 512 + cur := by
  unfold disk_offset
  rw [BLOCK_SIZE_eq, wrap32_of_range (st * 512) (by omega) (by omega),
    wrap32_of_range _ (by omega) (by omega)]

theorem state_open_F_reachable : Reachable layout32 state_open_F :=
  Reachable.reach_serve_all ReachableBy.init _

/-! ## C1: write/read round trip -/

/-- C1. In every state reachable from a fresh image, for every descriptor `h`
of an open session whose cursor is 0 (on a created file or not) and every byte
string `B` with `1 ≤ len(B) ≤ file_max_size`: `write(h, B)` succeeds, then
`seek(h, 0)` succeeds, then `read(h, len(B))` succeeds and returns exactly `B`. -/
theorem write_seek_read_round_trip (L : Layout) (s : State) (h : Int) (k : Nat) (B : List Nat)
    (hr : Reachable L s) (hk : find_open_by_fd s h = some k)
    (hc : (s.open_table k).current_pos = 0)
    (hB1 : 1 ≤ B.length) (hB2 : (B.length : Int) ≤ file_max_size) :
    ∃ s1 s2 s3 m1,
      write_file_1_svc s h B.length B = (s1, ⟨1, m1⟩) ∧
      seek_position_1_svc s1 h 0 = (s2, ⟨1, "Seek ok"⟩) ∧
      read_file_1_svc s2 h B.length = (s3, ⟨1, B.length, B, "Read ok"⟩) := by
  have hinv : Inv s := ReachableBy.by_inv hr
  obtain ⟨_, hiu, _⟩ := find_open_by_fd_some s h k hk
  obtain ⟨hs0, hs1⟩ := hinv.sess k hiu
  have hsize := hinv.size
  rw [DISK_SIZE_eq] at hsize
  have hfm := file_max_size_eq
  have hBne : B ≠ [] := by
    intro hB; rw [hB] at hB1; simp at hB1
  have hcl : clamp_count 0 (B.length : Int) = B.length :=
    clamp_count_small 0 _ (le_refl _) (by omega) (by omega)
  have hoff : disk_offset (s.open_table k).start_block 0 = (s.open_table k).start_block * 512 :=
    by rw [disk_offset_eq _ 0 hs0 hs1 (le_refl _) (by omega)]; omega
  have hw := write_file_ok s h B.length B k hk (by omega) hBne
    (by rw [hc, hcl]; omega) (by rw [hc, hoff]; omega)
    (by rw [hc, hoff, hcl, wrap32_of_range _ (by omega) (by omega), DISK_SIZE_eq]; omega)
  rw [hc, hoff, hcl] at hw
  have hk1 : find_open_by_fd
      (set_pos
        { s with
          disk := disk_write s.disk ((s.open_table k).start_block * 512) B.length
            (fun q => B.getD q.toNat 0) }
        k (wrap32 (0 + (B.length : Int)))) h = some k := by
    rw [find_open_by_fd_set_pos]; exact hk
  have hseek := seek_position_ok _ h 0 k hk1 (le_refl _) (by omega)
  have hk2 : find_open_by_fd
      (set_pos
        (set_pos
          { s with
            disk := disk_write s.disk ((s.open_table k).start_block * 512) B.length
              (fun q => B.getD q.toNat 0) }
          k (wrap32 (0 + (B.length : Int)))) k 0) h = some k := by
    rw [find_open_by_fd_set_pos]; exact hk1
  have hpos : ∀ t : State, ((set_pos t k 0).open_table k).current_pos = 0 := by
    intro t; rw [set_pos_entry]; simp
  have hst : ∀ (t : State) (p : Int),
      ((set_pos t k p).open_table k).start_block = (t.open_table k).start_block := by
    intro t p; rw [set_pos_entry]; simp
  have hread := read_file_ok _ h B.length k hk2 (by omega)
    (by rw [hpos]; omega) (by rw [hpos, hcl]; omega)
    (by rw [hpos, hst, hst]; simp only []; rw [hoff]; omega)
    (by
      rw [hpos, hst, hst]; simp only []
      rw [hoff, hcl, wrap32_of_range _ (by omega) (by omega), DISK_SIZE_eq]; omega)
  rw [hpos, hst, hst] at hread
  simp only [set_pos_disk] at hread
  rw [hoff, hcl] at hread
  have hcount : disk_read_count
      (disk_write s.disk ((s.open_table k).start_block * 512) B.length
        (fun q => B.getD q.toNat 0))
      ((s.open_table k).start_block * 512) B.length = B.length := by
    unfold disk_read_count disk_write
    simp only []
    omega
  have hdata : disk_read
      (disk_write s.disk ((s.open_table k).start_block * 512) B.length
        (fun q => B.getD q.toNat 0))
      ((s.open_table k).start_block * 512) B.length = B := by
    unfold disk_read
    rw [hcount, Int.toNat_ofNat]
    apply bytes_from_eq
    intro q hq
    unfold disk_write
    simp only []
    rw [if_pos (by omega)]
    have hq2 : ((s.open_table k).start_block * 512 + (q : Int) -
        (s.open_table k).start_block * 512).toNat = q := by omega
    rw [hq2]
  rw [hcount, hdata] at hread
  exact ⟨_, _, _, _, hw, hseek, hread⟩

set_option maxRecDepth 100000 in
theorem write_seek_read_round_trip_witness :
    Reachable layout32 state_open_F ∧ find_open_by_fd state_open_F 3 = some 0 ∧
    (state_open_F.open_table 0).current_pos = 0 ∧
    ∃ s1 s2 s3 m1,
      write_file_1_svc state_open_F 3 5 (c_str "hello") = (s1, ⟨1, m1⟩) ∧
      seek_position_1_svc s1 3 0 = (s2, ⟨1, "Seek ok"⟩) ∧
      read_file_1_svc s2 3 5 = (s3, ⟨1, 5, c_str "hello", "Read ok"⟩) :=
  ⟨state_open_F_reachable, by decide, by decide,
    write_seek_read_round_trip layout32 state_open_F 3 0 (c_str "hello")
      state_open_F_reachable (by decide) (by decide) (by decide) (by decide)⟩

/-! ## C2: extents of different files are disjoint -/

theorem state_F_G_reachable : Reachable layout32 state_F_G :=
  Reachable.reach_serve_all ReachableBy.init _

/-- C2. In every state reachable from a fresh image by any sequence of
requests, two distinct directory slots (of the same or of different users)
that hold created, undeleted files have block ranges
`[start_block, start_block + 64)` without a common block. -/
theorem extents_disjoint (L : Layout) (s : State) (hr : Reachable L s) (i j i' j' : Nat)
    (hne : i ≠ i' ∨ j ≠ j') (h1 : holds_file s i j) (h2 : holds_file s i' j') :
    (slot_start s i j + BLOCKS_PER_FILE ≤ slot_start s i' j' ∨
      slot_start s i' j' + BLOCKS_PER_FILE ≤ slot_start s i j) ∧
    ∀ b, ¬ ((slot_start s i j ≤ b ∧ b < slot_start s i j + BLOCKS_PER_FILE) ∧
      (slot_start s i' j' ≤ b ∧ b < slot_start s i' j' + BLOCKS_PER_FILE)) := by
  have hinv : Inv s := ReachableBy.by_inv hr
  unfold holds_file at h1 h2
  have a1 : 2 ≤ slot_start s i j := by
    rcases hinv.slot i j with e | e | e <;> omega
  have a2 : 2 ≤ slot_start s i' j' := by
    rcases hinv.slot i' j' with e | e | e <;> omega
  have hd := hinv.disjoint i j i' j' hne a1 a2
  rw [BLOCKS_PER_FILE_eq]
  refine ⟨hd, ?_⟩
  intro b hb
  omega

set_option maxRecDepth 100000 in
theorem extents_disjoint_witness :
    Reachable layout32 state_F_G ∧ holds_file state_F_G 0 0 ∧ holds_file state_F_G 0 1 ∧
    slot_start state_F_G 0 0 = 2 ∧ slot_start state_F_G 0 1 = 66 ∧
    ((slot_start state_F_G 0 0 + BLOCKS_PER_FILE ≤ slot_start state_F_G 0 1 ∨
      slot_start state_F_G 0 1 + BLOCKS_PER_FILE ≤ slot_start state_F_G 0 0) ∧
    ∀ b, ¬ ((slot_start state_F_G 0 0 ≤ b ∧ b < slot_start state_F_G 0 0 + BLOCKS_PER_FILE) ∧
      (slot_start state_F_G 0 1 ≤ b ∧ b < slot_start state_F_G 0 1 + BLOCKS_PER_FILE))) :=
  ⟨state_F_G_reachable, by decide, by decide, by decide, by decide,
    extents_disjoint layout32 state_F_G state_F_G_reachable 0 0 0 1 (Or.inr (by decide))
      (by decide) (by decide)⟩

/-! ## C3: a read with a huge count leaves the extent -/

/-- C3 (failing input). After `create("alice","F")`, `open("alice","F") = 3`
and `seek(3, 1)`, the request `read(3, 2147483647)` passes both the clamp and
the range check, because `current_pos + numbytes` and `offset + to_read`
overflow: it succeeds and delivers the 16776191 bytes from disk offset 1025 to
the end of the disk, although the extent of the file (start block 2) is the
byte range `[1024, 33792)`; the cursor ends at 16776192. -/
theorem read_overflow_leaves_extent :
    (state_open_F.open_table 0).start_block = 2 ∧
    (seek_position_1_svc state_open_F 3 1).2.success = 1 ∧
    (read_file_1_svc (seek_position_1_svc state_open_F 3 1).1 3 2147483647).2.success = 1 ∧
    (read_file_1_svc (seek_position_1_svc state_open_F 3 1).1 3 2147483647).2.buffer_len
      = 16776191 ∧
    disk_offset 2 1 = 1025 ∧
    (((read_file_1_svc (seek_position_1_svc state_open_F 3 1).1 3 2147483647).1).open_table
      0).current_pos = 16776192 := by
  decide

/-! ## C4: what a restart loads after a write -/

/-- C4 (failing input). After `create("alice","F")`, `open("alice","F") = 3`
and `write(3, [1])` the bitmap in memory has block 256 free, but the bitmap
`load_metadata` reads back from the disk has it used: the first byte of the
file (disk offset 1024, start block 2) is the first byte of the stored
`block_used[256]`. -/
theorem write_changes_stored_bitmap :
    (write_file_1_svc state_open_F 3 1 [1]).2.success = 1 ∧
    (write_file_1_svc state_open_F 3 1 [1]).1.block_used 256 = 0 ∧
    (load_metadata layout32 (write_file_1_svc state_open_F 3 1 [1]).1).block_used 256 = 1 ∧
    (load_metadata layout32 state_open_F).block_used 256 = 0 := by
  decide

/-! ## C5: deleting an open file is rejected -/

/-- A name compares equal to what `strncpy` copied of it into a field of the
compared size. -/
theorem strncmp_strncpy_self (a : List Nat) (n : Nat) : strncmp (strncpy a n) a n = 0 := by
  rw [strncmp_eq_zero_iff, strncpy_idem]

theorem state_F_reachable : Reachable layout32 state_F :=
  Reachable.reach_serve_all ReachableBy.init _

/-- C5. In every state in which user `u` has file `f` and entry `k` of the
open table is a session opened on `(u, f)` (it is in use and holds the names
`open_file_1_svc` stored for `u` and `f`), `delete(u, f)` answers
"Cannot delete open file" and returns the state it was given: bitmap,
directory, open table and disk are untouched. -/
theorem delete_open_file_rejected (L : Layout) (s : State) (u f : List Nat) (i j k : Nat)
    (hu : find_user L s u = some i) (hf : find_file L (s.users i) f = some j)
    (hk : k < MAX_OPEN_FILES) (hin : (s.open_table k).in_use ≠ 0)
    (hun : (s.open_table k).user_name = strncpy u L.USER_NAME_SIZE)
    (hfn : (s.open_table k).file_name = strncpy f L.FILE_NAME_SIZE) :
    delete_file_1_svc L s u f = (s, ⟨"Cannot delete open file"⟩) := by
  unfold delete_file_1_svc
  rw [hu]
  simp only
  rw [hf]
  simp only
  obtain ⟨k0, hk0⟩ := first_index_exists
    (fun k => decide ((s.open_table k).in_use ≠ 0 ∧
      strncmp (s.open_table k).user_name u L.USER_NAME_SIZE = 0 ∧
      strncmp (s.open_table k).file_name f L.FILE_NAME_SIZE = 0))
    0 MAX_OPEN_FILES k (Nat.zero_le _) (by omega)
    (by
      simp only [decide_eq_true_eq]
      exact ⟨hin, by rw [hun]; exact strncmp_strncpy_self u _,
        by rw [hfn]; exact strncmp_strncpy_self f _⟩)
  rw [hk0]

set_option maxRecDepth 100000 in
theorem delete_open_file_rejected_witness :
    find_user layout32 state_open_F alice = some 0 ∧
    find_file layout32 (state_open_F.users 0) file_F = some 0 ∧
    (state_open_F.open_table 0).in_use ≠ 0 ∧
    delete_file_1_svc layout32 state_open_F alice file_F =
      (state_open_F, ⟨"Cannot delete open file"⟩) :=
  ⟨by decide, by decide, by decide,
    delete_open_file_rejected layout32 state_open_F alice file_F 0 0 0 (by decide) (by decide)
      (by decide) (by decide) (by decide) (by decide)⟩

/-! ## C7 and C8: the empty name and the zero-filled slots -/

/-- C7 (failing input). After `create("alice","F")` user alice has no file
with the empty name, yet `open("alice","")` succeeds: `find_file` accepts
slot 1, which `memset` left with `start_block = 0` and an empty name.  The
reply is descriptor 3 with "File opened", a session on start block 0 is
created and `next_fd` becomes 4. -/
theorem open_empty_name_succeeds :
    slot_start state_F 0 0 = 2 ∧ slot_name state_F 0 0 = file_F ∧
    (∀ j, j < 10 → j ≠ 0 → slot_start state_F 0 j = 0 ∧ slot_name state_F 0 j = []) ∧
    (open_file_1_svc layout32 state_F alice []).2.fd = 3 ∧
    (open_file_1_svc layout32 state_F alice []).2.out_msg = "File opened" ∧
    ((open_file_1_svc layout32 state_F alice []).1.open_table 0).in_use = 1 ∧
    ((open_file_1_svc layout32 state_F alice []).1.open_table 0).start_block = 0 ∧
    state_F.next_fd = 3 ∧ (open_file_1_svc layout32 state_F alice []).1.next_fd = 4 := by
  decide

/-- C8 (failing input). After `create("alice","F")` user alice has no file
with the empty name, yet `delete("alice","")` answers "File deleted": it takes
the zero-filled slot 1 for a file, frees blocks 0 to 63 (among them blocks 2
to 63 of the extent of F, which stays in the directory) and sets the slot to
-1. -/
theorem delete_empty_name_frees_blocks :
    slot_start state_F 0 0 = 2 ∧ state_F.block_used 2 = 1 ∧ state_F.block_used 63 = 1 ∧
    slot_start state_F 0 1 = 0 ∧
    (delete_file_1_svc layout32 state_F alice []).2.out_msg = "File deleted" ∧
    (delete_file_1_svc layout32 state_F alice []).1.block_used 2 = 0 ∧
    (delete_file_1_svc layout32 state_F alice []).1.block_used 63 = 0 ∧
    (delete_file_1_svc layout32 state_F alice []).1.block_used 64 = 1 ∧
    slot_start (delete_file_1_svc layout32 state_F alice []).1 0 0 = 2 ∧
    slot_start (delete_file_1_svc layout32 state_F alice []).1 0 1 = -1 := by
  decide

/-! ## C10: a write that is too long is clamped -/

/-- C10. In every reachable state, for every descriptor `h` of an open session
whose cursor is 0 and every `k > 0`, a write request of `file_max_size + k`
bytes (a count that fits a 32-bit `int`) succeeds with the reply
"Write ok (32768 bytes)", stores exactly the first `file_max_size` bytes of the
data at the start of the extent, changes no other byte of the disk and leaves
the cursor at `file_max_size`. -/
theorem write_clamped (L : Layout) (s : State) (h : Int) (k : Nat) (n : Nat) (data : List Nat)
    (hr : Reachable L s) (hk : find_open_by_fd s h = some k)
    (hc : (s.open_table k).current_pos = 0)
    (hn : 0 < n) (hlen : (data.length : Int) = file_max_size + n)
    (hint : (data.length : Int) < 2147483648) :
    ∃ s1, write_file_1_svc s h data.length data = (s1, ⟨1, "Write ok (32768 bytes)"⟩) ∧
      (s1.open_table k).current_pos = file_max_size ∧
      (∀ q : Nat, (q : Int) < file_max_size →
        s1.disk.bytes ((s.open_table k).start_block * BLOCK_SIZE + q) = data.getD q 0) ∧
      (∀ p : Int, ¬ ((s.open_table k).start_block * BLOCK_SIZE ≤ p ∧
          p < (s.open_table k).start_block * BLOCK_SIZE + file_max_size) →
        s1.disk.bytes p = s.disk.bytes p) ∧
      s1.disk.size = s.disk.size := by
  have hinv : Inv s := ReachableBy.by_inv hr
  obtain ⟨_, hiu, _⟩ := find_open_by_fd_some s h k hk
  obtain ⟨hs0, hs1⟩ := hinv.sess k hiu
  have hsize := hinv.size
  rw [DISK_SIZE_eq] at hsize
  rw [file_max_size_eq] at hlen ⊢
  rw [BLOCK_SIZE_eq]
  have hne : data ≠ [] := by
    intro hd; rw [hd] at hlen; simp at hlen; omega
  have hcl : clamp_count 0 (data.length : Int) = 32768 := by
    unfold clamp_count
    rw [file_max_size_eq, wrap32_of_range _ (by omega) (by omega), if_pos (by omega),
      wrap32_of_range _ (by omega) (by omega)]
    omega
  have hoff : disk_offset (s.open_table k).start_block 0 = (s.open_table k).start_block * 512 :=
    by rw [disk_offset_eq _ 0 hs0 hs1 (le_refl _) (by omega)]; omega
  have hw := write_file_ok s h data.length data k hk (by omega) hne
    (by rw [hc, hcl]; omega) (by rw [hc, hoff]; omega)
    (by rw [hc, hoff, hcl, wrap32_of_range _ (by omega) (by omega), DISK_SIZE_eq]; omega)
  rw [hc, hoff, hcl] at hw
  have hmsg : "Write ok (" ++ toString (32768 : Int) ++ " bytes)" = "Write ok (32768 bytes)" :=
    by decide
  rw [hmsg] at hw
  refine ⟨_, hw, ?_, ?_, ?_, ?_⟩
  · rw [set_pos_entry, if_pos rfl]
    simp only []
    rw [wrap32_of_range _ (by omega) (by omega)]
    omega
  · intro q hq
    rw [set_pos_disk]
    unfold disk_write
    simp only []
    rw [if_pos (by omega)]
    have hq2 : ((s.open_table k).start_block * 512 + (q : Int) -
        (s.open_table k).start_block * 512).toNat = q := by omega
    rw [hq2]
  · intro p hp
    rw [set_pos_disk]
    unfold disk_write
    simp only []
    rw [if_neg (by omega)]
  · rw [set_pos_disk]
    unfold disk_write
    simp only []
    omega

theorem long_data_length : long_data.length = 32769 := List.length_replicate _ _

set_option maxRecDepth 100000 in
theorem write_clamped_witness :
    Reachable layout32 state_open_F ∧ find_open_by_fd state_open_F 3 = some 0 ∧
    (state_open_F.open_table 0).current_pos = 0 ∧
    (long_data.length : Int) = file_max_size + (1 : Nat) ∧
    ∃ s1, write_file_1_svc state_open_F 3 long_data.length long_data =
        (s1, ⟨1, "Write ok (32768 bytes)"⟩) ∧
      (s1.open_table 0).current_pos = file_max_size ∧
      (∀ q : Nat, (q : Int) < file_max_size →
        s1.disk.bytes ((state_open_F.open_table 0).start_block * BLOCK_SIZE + q) =
          long_data.getD q 0) ∧
      (∀ p : Int, ¬ ((state_open_F.open_table 0).start_block * BLOCK_SIZE ≤ p ∧
          p < (state_open_F.open_table 0).start_block * BLOCK_SIZE + file_max_size) →
        s1.disk.bytes p = state_open_F.disk.bytes p) ∧
      s1.disk.size = state_open_F.disk.size :=
  ⟨state_open_F_reachable, by decide, by decide, by rw [long_data_length]; decide,
    write_clamped layout32 state_open_F 3 0 1 long_data state_open_F_reachable (by decide)
      (by decide) (by decide) (by rw [long_data_length]; decide)
      (by rw [long_data_length]; decide)⟩

/-! ## The steps of `create_file_1_svc` -/

/-- A name that is NUL-terminated inside a field of `n` bytes is copied whole
by `strncpy` with the bound `n - 1`. -/
theorem strncpy_pred_of_short (n : Nat) :
    ∀ (a : List Nat), (strncpy a n).length < n → strncpy a (n - 1) = strncpy a n := by
  induction n with
  | zero => intro a h; simp at h
  | succ n ih =>
    intro a h
    cases a with
    | nil => cases n <;> simp [strncpy]
    | cons c cs =>
      by_cases hc : c = 0
      · cases n <;> simp [strncpy, hc]
      · simp only [strncpy, hc, if_false, List.length_cons] at h
        cases n with
        | zero => simp at h
        | succ m =>
          have := ih cs (by omega)
          simp only [Nat.add_sub_cancel] at this ⊢
          simp [strncpy, hc, this]

theorem strncpy_strncpy_of_le (m : Nat) :
    ∀ (n : Nat) (a : List Nat), m ≤ n → strncpy (strncpy a m) n = strncpy a m := by
  induction m with
  | zero => intro n a _; cases n <;> simp [strncpy]
  | succ m ih =>
    intro n a h
    cases n with
    | zero => omega
    | succ n =>
      cases a with
      | nil => simp [strncpy]
      | cons c cs =>
        by_cases hc : c = 0
        · simp [strncpy, hc]
        · simp [strncpy, hc, ih n cs (by omega)]

/-- The two ways `find_or_create_user` returns a user. -/
theorem find_or_create_user_some (L : Layout) (s : State) (u : List Nat) (i : Nat)
    (h : (find_or_create_user L s u).2 = some i) :
    (find_user L s u = some i ∧ (find_or_create_user L s u).1 = s) ∨
    (find_user L s u = none ∧
      first_index (fun i => decide ((s.users i).in_use = 0)) 0 MAX_USERS = some i ∧
      (find_or_create_user L s u).1 =
        save_metadata L
          { s with
            users := Function.update s.users i
              (user_meta_t.mk (strncpy u (L.USER_NAME_SIZE - 1)) 1 zero_files) }) := by
  unfold find_or_create_user at h ⊢
  cases hfu : find_user L s u with
  | some i0 =>
    rw [hfu] at h
    simp only [Option.some.injEq] at h
    left
    rw [h]
    exact ⟨rfl, rfl⟩
  | none =>
    rw [hfu] at h
    simp only at h
    cases hfi : first_index (fun i => decide ((s.users i).in_use = 0)) 0 MAX_USERS with
    | some i0 =>
      rw [hfi] at h
      simp only [Option.some.injEq] at h
      right
      rw [h]
      exact ⟨rfl, rfl, rfl⟩
    | none =>
      rw [hfi] at h
      simp at h

/-- What `create_file_meta` did when it returns a slot. -/
theorem create_file_meta_some (L : Layout) (s : State) (i : Nat) (f : List Nat) (j : Nat)
    (h : (create_file_meta L s i f).2.1 = some j) :
    find_file L (s.users i) f = none ∧
    first_index
      (fun j => decide (((s.users i).files j).start_block < 0 ∨
        ((s.users i).files j).file_name = [])) 0 MAX_FILES_USER = some j ∧
    (create_file_meta L s i f).1 =
      set_file s i j (file_meta_t.mk (strncpy f (L.FILE_NAME_SIZE - 1)) (-1)) := by
  unfold create_file_meta at h ⊢
  cases hff : find_file L (s.users i) f with
  | some j0 =>
    rw [hff] at h
    simp at h
  | none =>
    rw [hff] at h
    simp only at h
    cases hfi : first_index
        (fun j => decide (((s.users i).files j).start_block < 0 ∨
          ((s.users i).files j).file_name = [])) 0 MAX_FILES_USER with
    | some j0 =>
      rw [hfi] at h
      simp only [Option.some.injEq] at h
      rw [h]
      exact ⟨rfl, rfl, rfl⟩
    | none =>
      rw [hfi] at h
      simp at h

/-- The state a successful `create_file_1_svc` leaves: user `i` was found or
made, slot `j` was free, the scan found the extent at `st`. -/
theorem create_file_success (L : Layout) (s : State) (u f : List Nat)
    (h : (create_file_1_svc L s u f).2.success = 1) :
    ∃ i j st,
      (find_or_create_user L s u).2 = some i ∧
      (create_file_meta L (find_or_create_user L s u).1 i f).2.1 = some j ∧
      allocate_scan (find_or_create_user L s u).1.block_used (TOTAL_BLOCKS - 2).toNat 2 0 (-1)
        = some st ∧
      create_file_1_svc L s u f =
        (save_metadata L
          (set_file
            (save_metadata L
              { (set_file (find_or_create_user L s u).1 i j
                  (file_meta_t.mk (strncpy f (L.FILE_NAME_SIZE - 1)) (-1))) with
                block_used := mark_used (find_or_create_user L s u).1.block_used st })
            i j (file_meta_t.mk (strncpy f (L.FILE_NAME_SIZE - 1)) st)),
          ⟨1, "File created"⟩) := by
  have key : ∃ i j, (find_or_create_user L s u).2 = some i ∧
      (create_file_meta L (find_or_create_user L s u).1 i f).2.1 = some j ∧
      ¬ ((allocate_blocks L (create_file_meta L (find_or_create_user L s u).1 i f).1).2 < 0) := by
    unfold create_file_1_svc at h
    simp only [] at h
    split at h
    · simp at h
    · rename_i i hi
      split at h
      · simp at h
      · rename_i j hj
        split at h
        · simp at h
        · rename_i hneg
          exact ⟨i, j, hi, hj, hneg⟩
  obtain ⟨i, j, h1, h2, h3⟩ := key
  obtain ⟨_, _, e⟩ := create_file_meta_some L _ i f j h2
  rcases allocate_blocks_cases L (create_file_meta L (find_or_create_user L s u).1 i f).1
    with ⟨_, ea⟩ | ⟨st, hscan, ea⟩
  · rw [ea] at h3
    exact absurd (show ((-1 : Int) < 0) from by decide) h3
  · refine ⟨i, j, st, h1, h2, ?_, ?_⟩
    · rw [e] at hscan
      exact hscan
    · unfold create_file_1_svc
      simp only []
      rw [h1]
      simp only
      rw [h2]
      simp only
      rw [if_neg h3, ea, e]
      simp only [set_file, save_metadata, Function.update_same]
      rfl

theorem set_file_files (s : State) (i j : Nat) (fm : file_meta_t) (m m' : Nat) :
    ((set_file s i j fm).users m).files m' =
      if m = i ∧ m' = j then fm else (s.users m).files m' := by
  unfold set_file
  by_cases hi : m = i
  · subst hi
    by_cases hj : m' = j
    · subst hj; simp
    · simp [hj, Function.update_noteq hj]
  · simp [hi, Function.update_noteq hi]

theorem set_file_user_name (s : State) (i j : Nat) (fm : file_meta_t) (m : Nat) :
    ((set_file s i j fm).users m).user_name = (s.users m).user_name := by
  unfold set_file
  by_cases hi : m = i
  · subst hi; simp
  · simp [Function.update_noteq hi]

theorem set_file_in_use (s : State) (i j : Nat) (fm : file_meta_t) (m : Nat) :
    ((set_file s i j fm).users m).in_use = (s.users m).in_use := by
  unfold set_file
  by_cases hi : m = i
  · subst hi; simp
  · simp [Function.update_noteq hi]

/-- The lookup of a user only reads the fields `in_use` and `user_name`. -/
theorem find_user_congr (L : Layout) (s t : State) (u : List Nat)
    (h : ∀ m, (t.users m).in_use = (s.users m).in_use ∧
      (t.users m).user_name = (s.users m).user_name) :
    find_user L t u = find_user L s u := by
  unfold find_user
  apply first_index_congr
  intro m _ _
  rw [(h m).1, (h m).2]

@[simp] theorem find_or_create_user_open_table (L : Layout) (s : State) (u : List Nat) :
    (find_or_create_user L s u).1.open_table = s.open_table := by
  unfold find_or_create_user
  split
  · rfl
  · split <;> rfl

@[simp] theorem find_or_create_user_next_fd (L : Layout) (s : State) (u : List Nat) :
    (find_or_create_user L s u).1.next_fd = s.next_fd := by
  unfold find_or_create_user
  split
  · rfl
  · split <;> rfl

@[simp] theorem find_or_create_user_block_used (L : Layout) (s : State) (u : List Nat) :
    (find_or_create_user L s u).1.block_used = s.block_used := by
  unfold find_or_create_user
  split
  · rfl
  · split <;> rfl

/-- The user `find_or_create_user` returns is the one `find_user` finds
afterwards, when the name is NUL-terminated inside its field. -/
theorem find_user_after_find_or_create (L : Layout) (s : State) (u : List Nat) (i : Nat)
    (hu : (strncpy u L.USER_NAME_SIZE).length < L.USER_NAME_SIZE)
    (h : (find_or_create_user L s u).2 = some i) :
    find_user L (find_or_create_user L s u).1 u = some i := by
  rcases find_or_create_user_some L s u i h with ⟨h1, e⟩ | ⟨h1, h2, e⟩
  · rw [e]; exact h1
  · rw [e]
    obtain ⟨_, hi2, hi3, _⟩ := first_index_some _ _ _ _ h2
    unfold find_user at h1 ⊢
    apply first_index_first
    · exact Nat.zero_le _
    · exact hi2
    · simp only [save_metadata_users, Function.update_same, decide_eq_true_eq]
      refine ⟨by decide, ?_⟩
      rw [strncpy_pred_of_short _ _ hu]
      exact strncmp_strncpy_self u _
    · intro m hm1 hm2
      have := first_index_none _ _ _ h1 m hm1 (by omega)
      have hne : m ≠ i := by omega
      simpa [Function.update_noteq hne] using this

/-! ## C6: create, then open -/

set_option maxRecDepth 1000000 in
/-- C6 (counterexample). With all `MAX_OPEN_FILES` entries of the open table
in use, `create("alice","G")` succeeds and the `open("alice","G")` that follows
fails: it returns -1 with "Open file table full". -/
theorem create_then_open_table_full :
    Reachable layout32 state_table_full ∧
    (create_file_1_svc layout32 state_table_full alice file_G).2.success = 1 ∧
    (open_file_1_svc layout32 (create_file_1_svc layout32 state_table_full alice file_G).1
      alice file_G).2.fd = -1 ∧
    (open_file_1_svc layout32 (create_file_1_svc layout32 state_table_full alice file_G).1
      alice file_G).2.out_msg = "Open file table full" :=
  ⟨Reachable.reach_serve_all ReachableBy.init _, by decide, by decide, by decide⟩

/-- C6 (amended). For every state, every user name `u` and file name `f` that
are NUL-terminated inside their fields: if `create(u, f)` returns success, an
entry of the open table is free and the descriptor counter is not negative,
then an immediately following `open(u, f)` succeeds.  It answers
"File opened" with the descriptor `next_fd ≥ 0` (so not -1), and the first free
entry `k` of the open table becomes a session with that descriptor, cursor 0
and the start block of the slot of `f`, which is the extent `create` just
allocated: blocks that were free before `create` and are used after it. -/
theorem create_then_open (L : Layout) (s : State) (u f : List Nat)
    (hu : (strncpy u L.USER_NAME_SIZE).length < L.USER_NAME_SIZE)
    (hf : (strncpy f L.FILE_NAME_SIZE).length < L.FILE_NAME_SIZE)
    (hc : (create_file_1_svc L s u f).2.success = 1)
    (hfree : ∃ k, k < MAX_OPEN_FILES ∧ (s.open_table k).in_use = 0)
    (hfd : 0 ≤ s.next_fd) :
    ∃ i j k,
      find_user L (create_file_1_svc L s u f).1 u = some i ∧
      find_file L ((create_file_1_svc L s u f).1.users i) f = some j ∧
      2 ≤ slot_start (create_file_1_svc L s u f).1 i j ∧
      (∀ b, slot_start (create_file_1_svc L s u f).1 i j ≤ b →
        b < slot_start (create_file_1_svc L s u f).1 i j + BLOCKS_PER_FILE →
        s.block_used b = 0 ∧ (create_file_1_svc L s u f).1.block_used b = 1) ∧
      alloc_open_entry s = some k ∧
      (open_file_1_svc L (create_file_1_svc L s u f).1 u f).2 = ⟨s.next_fd, "File opened"⟩ ∧
      0 ≤ (open_file_1_svc L (create_file_1_svc L s u f).1 u f).2.fd ∧
      (open_file_1_svc L (create_file_1_svc L s u f).1 u f).2.fd ≠ -1 ∧
      (open_file_1_svc L (create_file_1_svc L s u f).1 u f).1.open_table k =
        open_entry_t.mk 1 s.next_fd (strncpy u L.USER_NAME_SIZE) (strncpy f L.FILE_NAME_SIZE)
          (slot_start (create_file_1_svc L s u f).1 i j) 0 ∧
      (∀ k', k' ≠ k →
        (open_file_1_svc L (create_file_1_svc L s u f).1 u f).1.open_table k' =
          s.open_table k') := by
  obtain ⟨i, j, st, h1, h2, hscan, e⟩ := create_file_success L s u f hc
  obtain ⟨hnone, hslot, _⟩ := create_file_meta_some L _ i f j h2
  obtain ⟨hst1, hst2, hst3⟩ := allocate_scan_start _ st hscan
  obtain ⟨k1, hk1, hk1free⟩ := hfree
  obtain ⟨k, hk⟩ := first_index_exists (fun k => decide ((s.open_table k).in_use = 0)) 0
    MAX_OPEN_FILES k1 (Nat.zero_le _) (by omega) (by simpa using hk1free)
  have hfu0 := find_user_after_find_or_create L s u i hu h1
  rw [e]
  simp only
  have hfu : find_user L
      (save_metadata L
        (set_file
          (save_metadata L
            { (set_file (find_or_create_user L s u).1 i j
                (file_meta_t.mk (strncpy f (L.FILE_NAME_SIZE - 1)) (-1))) with
              block_used := mark_used (find_or_create_user L s u).1.block_used st })
          i j (file_meta_t.mk (strncpy f (L.FILE_NAME_SIZE - 1)) st))) u = some i := by
    rw [← hfu0]
    apply find_user_congr
    intro m
    simp only [save_metadata_users]
    rw [set_file_in_use, set_file_user_name]
    simp only [save_metadata_users]
    rw [set_file_in_use, set_file_user_name]
    exact ⟨rfl, rfl⟩
  have hfiles : ∀ m, ((save_metadata L
        (set_file
          (save_metadata L
            { (set_file (find_or_create_user L s u).1 i j
                (file_meta_t.mk (strncpy f (L.FILE_NAME_SIZE - 1)) (-1))) with
              block_used := mark_used (find_or_create_user L s u).1.block_used st })
          i j (file_meta_t.mk (strncpy f (L.FILE_NAME_SIZE - 1)) st))).users i).files m =
      if m = j then file_meta_t.mk (strncpy f (L.FILE_NAME_SIZE - 1)) st
      else ((find_or_create_user L s u).1.users i).files m := by
    intro m
    simp only [save_metadata_users]
    rw [set_file_files]
    simp only [save_metadata_users]
    rw [set_file_files]
    by_cases hm : m = j
    · simp [hm]
    · simp [hm]
  have hff : find_file L ((save_metadata L
        (set_file
          (save_metadata L
            { (set_file (find_or_create_user L s u).1 i j
                (file_meta_t.mk (strncpy f (L.FILE_NAME_SIZE - 1)) (-1))) with
              block_used := mark_used (find_or_create_user L s u).1.block_used st })
          i j (file_meta_t.mk (strncpy f (L.FILE_NAME_SIZE - 1)) st))).users i) f = some j := by
    obtain ⟨_, hj2, _, _⟩ := first_index_some _ _ _ _ hslot
    unfold find_file at hnone ⊢
    apply first_index_first
    · exact Nat.zero_le _
    · exact hj2
    · rw [hfiles, if_pos rfl]
      simp only [decide_eq_true_eq, ge_iff_le]
      refine ⟨by omega, ?_⟩
      rw [strncpy_pred_of_short _ _ hf]
      exact strncmp_strncpy_self f _
    · intro m hm1 hm2
      have := first_index_none _ _ _ hnone m hm1 (by omega)
      rw [hfiles, if_neg (by omega)]
      exact this
  have hss : slot_start (save_metadata L
        (set_file
          (save_metadata L
            { (set_file (find_or_create_user L s u).1 i j
                (file_meta_t.mk (strncpy f (L.FILE_NAME_SIZE - 1)) (-1))) with
              block_used := mark_used (find_or_create_user L s u).1.block_used st })
          i j (file_meta_t.mk (strncpy f (L.FILE_NAME_SIZE - 1)) st))) i j = st := by
    unfold slot_start
    rw [hfiles, if_pos rfl]
  have hopen : open_file_1_svc L (save_metadata L
        (set_file
          (save_metadata L
            { (set_file (find_or_create_user L s u).1 i j
                (file_meta_t.mk (strncpy f (L.FILE_NAME_SIZE - 1)) (-1))) with
              block_used := mark_used (find_or_create_user L s u).1.block_used st })
          i j (file_meta_t.mk (strncpy f (L.FILE_NAME_SIZE - 1)) st))) u f =
      ({ (save_metadata L
        (set_file
          (save_metadata L
            { (set_file (find_or_create_user L s u).1 i j
                (file_meta_t.mk (strncpy f (L.FILE_NAME_SIZE - 1)) (-1))) with
              block_used := mark_used (find_or_create_user L s u).1.block_used st })
          i j (file_meta_t.mk (strncpy f (L.FILE_NAME_SIZE - 1)) st))) with
          open_table := Function.update s.open_table k
            (open_entry_t.mk 1 s.next_fd (strncpy u L.USER_NAME_SIZE)
              (strncpy f L.FILE_NAME_SIZE) st 0)
          next_fd := wrap32 (s.next_fd + 1) }, ⟨s.next_fd, "File opened"⟩) := by
    unfold open_file_1_svc
    rw [hfu]
    simp only
    rw [hff]
    simp only
    rw [hfiles, if_pos rfl]
    simp only
    rw [if_neg (by omega)]
    have hal : alloc_open_entry (save_metadata L
        (set_file
          (save_metadata L
            { (set_file (find_or_create_user L s u).1 i j
                (file_meta_t.mk (strncpy f (L.FILE_NAME_SIZE - 1)) (-1))) with
              block_used := mark_used (find_or_create_user L s u).1.block_used st })
          i j (file_meta_t.mk (strncpy f (L.FILE_NAME_SIZE - 1)) st))) = some k := by
      unfold alloc_open_entry
      simp only [save_metadata_open_table, set_file_open_table,
        find_or_create_user_open_table]
      exact hk
    rw [hal]
    simp only [save_metadata_open_table, set_file_open_table, save_metadata_next_fd,
      set_file_next_fd, find_or_create_user_open_table, find_or_create_user_next_fd]
  refine ⟨i, j, k, hfu, hff, ?_, ?_, hk, ?_, ?_, ?_, ?_, ?_⟩
  · rw [hss]; exact hst1
  · intro b hb1 hb2
    rw [hss] at hb1 hb2
    rw [BLOCKS_PER_FILE_eq] at hb2
    rw [find_or_create_user_block_used] at hst3
    refine ⟨hst3 b hb1 hb2, ?_⟩
    simp only [save_metadata_block_used, set_file_block_used, mark_used, BLOCKS_PER_FILE_eq]
    rw [if_pos ⟨hb1, hb2⟩]
  · rw [hopen]
  · rw [hopen]; exact hfd
  · rw [hopen]; simp only; omega
  · rw [hopen, hss]; simp only [Function.update_same]
  · intro k' hk'
    rw [hopen]
    simp only [Function.update_noteq hk']

set_option maxRecDepth 100000 in
theorem create_then_open_witness :
    (create_file_1_svc layout32 (init_disk layout32) alice file_F).2.success = 1 ∧
    ∃ i j k,
      find_user layout32 (create_file_1_svc layout32 (init_disk layout32) alice file_F).1 alice
        = some i ∧
      find_file layout32
        ((create_file_1_svc layout32 (init_disk layout32) alice file_F).1.users i) file_F
        = some j ∧
      2 ≤ slot_start (create_file_1_svc layout32 (init_disk layout32) alice file_F).1 i j ∧
      (∀ b, slot_start (create_file_1_svc layout32 (init_disk layout32) alice file_F).1 i j ≤ b →
        b < slot_start (create_file_1_svc layout32 (init_disk layout32) alice file_F).1 i j
          + BLOCKS_PER_FILE →
        (init_disk layout32).block_used b = 0 ∧
        (create_file_1_svc layout32 (init_disk layout32) alice file_F).1.block_used b = 1) ∧
      alloc_open_entry (init_disk layout32) = some k ∧
      (open_file_1_svc layout32 (create_file_1_svc layout32 (init_disk layout32) alice file_F).1
        alice file_F).2 = ⟨(init_disk layout32).next_fd, "File opened"⟩ ∧
      0 ≤ (open_file_1_svc layout32
        (create_file_1_svc layout32 (init_disk layout32) alice file_F).1 alice file_F).2.fd ∧
      (open_file_1_svc layout32
        (create_file_1_svc layout32 (init_disk layout32) alice file_F).1 alice file_F).2.fd
        ≠ -1 ∧
      (open_file_1_svc layout32
        (create_file_1_svc layout32 (init_disk layout32) alice file_F).1 alice
        file_F).1.open_table k =
        open_entry_t.mk 1 (init_disk layout32).next_fd (strncpy alice layout32.USER_NAME_SIZE)
          (strncpy file_F layout32.FILE_NAME_SIZE)
          (slot_start (create_file_1_svc layout32 (init_disk layout32) alice file_F).1 i j) 0 ∧
      (∀ k', k' ≠ k →
        (open_file_1_svc layout32
          (create_file_1_svc layout32 (init_disk layout32) alice file_F).1 alice
          file_F).1.open_table k' = (init_disk layout32).open_table k') :=
  ⟨by decide,
    create_then_open layout32 (init_disk layout32) alice file_F (by decide) (by decide)
      (by decide) ⟨0, by decide, by decide⟩ (by decide)⟩

/-! ## Requests with NUL-terminated names -/

theorem strncpy_nil (n : Nat) : strncpy [] n = [] := by
  cases n <;> rfl

theorem NInv.ninv_of_users_eq {L : Layout} {s t : State} (h : NInv L s) (hu : t.users = s.users) :
    NInv L t := by
  constructor
  · intro i j; simpa [slot_name, hu] using h.fixed i j
  · intro i j j'; simpa [slot_name, slot_start, hu] using h.uniq i j j'

/-- Rewriting one slot to an unallocated one keeps the facts about names. -/
theorem NInv.ninv_clear_slot {L : Layout} {s t : State} (h : NInv L s) (i j : Nat) (nm : List Nat)
    (hnm : strncpy nm L.FILE_NAME_SIZE = nm)
    (hf : ∀ i' j', (t.users i').files j' =
      if i' = i ∧ j' = j then file_meta_t.mk nm (-1) else (s.users i').files j') :
    NInv L t := by
  constructor
  · intro i' j'
    unfold slot_name
    rw [hf]
    by_cases hc : i' = i ∧ j' = j
    · rw [if_pos hc]; exact hnm
    · rw [if_neg hc]; exact h.fixed i' j'
  · intro i' j1 j2 hj1 hj2 hne h1 h2
    unfold slot_start at h1 h2
    unfold slot_name
    rw [hf] at h1 h2 ⊢
    rw [hf]
    by_cases hc1 : i' = i ∧ j1 = j
    · rw [if_pos hc1] at h1
      simp at h1
    · by_cases hc2 : i' = i ∧ j2 = j
      · rw [if_pos hc2] at h2
        simp at h2
      · rw [if_neg hc1] at h1 ⊢
        rw [if_neg hc2] at h2 ⊢
        exact h.uniq i' j1 j2 hj1 hj2 hne h1 h2

/-- Giving the slot `(i, j)` a start block keeps the facts about names, when
no other allocated slot of the user has its name. -/
theorem NInv.ninv_assign {L : Layout} {s t : State} (h : NInv L s) (i j : Nat) (st : Int)
    (hother : ∀ j', j' < MAX_FILES_USER → j' ≠ j → 0 ≤ slot_start s i j' →
      slot_name s i j' ≠ slot_name s i j)
    (hf : ∀ i' j', (t.users i').files j' =
      if i' = i ∧ j' = j then file_meta_t.mk (slot_name s i j) st else (s.users i').files j') :
    NInv L t := by
  constructor
  · intro i' j'
    unfold slot_name
    rw [hf]
    by_cases hc : i' = i ∧ j' = j
    · rw [if_pos hc]; exact h.fixed i j
    · rw [if_neg hc]; exact h.fixed i' j'
  · intro i' j1 j2 hj1 hj2 hne h1 h2
    unfold slot_start at h1 h2
    unfold slot_name
    rw [hf] at h1 h2 ⊢
    rw [hf]
    by_cases hc1 : i' = i ∧ j1 = j
    · have hc2 : ¬ (i' = i ∧ j2 = j) := by
        intro hc2; exact hne (hc1.2.trans hc2.2.symm)
      rw [if_pos hc1]
      rw [if_neg hc2] at h2 ⊢
      obtain ⟨e1, _⟩ := hc1
      subst e1
      have := hother j2 hj2 (by intro e; exact hc2 ⟨rfl, e⟩) h2
      exact fun e => this e.symm
    · by_cases hc2 : i' = i ∧ j2 = j
      · rw [if_neg hc1] at h1 ⊢
        rw [if_pos hc2]
        obtain ⟨e1, _⟩ := hc2
        subst e1
        exact hother j1 hj1 (by intro e; exact hc1 ⟨rfl, e⟩) (le_of_lt h1)
      · rw [if_neg hc1] at h1 ⊢
        rw [if_neg hc2] at h2 ⊢
        exact h.uniq i' j1 j2 hj1 hj2 hne h1 h2

theorem NInv.ninv_find_or_create_user {L : Layout} {s : State} (u : List Nat) (h : NInv L s) :
    NInv L (find_or_create_user L s u).1 := by
  unfold SSNFS.find_or_create_user
  split
  · exact h
  · split
    · rename_i i _
      constructor
      · intro i' j
        unfold slot_name
        simp only [save_metadata_users]
        by_cases hi : i' = i
        · subst hi
          simp only [Function.update_same, zero_files]
          exact strncpy_nil _
        · simp only [Function.update_noteq hi]
          exact h.fixed i' j
      · intro i' j1 j2 hj1 hj2 hne h1 h2
        unfold slot_start at h1 h2
        unfold slot_name
        simp only [save_metadata_users] at h1 h2 ⊢
        by_cases hi : i' = i
        · subst hi
          simp only [Function.update_same, zero_files] at h1
          omega
        · simp only [Function.update_noteq hi] at h1 h2 ⊢
          exact h.uniq i' j1 j2 hj1 hj2 hne h1 h2
    · exact h

theorem NInv.ninv_create_file_meta {L : Layout} {s : State} (i : Nat) (f : List Nat)
    (h : NInv L s) : NInv L (create_file_meta L s i f).1 := by
  unfold SSNFS.create_file_meta
  split
  · exact h
  · split
    · rename_i j _
      exact h.ninv_clear_slot i j _ (strncpy_strncpy_of_le _ _ _ (Nat.sub_le _ _))
        (fun i' j' => set_file_files s i j _ i' j')
    · exact h

theorem NInv.ninv_init (L : Layout) : NInv L (init_disk L) := by
  constructor
  · intro i j; exact strncpy_nil _
  · intro i j j' _ _ _ h1
    change (0 : Int) < 0 at h1
    omega

@[simp] theorem allocate_blocks_users (L : Layout) (s : State) :
    (allocate_blocks L s).1.users = s.users := by
  rcases allocate_blocks_cases L s with ⟨_, e⟩ | ⟨st, _, e⟩
  · rw [e]
  · rw [e]; rfl

@[simp] theorem allocate_blocks_open_table (L : Layout) (s : State) :
    (allocate_blocks L s).1.open_table = s.open_table := by
  rcases allocate_blocks_cases L s with ⟨_, e⟩ | ⟨st, _, e⟩
  · rw [e]
  · rw [e]; rfl

@[simp] theorem allocate_blocks_next_fd (L : Layout) (s : State) :
    (allocate_blocks L s).1.next_fd = s.next_fd := by
  rcases allocate_blocks_cases L s with ⟨_, e⟩ | ⟨st, _, e⟩
  · rw [e]
  · rw [e]; rfl

theorem NInv.ninv_create_file {L : Layout} {s : State} (u f : List Nat)
    (hf : terminated f L.FILE_NAME_SIZE) (h : NInv L s) :
    NInv L (create_file_1_svc L s u f).1 := by
  have h1 := h.ninv_find_or_create_user u
  unfold create_file_1_svc
  simp only []
  split
  · exact h1
  · rename_i i _
    have h2 := h1.ninv_create_file_meta i f
    split
    · exact h2
    · rename_i j hj
      obtain ⟨hnone, hslot, e⟩ := create_file_meta_some L _ i f j hj
      split
      · exact h2.ninv_of_users_eq (allocate_blocks_users L _)
      · refine h2.ninv_assign i j
          (allocate_blocks L
            (SSNFS.create_file_meta L (SSNFS.find_or_create_user L s u).1 i f).1).2 ?_ ?_
        · intro j' hj' hne h0
          rw [e] at h0 ⊢
          unfold slot_start at h0
          unfold slot_name
          rw [set_file_files, if_neg (by intro hc; exact hne hc.2)] at h0 ⊢
          rw [set_file_files, if_pos ⟨rfl, rfl⟩]
          simp only
          unfold find_file at hnone
          have hn := first_index_none _ _ _ hnone j' (Nat.zero_le _) (by omega)
          simp only [decide_eq_false_iff_not, ge_iff_le, not_and] at hn
          have hcmp := hn h0
          rw [strncmp_eq_zero_iff] at hcmp
          have hfix := h1.fixed i j'
          unfold slot_name at hfix
          rw [hfix] at hcmp
          unfold terminated at hf
          rw [strncpy_pred_of_short _ _ hf]
          exact hcmp
        · intro i' j'
          simp only [save_metadata_users]
          rw [set_file_files]
          simp only [allocate_blocks_users]
          rfl

theorem NInv.ninv_delete_file {L : Layout} {s : State} (u f : List Nat) (h : NInv L s) :
    NInv L (delete_file_1_svc L s u f).1 := by
  unfold delete_file_1_svc
  split
  · exact h
  · split
    · exact h
    · rename_i i _ _ j hj
      split
      · exact h
      · refine h.ninv_clear_slot i j [] (strncpy_nil _) ?_
        intro i' j'
        simp only [save_metadata_users]
        rw [set_file_files, free_blocks_users]

theorem NInv.ninv_open_file {L : Layout} {s : State} (u f : List Nat) (h : NInv L s) :
    NInv L (open_file_1_svc L s u f).1 := by
  apply h.ninv_of_users_eq
  unfold open_file_1_svc
  split
  · rfl
  · split
    · rfl
    · split
      · rfl
      · split <;> rfl

theorem NInv.ninv_read_file {L : Layout} {s : State} (fd n : Int) (h : NInv L s) :
    NInv L (read_file_1_svc s fd n).1 := by
  apply h.ninv_of_users_eq
  unfold read_file_1_svc
  split
  · rfl
  · split
    · rfl
    · split
      · rfl
      · simp only
        split
        · rfl
        · split <;> rfl

theorem NInv.ninv_write_file {L : Layout} {s : State} (fd n : Int) (b : List Nat) (h : NInv L s) :
    NInv L (write_file_1_svc s fd n b).1 := by
  apply h.ninv_of_users_eq
  unfold write_file_1_svc
  split
  · rfl
  · split
    · rfl
    · simp only
      split
      · rfl
      · split <;> rfl

theorem NInv.ninv_seek_position {L : Layout} {s : State} (fd pos : Int) (h : NInv L s) :
    NInv L (seek_position_1_svc s fd pos).1 := by
  apply h.ninv_of_users_eq
  unfold seek_position_1_svc
  split
  · rfl
  · split <;> rfl

theorem NInv.ninv_close_file {L : Layout} {s : State} (fd : Int) (h : NInv L s) :
    NInv L (close_file_1_svc s fd).1 := by
  apply h.ninv_of_users_eq
  unfold close_file_1_svc
  split <;> rfl

theorem NInv.ninv_list_files {L : Layout} {s : State} (u : List Nat) (h : NInv L s) :
    NInv L (list_files_1_svc L s u).1 := by
  apply h.ninv_of_users_eq
  unfold list_files_1_svc
  split <;> rfl

theorem NInv.ninv_serve {L : Layout} {s : State} (r : Request) (hr : names_terminated L r)
    (h : NInv L s) : NInv L (serve L s r) := by
  cases r with
  | create_file u f => exact h.ninv_create_file u f hr.2
  | open_file u f => exact h.ninv_open_file u f
  | read_file fd n => exact h.ninv_read_file fd n
  | write_file fd n b => exact h.ninv_write_file fd n b
  | seek_position fd pos => exact h.ninv_seek_position fd pos
  | close_file fd => exact h.ninv_close_file fd
  | delete_file u f => exact h.ninv_delete_file u f
  | list_files u => exact h.ninv_list_files u

theorem ReachableBy.by_ninv {L : Layout} {s : State}
    (h : ReachableBy L (names_terminated L) s) : NInv L s := by
  induction h with
  | init => exact NInv.ninv_init L
  | step s r _ hr ih => exact ih.ninv_serve r hr

theorem ReachableBy.by_serve_all {L : Layout} {P : Request → Prop} {s : State}
    (h : ReachableBy L P s) (reqs : List Request) (hP : ∀ r ∈ reqs, P r) :
    ReachableBy L P (SSNFS.serve_all L s reqs) := by
  induction reqs generalizing s with
  | nil => exact h
  | cons r rs ih =>
    exact ih (ReachableBy.step s r h (hP r (List.mem_cons_self _ _)))
      (fun r' hr' => hP r' (List.mem_cons_of_mem _ hr'))

/-! ## C9: a deleted file is gone -/

theorem mem_listed_names (u : user_meta_t) (nm : List Nat) :
    nm ∈ listed_names u ↔
      ∃ j, j < MAX_FILES_USER ∧ 0 ≤ (u.files j).start_block ∧ (u.files j).file_name ≠ [] ∧
        (u.files j).file_name = nm := by
  unfold listed_names
  rw [List.mem_filterMap]
  constructor
  · rintro ⟨j, hj, h⟩
    rw [List.mem_range] at hj
    by_cases hc : (u.files j).start_block ≥ 0 ∧ (u.files j).file_name ≠ []
    · rw [if_pos hc] at h
      simp only [Option.some.injEq] at h
      exact ⟨j, hj, hc.1, hc.2, h⟩
    · rw [if_neg hc] at h
      cases h
  · rintro ⟨j, hj, h0, hne, e⟩
    refine ⟨j, List.mem_range.mpr hj, ?_⟩
    rw [if_pos ⟨h0, hne⟩, e]

/-- The lookup of a file only reads the slots below `MAX_FILES_USER`. -/
theorem find_file_congr (L : Layout) (u v : user_meta_t) (f : List Nat)
    (h : ∀ m, m < MAX_FILES_USER → v.files m = u.files m) :
    find_file L v f = find_file L u f := by
  unfold find_file
  apply first_index_congr
  intro m _ hm
  rw [h m (by omega)]

/-- With NUL-terminated names a deleted file is gone: the part of C9 that
holds.  In every state reached from a fresh image by requests whose names are
NUL-terminated inside their fields, where user `u` has a created file `f`
(found by `find_user` and `find_file`, in a slot that holds a file) and no
in-use entry of the open table carries the names of `(u, f)`:
`delete(u, f)` answers "File deleted"; after it `open(u, f)` fails with
"File not found" and handle -1 and changes nothing, `list(u)` is the list of
the names of `u` with a newline each, in which the name of `f` no longer
occurs; every other slot of `u` is unchanged, every other listed name is
still listed, and every other file of `u` is found as before and `open` gives
the same reply on it as before the deletion. -/
theorem delete_then_gone (L : Layout) (s : State) (u f : List Nat) (i j : Nat)
    (hr : ReachableBy L (names_terminated L) s)
    (hu : find_user L s u = some i) (hf : find_file L (s.users i) f = some j)
    (hcr : holds_file s i j)
    (hno : ∀ k, k < MAX_OPEN_FILES → ¬ ((s.open_table k).in_use ≠ 0 ∧
      strncmp (s.open_table k).user_name u L.USER_NAME_SIZE = 0 ∧
      strncmp (s.open_table k).file_name f L.FILE_NAME_SIZE = 0)) :
    ∃ t, delete_file_1_svc L s u f = (t, ⟨"File deleted"⟩) ∧
      open_file_1_svc L t u f = (t, ⟨-1, "File not found"⟩) ∧
      list_files_1_svc L t u =
        (t, ⟨((listed_names (t.users i)).map (fun nm => nm ++ [10])).flatten⟩) ∧
      slot_name s i j = strncpy f L.FILE_NAME_SIZE ∧
      slot_name s i j ∉ listed_names (t.users i) ∧
      (∀ j', j' ≠ j → (t.users i).files j' = (s.users i).files j') ∧
      (∀ nm, nm ∈ listed_names (s.users i) → nm ≠ slot_name s i j →
        nm ∈ listed_names (t.users i)) ∧
      (∀ g j', j' ≠ j → find_file L (s.users i) g = some j' →
        find_file L (t.users i) g = some j' ∧
        (open_file_1_svc L t u g).2 = (open_file_1_svc L s u g).2) := by
  have hn : NInv L s := ReachableBy.by_ninv hr
  obtain ⟨hj, hj0, hjcmp, _⟩ := find_file_some L _ f j hf
  have hname : slot_name s i j = strncpy f L.FILE_NAME_SIZE := by
    rw [strncmp_eq_zero_iff] at hjcmp
    rw [← hjcmp]
    exact (hn.fixed i j).symm
  have hscan : first_index
      (fun k => decide ((s.open_table k).in_use ≠ 0 ∧
        strncmp (s.open_table k).user_name u L.USER_NAME_SIZE = 0 ∧
        strncmp (s.open_table k).file_name f L.FILE_NAME_SIZE = 0))
      0 MAX_OPEN_FILES = none := by
    cases hfi : first_index
      (fun k => decide ((s.open_table k).in_use ≠ 0 ∧
        strncmp (s.open_table k).user_name u L.USER_NAME_SIZE = 0 ∧
        strncmp (s.open_table k).file_name f L.FILE_NAME_SIZE = 0))
      0 MAX_OPEN_FILES with
    | none => rfl
    | some k =>
      obtain ⟨_, hk2, hk3, _⟩ := first_index_some _ _ _ _ hfi
      simp only [decide_eq_true_eq] at hk3
      exact absurd hk3 (hno k (by omega))
  have hdel : delete_file_1_svc L s u f =
      (save_metadata L
        (set_file (free_blocks L s ((s.users i).files j).start_block) i j
          (file_meta_t.mk [] (-1))), ⟨"File deleted"⟩) := by
    unfold delete_file_1_svc
    rw [hu]
    simp only
    rw [hf]
    simp only
    rw [hscan]
  have hfiles : ∀ m m', ((save_metadata L
        (set_file (free_blocks L s ((s.users i).files j).start_block) i j
          (file_meta_t.mk [] (-1)))).users m).files m' =
      if m = i ∧ m' = j then file_meta_t.mk [] (-1) else (s.users m).files m' := by
    intro m m'
    simp only [save_metadata_users]
    rw [set_file_files, free_blocks_users]
  have hfu : ∀ v, find_user L (save_metadata L
        (set_file (free_blocks L s ((s.users i).files j).start_block) i j
          (file_meta_t.mk [] (-1)))) v = find_user L s v := by
    intro v
    apply find_user_congr
    intro m
    simp only [save_metadata_users]
    rw [set_file_in_use, set_file_user_name, free_blocks_users]
    exact ⟨rfl, rfl⟩
  have hgone : find_file L ((save_metadata L
        (set_file (free_blocks L s ((s.users i).files j).start_block) i j
          (file_meta_t.mk [] (-1)))).users i) f = none := by
    cases hfi : find_file L ((save_metadata L
        (set_file (free_blocks L s ((s.users i).files j).start_block) i j
          (file_meta_t.mk [] (-1)))).users i) f with
    | none => rfl
    | some m =>
      exfalso
      obtain ⟨hm, hm0, hmcmp, _⟩ := find_file_some L _ f m hfi
      rw [hfiles] at hm0 hmcmp
      by_cases hmj : m = j
      · rw [if_pos ⟨rfl, hmj⟩] at hm0
        simp at hm0
      · rw [if_neg (by intro hc; exact hmj hc.2)] at hm0 hmcmp
        rw [strncmp_eq_zero_iff] at hmcmp
        have hfix := hn.fixed i m
        unfold slot_name at hfix
        rw [hfix] at hmcmp
        have := hn.uniq i j m hj hm (fun e => hmj e.symm) hcr hm0
        apply this
        rw [hname]
        unfold slot_name
        exact hmcmp.symm
  refine ⟨_, hdel, ?_, ?_, hname, ?_, ?_, ?_, ?_⟩
  · unfold open_file_1_svc
    rw [hfu, hu]
    simp only
    rw [hgone]
  · unfold list_files_1_svc
    rw [hfu, hu]
  · rw [mem_listed_names]
    rintro ⟨m, hm, hm0, hmne, hme⟩
    rw [hfiles] at hm0 hmne hme
    by_cases hmj : m = j
    · rw [if_pos ⟨rfl, hmj⟩] at hmne
      exact hmne rfl
    · rw [if_neg (by intro hc; exact hmj hc.2)] at hm0 hme
      have := hn.uniq i j m hj hm (fun e => hmj e.symm) hcr hm0
      apply this
      unfold slot_name
      exact hme.symm
  · intro j' hj'
    rw [hfiles, if_neg (by intro hc; exact hj' hc.2)]
  · intro nm hnm hne
    rw [mem_listed_names] at hnm ⊢
    obtain ⟨m, hm, hm0, hmne, hme⟩ := hnm
    have hmj : m ≠ j := by
      intro e
      apply hne
      rw [← hme, e]
      rfl
    refine ⟨m, hm, ?_, ?_, ?_⟩
    · rw [hfiles, if_neg (by intro hc; exact hmj hc.2)]; exact hm0
    · rw [hfiles, if_neg (by intro hc; exact hmj hc.2)]; exact hmne
    · rw [hfiles, if_neg (by intro hc; exact hmj hc.2)]; exact hme
  · intro g j' hj' hg
    obtain ⟨hg1, hg0, hgcmp, hgfirst⟩ := find_file_some L _ g j' hg
    have hfg : find_file L ((save_metadata L
        (set_file (free_blocks L s ((s.users i).files j).start_block) i j
          (file_meta_t.mk [] (-1)))).users i) g = some j' := by
      unfold find_file
      apply first_index_first
      · exact Nat.zero_le _
      · omega
      · rw [hfiles, if_neg (by intro hc; exact hj' hc.2)]
        simp only [decide_eq_true_eq, ge_iff_le]
        exact ⟨hg0, hgcmp⟩
      · intro m _ hm
        rw [hfiles]
        by_cases hmj : m = j
        · rw [if_pos ⟨rfl, hmj⟩]
          simp
        · rw [if_neg (by intro hc; exact hmj hc.2)]
          simpa using hgfirst m hm
    refine ⟨hfg, ?_⟩
    unfold open_file_1_svc
    rw [hfu, hu]
    simp only
    rw [hfg, hg]
    simp only
    rw [hfiles, if_neg (show ¬ (i = i ∧ j' = j) from fun hc => hj' hc.2)]
    have hal : alloc_open_entry (save_metadata L
        (set_file (free_blocks L s ((s.users i).files j).start_block) i j
          (file_meta_t.mk [] (-1)))) = alloc_open_entry s := by
      unfold alloc_open_entry
      simp only [save_metadata_open_table, set_file_open_table, free_blocks_open_table]
    rw [hal]
    by_cases hneg : ((s.users i).files j').start_block < 0
    · rw [if_pos hneg, if_pos hneg]
    · rw [if_neg hneg, if_neg hneg]
      cases alloc_open_entry s with
      | none => rfl
      | some k =>
        simp only [save_metadata_next_fd, set_file_next_fd, free_blocks_next_fd]

theorem requests_F_G_terminated : ∀ r ∈ requests_F_G, names_terminated layout32 r := by
  intro r hr
  simp only [requests_F_G, List.mem_cons, List.mem_singleton, List.not_mem_nil, or_false] at hr
  rcases hr with e | e <;> rw [e] <;> exact ⟨by decide, by decide⟩

theorem state_F_G_reachable_terminated :
    ReachableBy layout32 (names_terminated layout32) state_F_G :=
  ReachableBy.by_serve_all ReachableBy.init requests_F_G requests_F_G_terminated

set_option maxRecDepth 100000 in
theorem delete_then_gone_witness :
    ReachableBy layout32 (names_terminated layout32) state_F_G ∧
    find_user layout32 state_F_G alice = some 0 ∧
    find_file layout32 (state_F_G.users 0) file_F = some 0 ∧
    holds_file state_F_G 0 0 ∧
    ∃ t, delete_file_1_svc layout32 state_F_G alice file_F = (t, ⟨"File deleted"⟩) ∧
      open_file_1_svc layout32 t alice file_F = (t, ⟨-1, "File not found"⟩) ∧
      list_files_1_svc layout32 t alice =
        (t, ⟨((listed_names (t.users 0)).map (fun nm => nm ++ [10])).flatten⟩) ∧
      slot_name state_F_G 0 0 = strncpy file_F layout32.FILE_NAME_SIZE ∧
      slot_name state_F_G 0 0 ∉ listed_names (t.users 0) ∧
      (∀ j', j' ≠ 0 → (t.users 0).files j' = (state_F_G.users 0).files j') ∧
      (∀ nm, nm ∈ listed_names (state_F_G.users 0) → nm ≠ slot_name state_F_G 0 0 →
        nm ∈ listed_names (t.users 0)) ∧
      (∀ g j', j' ≠ 0 → find_file layout32 (state_F_G.users 0) g = some j' →
        find_file layout32 (t.users 0) g = some j' ∧
        (open_file_1_svc layout32 t alice g).2 =
          (open_file_1_svc layout32 state_F_G alice g).2) :=
  ⟨state_F_G_reachable_terminated, by decide, by decide, by decide,
    delete_then_gone layout32 state_F_G alice file_F 0 0 state_F_G_reachable_terminated
      (by decide) (by decide) (by decide) (by decide)⟩

/-! ## Names that fill their field -/

set_option maxRecDepth 100000 in
/-- With 32-byte name fields, `create` of a file name of 32 characters and no
NUL succeeds and stores the first 31 characters; `find_file` compares all 32
bytes, so the `open` with the same name answers "File not found", and the
stored name equals that of a file created under the 31-character name. -/
theorem unterminated_name_is_truncated :
    ¬ terminated name_32 layout32.FILE_NAME_SIZE ∧
    (create_file_1_svc layout32 state_F alice name_32).2.success = 1 ∧
    slot_name (create_file_1_svc layout32 state_F alice name_32).1 0 1 = name_31 ∧
    (open_file_1_svc layout32 (create_file_1_svc layout32 state_F alice name_32).1 alice
      name_32).2.fd = -1 ∧
    (open_file_1_svc layout32 (create_file_1_svc layout32 state_F alice name_32).1 alice
      name_32).2.out_msg = "File not found" ∧
    (create_file_1_svc layout32 (create_file_1_svc layout32 state_F alice name_31).1 alice
      name_32).2.success = 1 ∧
    slot_name (create_file_1_svc layout32 (create_file_1_svc layout32 state_F alice name_31).1
      alice name_32).1 0 1 = name_31 ∧
    slot_name (create_file_1_svc layout32 (create_file_1_svc layout32 state_F alice name_31).1
      alice name_32).1 0 2 = name_31 := by
  decide

/-! ## C13: seek -/

/-- C13. For every state, every descriptor `h` of an open session (entry `k`
of the open table) and every integer `pos`: `seek(h, pos)` succeeds exactly
when `0 ≤ pos ≤ file_max_size`; on success the reply is "Seek ok", the cursor
of the session is `pos` and nothing else changes (the other fields of the
entry, the other entries, disk, directory, bitmap, `next_fd`); otherwise the
reply is "Invalid position" and the state is the one given.  For a descriptor
no open session has, the reply is "Invalid file descriptor" with the state
unchanged. -/
theorem seek_sets_cursor (s : State) (h pos : Int) (k : Nat)
    (hk : find_open_by_fd s h = some k) :
    ((seek_position_1_svc s h pos).2.success = 1 ↔ (0 ≤ pos ∧ pos ≤ file_max_size)) ∧
    (0 ≤ pos ∧ pos ≤ file_max_size →
      (seek_position_1_svc s h pos).2 = ⟨1, "Seek ok"⟩ ∧
      ((seek_position_1_svc s h pos).1.open_table k).current_pos = pos ∧
      ((seek_position_1_svc s h pos).1.open_table k).in_use = (s.open_table k).in_use ∧
      ((seek_position_1_svc s h pos).1.open_table k).fd = (s.open_table k).fd ∧
      ((seek_position_1_svc s h pos).1.open_table k).user_name = (s.open_table k).user_name ∧
      ((seek_position_1_svc s h pos).1.open_table k).file_name = (s.open_table k).file_name ∧
      ((seek_position_1_svc s h pos).1.open_table k).start_block
        = (s.open_table k).start_block ∧
      (∀ k', k' ≠ k → (seek_position_1_svc s h pos).1.open_table k' = s.open_table k') ∧
      (seek_position_1_svc s h pos).1.disk = s.disk ∧
      (seek_position_1_svc s h pos).1.users = s.users ∧
      (seek_position_1_svc s h pos).1.block_used = s.block_used ∧
      (seek_position_1_svc s h pos).1.next_fd = s.next_fd) ∧
    (¬ (0 ≤ pos ∧ pos ≤ file_max_size) →
      seek_position_1_svc s h pos = (s, ⟨-1, "Invalid position"⟩)) ∧
    (∀ h', find_open_by_fd s h' = none →
      seek_position_1_svc s h' pos = (s, ⟨-1, "Invalid file descriptor"⟩)) := by
  have hok : 0 ≤ pos ∧ pos ≤ file_max_size →
      seek_position_1_svc s h pos = (set_pos s k pos, ⟨1, "Seek ok"⟩) :=
    fun hp => seek_position_ok s h pos k hk hp.1 hp.2
  have hbad : ¬ (0 ≤ pos ∧ pos ≤ file_max_size) →
      seek_position_1_svc s h pos = (s, ⟨-1, "Invalid position"⟩) := by
    intro hp
    unfold seek_position_1_svc
    rw [hk]
    simp only
    rw [if_pos (by omega)]
  refine ⟨?_, ?_, hbad, ?_⟩
  · constructor
    · intro hs
      by_contra hp
      rw [hbad hp] at hs
      simp at hs
    · intro hp
      rw [hok hp]
  · intro hp
    rw [hok hp]
    refine ⟨rfl, ?_, ?_, ?_, ?_, ?_, ?_, ?_, rfl, rfl, rfl, rfl⟩
    · simp only [set_pos_entry, if_pos]
    · simp only [set_pos_entry, if_pos]
    · simp only [set_pos_entry, if_pos]
    · simp only [set_pos_entry, if_pos]
    · simp only [set_pos_entry, if_pos]
    · simp only [set_pos_entry, if_pos]
    · intro k' hk'
      simp only [set_pos_entry, if_neg hk']
  · intro h' hnone
    unfold seek_position_1_svc
    rw [hnone]

set_option maxRecDepth 100000 in
theorem seek_sets_cursor_witness :
    find_open_by_fd state_open_F 3 = some 0 ∧
    ((seek_position_1_svc state_open_F 3 40).2.success = 1 ↔
      ((0 : Int) ≤ 40 ∧ (40 : Int) ≤ file_max_size)) ∧
    ((0 : Int) ≤ 40 ∧ (40 : Int) ≤ file_max_size →
      (seek_position_1_svc state_open_F 3 40).2 = ⟨1, "Seek ok"⟩ ∧
      ((seek_position_1_svc state_open_F 3 40).1.open_table 0).current_pos = 40 ∧
      ((seek_position_1_svc state_open_F 3 40).1.open_table 0).in_use
        = (state_open_F.open_table 0).in_use ∧
      ((seek_position_1_svc state_open_F 3 40).1.open_table 0).fd
        = (state_open_F.open_table 0).fd ∧
      ((seek_position_1_svc state_open_F 3 40).1.open_table 0).user_name
        = (state_open_F.open_table 0).user_name ∧
      ((seek_position_1_svc state_open_F 3 40).1.open_table 0).file_name
        = (state_open_F.open_table 0).file_name ∧
      ((seek_position_1_svc state_open_F 3 40).1.open_table 0).start_block
        = (state_open_F.open_table 0).start_block ∧
      (∀ k', k' ≠ 0 →
        (seek_position_1_svc state_open_F 3 40).1.open_table k' = state_open_F.open_table k') ∧
      (seek_position_1_svc state_open_F 3 40).1.disk = state_open_F.disk ∧
      (seek_position_1_svc state_open_F 3 40).1.users = state_open_F.users ∧
      (seek_position_1_svc state_open_F 3 40).1.block_used = state_open_F.block_used ∧
      (seek_position_1_svc state_open_F 3 40).1.next_fd = state_open_F.next_fd) ∧
    (¬ ((0 : Int) ≤ 40 ∧ (40 : Int) ≤ file_max_size) →
      seek_position_1_svc state_open_F 3 40 = (state_open_F, ⟨-1, "Invalid position"⟩)) ∧
    (∀ h', find_open_by_fd state_open_F h' = none →
      seek_position_1_svc state_open_F h' 40 =
        (state_open_F, ⟨-1, "Invalid file descriptor"⟩)) :=
  ⟨by decide, seek_sets_cursor state_open_F 3 40 0 (by decide)⟩

/-! ## C12: what a read returns -/

theorem clamp_count_eq_min (c n : Int) (h0 : 0 ≤ c) (h1 : c ≤ file_max_size) (hn : 0 ≤ n)
    (hrep : c + n < 2147483648) : clamp_count c n = min n (file_max_size - c) := by
  unfold clamp_count
  rw [file_max_size_eq] at *
  rw [wrap32_of_range (c + n) (by omega) (by omega)]
  by_cases hgt : c + n > 32768
  · rw [if_pos hgt, wrap32_of_range _ (by omega) (by omega)]
    omega
  · rw [if_neg hgt]
    omega

/-- A fresh server after `create("alice","F")`, `open("alice","F") = 3` and
`seek(3, 32768)`: the cursor of the session is at `file_max_size`. -/
theorem state_open_F_at_end :
    (seek_position_1_svc state_open_F 3 32768).2.success = 1 ∧
    ((seek_position_1_svc state_open_F 3 32768).1.open_table 0).current_pos
      = file_max_size := by
  decide

set_option maxRecDepth 100000 in
/-- C11 (counterexample). With the cursor at `file_max_size` (after
`create("alice","F")`, `open("alice","F") = 3`, `seek(3, 32768)`), a write of
one byte does not succeed: the reply is failure with "No space left in file",
which is none of the failures the claim lists. -/
theorem write_at_end_fails :
    Reachable layout32 (seek_position_1_svc state_open_F 3 32768).1 ∧
    ((seek_position_1_svc state_open_F 3 32768).1.open_table 0).current_pos
      = file_max_size ∧
    (write_file_1_svc (seek_position_1_svc state_open_F 3 32768).1 3 1 [7]).2.success = -1 ∧
    (write_file_1_svc (seek_position_1_svc state_open_F 3 32768).1 3 1 [7]).2.out_msg
      = "No space left in file" :=
  ⟨ReachableBy.step state_open_F (Request.seek_position 3 32768) state_open_F_reachable
      trivial, by decide, by decide, by decide⟩

/-- C11 (amended). In every reachable state, for every descriptor `h` of an
open session (entry `k`, start block `st`, cursor `c`) and every non-empty
`data` of length `n`: if `0 ≤ c < file_max_size` and `c + n` is inside the
range of a 32-bit `int`, the write succeeds, stores exactly the first
`min n (file_max_size - c)` bytes of `data` at disk offset `st * 512 + c`,
changes no other byte and advances the cursor by that count; if
`c = file_max_size` (and `c + n` inside that range) it fails with
"No space left in file" and changes nothing.
Every write that does not succeed (any descriptor, count and data) leaves the
state unchanged with one of the messages "Invalid file descriptor",
"Nothing to write", "No space left in file", "Write offset out of range". -/
theorem write_truncates (L : Layout) (s : State) (h : Int) (k : Nat) (data : List Nat)
    (hr : Reachable L s) (hk : find_open_by_fd s h = some k) (hne : data ≠ []) :
    (0 ≤ (s.open_table k).current_pos → (s.open_table k).current_pos < file_max_size →
      (s.open_table k).current_pos + (data.length : Int) < 2147483648 →
      ∃ t, write_file_1_svc s h data.length data =
          (t, ⟨1, "Write ok (" ++
            toString (min (data.length : Int) (file_max_size - (s.open_table k).current_pos))
            ++ " bytes)"⟩) ∧
        (t.open_table k).current_pos = (s.open_table k).current_pos +
          min (data.length : Int) (file_max_size - (s.open_table k).current_pos) ∧
        (∀ q : Nat,
          (q : Int) < min (data.length : Int) (file_max_size - (s.open_table k).current_pos) →
          t.disk.bytes ((s.open_table k).start_block * BLOCK_SIZE
            + (s.open_table k).current_pos + q) = data.getD q 0) ∧
        (∀ p : Int,
          ¬ ((s.open_table k).start_block * BLOCK_SIZE + (s.open_table k).current_pos ≤ p ∧
            p < (s.open_table k).start_block * BLOCK_SIZE + (s.open_table k).current_pos +
              min (data.length : Int) (file_max_size - (s.open_table k).current_pos)) →
          t.disk.bytes p = s.disk.bytes p) ∧
        t.disk.size = s.disk.size) ∧
    ((s.open_table k).current_pos = file_max_size →
      (s.open_table k).current_pos + (data.length : Int) < 2147483648 →
      write_file_1_svc s h data.length data = (s, ⟨-1, "No space left in file"⟩)) ∧
    (∀ (fd n : Int) (b : List Nat),
      (write_file_1_svc s fd n b).2.success = 1 ∨
      ((write_file_1_svc s fd n b).1 = s ∧
        ((write_file_1_svc s fd n b).2.out_msg = "Invalid file descriptor" ∨
         (write_file_1_svc s fd n b).2.out_msg = "Nothing to write" ∨
         (write_file_1_svc s fd n b).2.out_msg = "No space left in file" ∨
         (write_file_1_svc s fd n b).2.out_msg = "Write offset out of range"))) := by
  have hinv : Inv s := ReachableBy.by_inv hr
  obtain ⟨_, hiu, _⟩ := find_open_by_fd_some s h k hk
  obtain ⟨hs0, hs1⟩ := hinv.sess k hiu
  have hsize := hinv.size
  rw [DISK_SIZE_eq] at hsize
  have hfm := file_max_size_eq
  have hlen : 0 < (data.length : Int) := by
    cases data with
    | nil => exact absurd rfl hne
    | cons a as => simp only [List.length_cons]; omega
  refine ⟨?_, ?_, ?_⟩
  · intro hc0 hc1 hrep
    have hcl := clamp_count_eq_min _ (data.length : Int) hc0 (le_of_lt hc1) (le_of_lt hlen) hrep
    have hoff := disk_offset_eq _ _ hs0 hs1 hc0 (by omega)
    have hw := write_file_ok s h data.length data k hk hlen hne (by rw [hcl]; omega)
      (by rw [hoff]; omega)
      (by rw [hoff, hcl, wrap32_of_range _ (by omega) (by omega), DISK_SIZE_eq]; omega)
    rw [hoff, hcl] at hw
    rw [BLOCK_SIZE_eq]
    refine ⟨_, hw, ?_, ?_, ?_, ?_⟩
    · rw [set_pos_entry, if_pos rfl]
      simp only
      rw [wrap32_of_range _ (by omega) (by omega)]
    · intro q hq
      rw [set_pos_disk]
      unfold disk_write
      simp only
      rw [if_pos (by omega)]
      have hq2 : ((s.open_table k).start_block * 512 + (s.open_table k).current_pos + (q : Int) -
          ((s.open_table k).start_block * 512 + (s.open_table k).current_pos)).toNat = q := by
        omega
      rw [hq2]
    · intro p hp
      rw [set_pos_disk]
      unfold disk_write
      simp only
      rw [if_neg (by omega)]
    · rw [set_pos_disk]
      unfold disk_write
      simp only
      omega
  · intro hc hrep
    unfold write_file_1_svc
    rw [hk]
    simp only
    rw [if_neg (by intro hcon; rcases hcon with hcon | hcon; exact absurd hcon (by omega);
                   exact hne hcon)]
    have hcl : clamp_count (s.open_table k).current_pos (data.length : Int) = 0 := by
      rw [clamp_count_eq_min _ _ (by omega) (by omega) (le_of_lt hlen) hrep]
      omega
    rw [hcl, if_pos (le_refl _)]
  · intro fd n b
    unfold write_file_1_svc
    split
    · right; exact ⟨rfl, Or.inl rfl⟩
    · split
      · right; exact ⟨rfl, Or.inr (Or.inl rfl)⟩
      · simp only
        split
        · right; exact ⟨rfl, Or.inr (Or.inr (Or.inl rfl))⟩
        · split
          · right; exact ⟨rfl, Or.inr (Or.inr (Or.inr rfl))⟩
          · left; rfl

set_option maxRecDepth 100000 in
theorem write_truncates_witness :
    Reachable layout32 state_open_F ∧ find_open_by_fd state_open_F 3 = some 0 ∧
    c_str "hello" ≠ [] ∧
    ∃ t, write_file_1_svc state_open_F 3 (c_str "hello").length (c_str "hello") =
        (t, ⟨1, "Write ok (" ++
          toString (min ((c_str "hello").length : Int)
            (file_max_size - (state_open_F.open_table 0).current_pos))
          ++ " bytes)"⟩) ∧
      (t.open_table 0).current_pos = (state_open_F.open_table 0).current_pos +
        min ((c_str "hello").length : Int)
          (file_max_size - (state_open_F.open_table 0).current_pos) ∧
      (∀ q : Nat,
        (q : Int) < min ((c_str "hello").length : Int)
          (file_max_size - (state_open_F.open_table 0).current_pos) →
        t.disk.bytes ((state_open_F.open_table 0).start_block * BLOCK_SIZE
          + (state_open_F.open_table 0).current_pos + q) = (c_str "hello").getD q 0) ∧
      (∀ p : Int,
        ¬ ((state_open_F.open_table 0).start_block * BLOCK_SIZE
            + (state_open_F.open_table 0).current_pos ≤ p ∧
          p < (state_open_F.open_table 0).start_block * BLOCK_SIZE
            + (state_open_F.open_table 0).current_pos +
            min ((c_str "hello").length : Int)
              (file_max_size - (state_open_F.open_table 0).current_pos)) →
        t.disk.bytes p = state_open_F.disk.bytes p) ∧
      t.disk.size = state_open_F.disk.size :=
  ⟨state_open_F_reachable, by decide, by decide,
    (write_truncates layout32 state_open_F 3 0 (c_str "hello") state_open_F_reachable
      (by decide) (by decide)).1 (by decide) (by decide) (by decide)⟩

/-! ## C20: the metadata and the first extents share disk bytes -/

set_option maxRecDepth 100000 in
/-- C20 (failing input). `save_metadata` writes `sizeof(block_used)` = 131072
bytes from offset 0, far more than the 1024 bytes of the two reserved blocks,
and the extent of the first file starts at byte 1024.  After
`create("alice","F")`, `open("alice","F") = 3` and `write(3, "hello")` the
disk holds the letter `h` (104) at offset 1024; `save_metadata` alone, or the
`create("alice","G")` that calls it, puts the stored `block_used[256]` there,
and `seek(3, 0)`, `read(3, 5)` then return five zero bytes. -/
theorem save_metadata_overwrites_file :
    sizeof_block_used = 131072 ∧ 2 * BLOCK_SIZE = 1024 ∧
    (state_open_F.open_table 0).start_block = 2 ∧
    (write_file_1_svc state_open_F 3 5 (c_str "hello")).2.success = 1 ∧
    (write_file_1_svc state_open_F 3 5 (c_str "hello")).1.disk.bytes 1024 = 104 ∧
    (save_metadata layout32
      (write_file_1_svc state_open_F 3 5 (c_str "hello")).1).disk.bytes 1024 = 0 ∧
    (create_file_1_svc layout32 (write_file_1_svc state_open_F 3 5 (c_str "hello")).1
      alice file_G).2.success = 1 ∧
    (create_file_1_svc layout32 (write_file_1_svc state_open_F 3 5 (c_str "hello")).1
      alice file_G).1.disk.bytes 1024 = 0 ∧
    (read_file_1_svc
      (seek_position_1_svc
        (create_file_1_svc layout32 (write_file_1_svc state_open_F 3 5 (c_str "hello")).1
          alice file_G).1 3 0).1 3 5).2.success = 1 ∧
    (read_file_1_svc
      (seek_position_1_svc
        (create_file_1_svc layout32 (write_file_1_svc state_open_F 3 5 (c_str "hello")).1
          alice file_G).1 3 0).1 3 5).2.buffer_val = [0, 0, 0, 0, 0] := by
  decide

/-! ## C18: creating a name twice -/

/-- When `find_user` and `find_file` find the file, `create` returns the state
it was given with "File already exists". -/
theorem duplicate_create_rejected (L : Layout) (s : State) (u f : List Nat) (i j : Nat)
    (hu : find_user L s u = some i) (hf : find_file L (s.users i) f = some j) :
    create_file_1_svc L s u f = (s, ⟨-1, "File already exists"⟩) := by
  have h1 : find_or_create_user L s u = (s, some i) := by
    unfold find_or_create_user
    rw [hu]
  have h2 : create_file_meta L s i f = (s, none, 1) := by
    unfold create_file_meta
    rw [hf]
  unfold create_file_1_svc
  simp only [h1, h2]
  rfl

set_option maxRecDepth 100000 in
/-- C18 (failing input). On a fresh image nobody has created a file, yet
`create("alice","")` answers "File already exists": `find_or_create_user`
makes the user with zero-filled slots, and `find_file` takes slot 0
(`start_block = 0`, empty name) for a file with the empty name. -/
theorem create_empty_name_already_exists :
    (create_file_1_svc layout32 (init_disk layout32) alice []).2.success = -1 ∧
    (create_file_1_svc layout32 (init_disk layout32) alice []).2.out_msg
      = "File already exists" ∧
    (∀ j, j < 10 →
      slot_start (create_file_1_svc layout32 (init_disk layout32) alice []).1 0 j = 0 ∧
      slot_name (create_file_1_svc layout32 (init_disk layout32) alice []).1 0 j = []) := by
  decide

/-! ## C19: delete, then reuse -/

/-- The scan of `allocate_blocks` does not pass a run of 64 free blocks: if
the blocks from `t0` on are free and inside the scanned range, the scan
returns a start block that is not above `t0`. -/
theorem allocate_scan_complete (bu : Int → Int) (t0 : Int)
    (hfree : ∀ b, t0 ≤ b → b < t0 + 64 → bu b = 0) :
    ∀ (fuel : Nat) (i run start : Int),
      0 ≤ run → run < 64 → (run ≠ 0 → start = i - run) →
      (∀ b, i - run ≤ b → b < i → bu b = 0) →
      i - run ≤ t0 → t0 + 64 ≤ i + fuel →
      ∃ r, allocate_scan bu fuel i run start = some r ∧ r ≤ t0 := by
  intro fuel
  induction fuel with
  | zero =>
    intro i run start h0 h1 _ _ h4 h5
    simp only [Nat.cast_zero] at h5
    omega
  | succ fuel ih =>
    intro i run start h0 h1 h2 h3 h4 h5
    unfold allocate_scan
    rw [BLOCKS_PER_FILE_eq]
    by_cases hi : bu i = 0
    · rw [if_pos hi]
      by_cases hrun : run + 1 = 64
      · rw [if_pos hrun]
        have hr0 : run ≠ 0 := by omega
        rw [if_neg hr0]
        exact ⟨start, rfl, by rw [h2 hr0]; exact h4⟩
      · rw [if_neg hrun]
        apply ih (i + 1) (run + 1) (if run = 0 then i else start) (by omega) (by omega)
        · intro _
          by_cases hr0 : run = 0
          · rw [if_pos hr0]; omega
          · rw [if_neg hr0, h2 hr0]; omega
        · intro b hb1 hb2
          by_cases hbi : b = i
          · rw [hbi]; exact hi
          · exact h3 b (by omega) (by omega)
        · omega
        · push_cast at h5 ⊢; omega
    · rw [if_neg hi]
      have hlt : i < t0 := by
        by_contra hcon
        exact hi (hfree i (by omega) (by omega))
      apply ih (i + 1) 0 (-1) (by omega) (by omega)
      · intro hne; exact absurd rfl hne
      · intro b hb1 hb2; omega
      · omega
      · push_cast at h5 ⊢; omega

/-- First fit: when the 64 blocks from `t0` on are free and on the disk,
`allocate_blocks` finds a run, and its start is not above `t0`. -/
theorem allocate_scan_first_fit (bu : Int → Int) (t0 : Int) (h2 : 2 ≤ t0)
    (hend : t0 + 64 ≤ 32768) (hfree : ∀ b, t0 ≤ b → b < t0 + 64 → bu b = 0) :
    ∃ r, allocate_scan bu (TOTAL_BLOCKS - 2).toNat 2 0 (-1) = some r ∧ 2 ≤ r ∧ r ≤ t0 ∧
      ∀ b, r ≤ b → b < r + 64 → bu b = 0 := by
  obtain ⟨r, hr, hle⟩ := allocate_scan_complete bu t0 hfree (TOTAL_BLOCKS - 2).toNat 2 0 (-1)
    (le_refl _) (by omega) (by intro hne; exact absurd rfl hne) (by intro b hb1 hb2; omega)
    (by omega) (by rw [TOTAL_BLOCKS_eq]; simp; omega)
  obtain ⟨a, _, c⟩ := allocate_scan_start bu r hr
  exact ⟨r, hr, a, hle, c⟩

/-- C19. In every reachable state where `delete(u, f)` answers "File deleted"
for a created file whose extent starts at block `st`: afterwards the 64 blocks
`[st, st + 64)` are free in the bitmap and no other flag has changed; the next
`allocate_blocks` succeeds with a start block `r`, `2 ≤ r ≤ st`, marks the 64
blocks from `r` on, and `r = st` when no run of 64 free blocks begins below
`st`; a `create` that succeeds right after the delete gives its file the start
block `r`, so it reuses the extent of `f` in that case. -/
theorem delete_then_reuse (L : Layout) (s : State) (u f : List Nat) (i j : Nat)
    (hr : Reachable L s) (hu : find_user L s u = some i)
    (hf : find_file L (s.users i) f = some j) (hcr : holds_file s i j)
    (hd : (delete_file_1_svc L s u f).2.out_msg = "File deleted") :
    (∀ b, slot_start s i j ≤ b → b < slot_start s i j + BLOCKS_PER_FILE →
      (delete_file_1_svc L s u f).1.block_used b = 0) ∧
    (∀ b, ¬ (slot_start s i j ≤ b ∧ b < slot_start s i j + BLOCKS_PER_FILE) →
      (delete_file_1_svc L s u f).1.block_used b = s.block_used b) ∧
    ∃ r, (allocate_blocks L (delete_file_1_svc L s u f).1).2 = r ∧ 2 ≤ r ∧
      r ≤ slot_start s i j ∧
      (∀ b, r ≤ b → b < r + BLOCKS_PER_FILE →
        (delete_file_1_svc L s u f).1.block_used b = 0 ∧
        (allocate_blocks L (delete_file_1_svc L s u f).1).1.block_used b = 1) ∧
      ((∀ t0, 2 ≤ t0 → t0 < slot_start s i j →
          ¬ ∀ b, t0 ≤ b → b < t0 + BLOCKS_PER_FILE →
            (delete_file_1_svc L s u f).1.block_used b = 0) →
        r = slot_start s i j) ∧
      (∀ u' g, (create_file_1_svc L (delete_file_1_svc L s u f).1 u' g).2.success = 1 →
        ∃ i' j', slot_start (create_file_1_svc L (delete_file_1_svc L s u f).1 u' g).1 i' j'
          = r) := by
  have hinv : Inv s := ReachableBy.by_inv hr
  unfold holds_file at hcr
  have hst : 2 ≤ slot_start s i j ∧ slot_start s i j + 64 ≤ 32768 := by
    rcases hinv.slot i j with e | e | e <;> omega
  have hdel : delete_file_1_svc L s u f =
      (save_metadata L
        (set_file (free_blocks L s ((s.users i).files j).start_block) i j
          (file_meta_t.mk [] (-1))), ⟨"File deleted"⟩) := by
    unfold delete_file_1_svc at hd ⊢
    rw [hu] at hd ⊢
    simp only at hd ⊢
    rw [hf] at hd ⊢
    simp only at hd ⊢
    split at hd
    · simp at hd
    · rfl
  have hbu : ∀ b, (delete_file_1_svc L s u f).1.block_used b =
      if slot_start s i j ≤ b ∧ b < slot_start s i j + 64 ∧ b < 32768 then 0
      else s.block_used b := by
    intro b
    rw [hdel]
    simp only [save_metadata_block_used, set_file_block_used]
    exact free_blocks_block_used L s _ (by unfold slot_start at hst; omega) b
  rw [BLOCKS_PER_FILE_eq]
  have hfreed : ∀ b, slot_start s i j ≤ b → b < slot_start s i j + 64 →
      (delete_file_1_svc L s u f).1.block_used b = 0 := by
    intro b hb1 hb2
    rw [hbu, if_pos ⟨hb1, hb2, by omega⟩]
  obtain ⟨r, hscan, hr2, hrle, hrfree⟩ :=
    allocate_scan_first_fit (delete_file_1_svc L s u f).1.block_used (slot_start s i j)
      hst.1 hst.2 hfreed
  have halloc : allocate_blocks L (delete_file_1_svc L s u f).1 =
      (save_metadata L
        { (delete_file_1_svc L s u f).1 with
          block_used := fun b =>
            if r ≤ b ∧ b < r + BLOCKS_PER_FILE then 1
            else (delete_file_1_svc L s u f).1.block_used b }, r) := by
    unfold allocate_blocks
    rw [hscan]
  refine ⟨hfreed, ?_, r, ?_, hr2, hrle, ?_, ?_, ?_⟩
  · intro b hb
    rw [hbu, if_neg (by omega)]
  · rw [halloc]
  · intro b hb1 hb2
    refine ⟨hrfree b hb1 hb2, ?_⟩
    rw [halloc]
    simp only [save_metadata_block_used, BLOCKS_PER_FILE_eq]
    rw [if_pos ⟨hb1, hb2⟩]
  · intro hno
    by_contra hne
    exact hno r hr2 (by omega) hrfree
  · intro u' g hc
    obtain ⟨i', j', st2, _, _, hscan2, e⟩ := create_file_success L _ u' g hc
    rw [find_or_create_user_block_used, hscan] at hscan2
    simp only [Option.some.injEq] at hscan2
    refine ⟨i', j', ?_⟩
    rw [e]
    simp only [slot_start_save_metadata]
    rw [slot_start_set_file, if_pos ⟨rfl, rfl⟩]
    exact hscan2.symm

set_option maxRecDepth 100000 in
theorem delete_then_reuse_witness :
    Reachable layout32 state_F_G ∧ find_user layout32 state_F_G alice = some 0 ∧
    find_file layout32 (state_F_G.users 0) file_F = some 0 ∧ holds_file state_F_G 0 0 ∧
    slot_start state_F_G 0 0 = 2 ∧
    (delete_file_1_svc layout32 state_F_G alice file_F).2.out_msg = "File deleted" ∧
    (∀ b, slot_start state_F_G 0 0 ≤ b → b < slot_start state_F_G 0 0 + BLOCKS_PER_FILE →
      (delete_file_1_svc layout32 state_F_G alice file_F).1.block_used b = 0) :=
  ⟨state_F_G_reachable, by decide, by decide, by decide, by decide, by decide,
    (delete_then_reuse layout32 state_F_G alice file_F 0 0 state_F_G_reachable (by decide)
      (by decide) (by decide) (by decide)).1⟩

/-! ## Opening and closing sessions -/

/-- The reply and the new state of an `open` that passes every check. -/
theorem open_file_ok (L : Layout) (s : State) (u f : List Nat) (i j k : Nat)
    (hu : find_user L s u = some i) (hf : find_file L (s.users i) f = some j)
    (hst : 0 ≤ ((s.users i).files j).start_block) (hk : alloc_open_entry s = some k) :
    open_file_1_svc L s u f =
      ({ s with
         open_table := Function.update s.open_table k
           (open_entry_t.mk 1 s.next_fd (strncpy u L.USER_NAME_SIZE)
             (strncpy f L.FILE_NAME_SIZE) ((s.users i).files j).start_block 0)
         next_fd := wrap32 (s.next_fd + 1) },
        ⟨s.next_fd, "File opened"⟩) := by
  unfold open_file_1_svc
  rw [hu]
  simp only
  rw [hf]
  simp only
  rw [if_neg (by omega), hk]

/-- An `open` either succeeds as in `open_file_ok` or answers -1 with another
message and leaves the state alone. -/
theorem open_file_cases (L : Layout) (s : State) (u f : List Nat) :
    (∃ i j k, find_user L s u = some i ∧ find_file L (s.users i) f = some j ∧
      0 ≤ ((s.users i).files j).start_block ∧ alloc_open_entry s = some k) ∨
    (∃ m, m ≠ "File opened" ∧ open_file_1_svc L s u f = (s, ⟨-1, m⟩)) := by
  unfold open_file_1_svc
  cases hu : find_user L s u with
  | none => exact Or.inr ⟨_, by decide, rfl⟩
  | some i =>
    simp only
    cases hf : find_file L (s.users i) f with
    | none => exact Or.inr ⟨_, by decide, rfl⟩
    | some j =>
      simp only
      by_cases hst : ((s.users i).files j).start_block < 0
      · rw [if_pos hst]; exact Or.inr ⟨_, by decide, rfl⟩
      · rw [if_neg hst]
        cases hk : alloc_open_entry s with
        | none => exact Or.inr ⟨_, by decide, rfl⟩
        | some k => exact Or.inl ⟨i, j, k, rfl, hf, by omega, rfl⟩

theorem alloc_open_entry_some (s : State) (k : Nat) (h : alloc_open_entry s = some k) :
    k < MAX_OPEN_FILES ∧ (s.open_table k).in_use = 0 := by
  unfold alloc_open_entry at h
  obtain ⟨_, h2, h3, _⟩ := first_index_some _ _ _ _ h
  simp only [decide_eq_true_eq] at h3
  exact ⟨by omega, h3⟩

/-- The search for a free entry only reads the field `in_use`. -/
theorem alloc_open_entry_congr (s t : State)
    (h : ∀ k, (t.open_table k).in_use = (s.open_table k).in_use) :
    alloc_open_entry t = alloc_open_entry s := by
  unfold alloc_open_entry
  apply first_index_congr
  intro m _ _
  rw [h m]

/-- The reply and the new state of a `close` of an open descriptor. -/
theorem close_file_ok (s : State) (fd : Int) (k : Nat) (hk : find_open_by_fd s fd = some k) :
    close_file_1_svc s fd =
      ({ s with
         open_table := Function.update s.open_table k
           (open_entry_t.mk 0 (s.open_table k).fd (s.open_table k).user_name
             (s.open_table k).file_name (s.open_table k).start_block
             (s.open_table k).current_pos) },
        ⟨"File closed"⟩) := by
  unfold close_file_1_svc
  rw [hk]

/-- A descriptor resolves to entry `k` when `k` is in use with it and no
entry in use before `k` carries it. -/
theorem find_open_by_fd_unique (s : State) (fd : Int) (k : Nat) (hk : k < MAX_OPEN_FILES)
    (hiu : (s.open_table k).in_use ≠ 0) (hfd : (s.open_table k).fd = fd)
    (hoth : ∀ m, m < k → (s.open_table m).in_use ≠ 0 → (s.open_table m).fd ≠ fd) :
    find_open_by_fd s fd = some k := by
  unfold find_open_by_fd
  apply first_index_first _ _ _ _ (Nat.zero_le _) (by omega)
  · simp only [decide_eq_true_eq]; exact ⟨hiu, hfd⟩
  · intro m _ hm
    simp only [decide_eq_false_iff_not, not_and]
    intro h1 h2
    exact hoth m hm h1 h2

/-- A lookup is not affected by changes to entries that carry another
descriptor before and after. -/
theorem find_open_by_fd_other (s t : State) (fd : Int)
    (h : ∀ k, t.open_table k = s.open_table k ∨
      ((t.open_table k).fd ≠ fd ∧ (s.open_table k).fd ≠ fd)) :
    find_open_by_fd t fd = find_open_by_fd s fd := by
  unfold find_open_by_fd
  apply first_index_congr
  intro m _ _
  rcases h m with e | ⟨e1, e2⟩
  · rw [e]
  · simp [e1, e2]

theorem bytes_from_drop (f : Int → Nat) :
    ∀ (c n : Nat) (off : Int),
      (bytes_from f off (c + n)).drop c = bytes_from f (off + c) n := by
  intro c
  induction c with
  | zero => intro n off; simp
  | succ c ih =>
    intro n off
    have e : c + 1 + n = (c + n) + 1 := by omega
    rw [e]
    simp only [bytes_from, List.drop_succ_cons]
    rw [ih n (off + 1)]
    congr 1
    push_cast
    omega

/-! ## C16: sessions have cursors of their own -/

/-- A read through one descriptor leaves the entries of the other sessions as
they are. -/
theorem read_other_entry (s : State) (h n : Int) (k2 : Nat)
    (h2 : (s.open_table k2).fd ≠ h) :
    (read_file_1_svc s h n).1.open_table k2 = s.open_table k2 := by
  unfold read_file_1_svc
  cases hk : find_open_by_fd s h with
  | none => rfl
  | some k =>
    have hne : k2 ≠ k := by
      intro e; rw [e] at h2; exact h2 (find_open_by_fd_some s h k hk).2.2
    simp only
    split_ifs <;> first | rfl | (rw [set_pos_entry, if_neg hne])

theorem write_other_entry (s : State) (h n : Int) (b : List Nat) (k2 : Nat)
    (h2 : (s.open_table k2).fd ≠ h) :
    (write_file_1_svc s h n b).1.open_table k2 = s.open_table k2 := by
  unfold write_file_1_svc
  cases hk : find_open_by_fd s h with
  | none => rfl
  | some k =>
    have hne : k2 ≠ k := by
      intro e; rw [e] at h2; exact h2 (find_open_by_fd_some s h k hk).2.2
    simp only
    split_ifs <;> first | rfl | (rw [set_pos_entry, if_neg hne])

theorem seek_other_entry (s : State) (h pos : Int) (k2 : Nat)
    (h2 : (s.open_table k2).fd ≠ h) :
    (seek_position_1_svc s h pos).1.open_table k2 = s.open_table k2 := by
  unfold seek_position_1_svc
  cases hk : find_open_by_fd s h with
  | none => rfl
  | some k =>
    have hne : k2 ≠ k := by
      intro e; rw [e] at h2; exact h2 (find_open_by_fd_some s h k hk).2.2
    simp only
    split_ifs <;> first | rfl | (rw [set_pos_entry, if_neg hne])

theorem close_other_entry (s : State) (h : Int) (k2 : Nat)
    (h2 : (s.open_table k2).fd ≠ h) :
    (close_file_1_svc s h).1.open_table k2 = s.open_table k2 := by
  unfold close_file_1_svc
  cases hk : find_open_by_fd s h with
  | none => rfl
  | some k =>
    have hne : k2 ≠ k := by
      intro e; rw [e] at h2; exact h2 (find_open_by_fd_some s h k hk).2.2
    simp only
    rw [Function.update_noteq hne]

/-- Read, write, seek and close keep the field `fd` of every entry. -/
theorem read_keeps_fd (s : State) (h n : Int) (k : Nat) :
    ((read_file_1_svc s h n).1.open_table k).fd = (s.open_table k).fd := by
  unfold read_file_1_svc
  cases hk : find_open_by_fd s h with
  | none => rfl
  | some k1 =>
    simp only
    split_ifs <;> first | rfl | (rw [set_pos_entry]; split_ifs with e <;> simp [e])

theorem write_keeps_fd (s : State) (h n : Int) (b : List Nat) (k : Nat) :
    ((write_file_1_svc s h n b).1.open_table k).fd = (s.open_table k).fd := by
  unfold write_file_1_svc
  cases hk : find_open_by_fd s h with
  | none => rfl
  | some k1 =>
    simp only
    split_ifs <;> first | rfl | (rw [set_pos_entry]; split_ifs with e <;> simp [e])

theorem seek_keeps_fd (s : State) (h pos : Int) (k : Nat) :
    ((seek_position_1_svc s h pos).1.open_table k).fd = (s.open_table k).fd := by
  unfold seek_position_1_svc
  cases hk : find_open_by_fd s h with
  | none => rfl
  | some k1 =>
    simp only
    split_ifs <;> first | rfl | (rw [set_pos_entry]; split_ifs with e <;> simp [e])

theorem close_keeps_fd (s : State) (h : Int) (k : Nat) :
    ((close_file_1_svc s h).1.open_table k).fd = (s.open_table k).fd := by
  unfold close_file_1_svc
  cases hk : find_open_by_fd s h with
  | none => rfl
  | some k1 =>
    simp only
    by_cases e : k = k1
    · subst e; simp
    · rw [Function.update_noteq e]

/-- A lookup of `h2` gives the same entry after a request on another
descriptor, when that request kept every `fd` and every entry that carries
`h2`. -/
theorem find_after_other (s t : State) (h1 h2 : Int) (hne : h1 ≠ h2)
    (hfd : ∀ k, (t.open_table k).fd = (s.open_table k).fd)
    (hoth : ∀ k, (s.open_table k).fd ≠ h1 → t.open_table k = s.open_table k) :
    find_open_by_fd t h2 = find_open_by_fd s h2 := by
  apply find_open_by_fd_other
  intro k
  by_cases e : (s.open_table k).fd = h1
  · right
    rw [hfd k, e]
    exact ⟨hne, hne⟩
  · left; exact hoth k e

/-- What a new session reads of a file another session has written to: in a
reachable state, session `k1` (cursor `c`, start block `st`) writes `B` with
`c + len(B) ≤ file_max_size`; then `open(u, f)` finds a slot with start block
`st` and a free table entry `k3`, and its descriptor belongs to no entry in
use before `k3`.  The new session has cursor 0 and start block `st`, and a read
of `c + len(B)` bytes through it returns a buffer whose part from `c` on is
`B`. -/
theorem new_session_reads_written (L : Layout) (s : State) (h1 : Int) (k1 : Nat)
    (hr : Reachable L s) (hk1 : find_open_by_fd s h1 = some k1)
    (B u f : List Nat) (i j k3 : Nat) (hB : B ≠ [])
    (h0 : 0 ≤ (s.open_table k1).current_pos)
    (hle : (s.open_table k1).current_pos + (B.length : Int) ≤ file_max_size)
    (hu : find_user L s u = some i) (hf : find_file L (s.users i) f = some j)
    (hsame : slot_start s i j = (s.open_table k1).start_block)
    (hk3 : alloc_open_entry s = some k3)
    (hfresh : ∀ k, k < k3 → (s.open_table k).in_use ≠ 0 → (s.open_table k).fd ≠ s.next_fd) :
    ∃ s1 s2 s3 m buf,
      write_file_1_svc s h1 B.length B = (s1, ⟨1, m⟩) ∧
      open_file_1_svc L s1 u f = (s2, ⟨s.next_fd, "File opened"⟩) ∧
      find_open_by_fd s2 s.next_fd = some k3 ∧
      (s2.open_table k3).current_pos = 0 ∧
      (s2.open_table k3).start_block = (s.open_table k1).start_block ∧
      read_file_1_svc s2 s.next_fd ((s.open_table k1).current_pos + B.length) =
        (s3, ⟨1, (s.open_table k1).current_pos + B.length, buf, "Read ok"⟩) ∧
      buf.drop (s.open_table k1).current_pos.toNat = B := by
  have hinv : Inv s := ReachableBy.by_inv hr
  obtain ⟨_, hiu, _⟩ := find_open_by_fd_some s h1 k1 hk1
  obtain ⟨hs0, hs1⟩ := hinv.sess k1 hiu
  have hsize := hinv.size
  rw [DISK_SIZE_eq] at hsize
  have hfm := file_max_size_eq
  have hlen : 0 < B.length := List.length_pos.mpr hB
  generalize hc : (s.open_table k1).current_pos = c at h0 hle
  generalize hst : (s.open_table k1).start_block = st at hs0 hs1 hsame
  have hcl : clamp_count c (B.length : Int) = B.length :=
    clamp_count_small c _ h0 (by omega) hle
  have hoff : disk_offset st c = st * 512 + c := disk_offset_eq st c hs0 hs1 h0 (by omega)
  have hw := write_file_ok s h1 B.length B k1 hk1 (by omega) hB
    (by rw [hc, hcl]; omega) (by rw [hc, hst, hoff]; omega)
    (by rw [hc, hst, hoff, hcl, wrap32_of_range _ (by omega) (by omega), DISK_SIZE_eq]; omega)
  rw [hc, hst, hoff, hcl] at hw
  generalize hs1def : set_pos
      { s with
        disk := disk_write s.disk (st * 512 + c) B.length (fun q => B.getD q.toNat 0) }
      k1 (wrap32 (c + (B.length : Int))) = s1 at hw
  have hs1u : s1.users = s.users := by rw [← hs1def]; rfl
  have hs1n : s1.next_fd = s.next_fd := by rw [← hs1def]; rfl
  have hs1d : s1.disk =
      disk_write s.disk (st * 512 + c) B.length (fun q => B.getD q.toNat 0) := by
    rw [← hs1def]; rfl
  have hs1iu : ∀ k, (s1.open_table k).in_use = (s.open_table k).in_use ∧
      (s1.open_table k).fd = (s.open_table k).fd := by
    intro k
    rw [← hs1def, set_pos_entry]
    by_cases e : k = k1
    · subst e; simp
    · simp [e]
  have hu1 : find_user L s1 u = some i := by
    rw [find_user_congr L s s1 u (fun m => by rw [hs1u]; exact ⟨rfl, rfl⟩)]; exact hu
  have hf1 : find_file L (s1.users i) f = some j := by rw [hs1u]; exact hf
  have hst1 : ((s1.users i).files j).start_block = st := by rw [hs1u]; exact hsame
  have hk31 : alloc_open_entry s1 = some k3 := by
    rw [alloc_open_entry_congr s s1 (fun k => (hs1iu k).1)]; exact hk3
  have ho := open_file_ok L s1 u f i j k3 hu1 hf1 (by rw [hst1]; exact hs0) hk31
  rw [hst1, hs1n] at ho
  generalize hs2def : ({ s1 with
      open_table := Function.update s1.open_table k3
        (open_entry_t.mk 1 s.next_fd (strncpy u L.USER_NAME_SIZE)
          (strncpy f L.FILE_NAME_SIZE) st 0)
      next_fd := wrap32 (s.next_fd + 1) } : State) = s2 at ho
  have hs2e : s2.open_table k3 = open_entry_t.mk 1 s.next_fd (strncpy u L.USER_NAME_SIZE)
      (strncpy f L.FILE_NAME_SIZE) st 0 := by
    rw [← hs2def]; simp
  have hs2o : ∀ k, k ≠ k3 → s2.open_table k = s1.open_table k := by
    intro k hk; rw [← hs2def]; simp [Function.update_noteq hk]
  have hs2d : s2.disk =
      disk_write s.disk (st * 512 + c) B.length (fun q => B.getD q.toNat 0) := by
    rw [← hs2def]; exact hs1d
  have hfind : find_open_by_fd s2 s.next_fd = some k3 := by
    apply find_open_by_fd_unique s2 s.next_fd k3 (alloc_open_entry_some s k3 hk3).1
    · rw [hs2e]; simp
    · rw [hs2e]
    · intro m hm hmu
      rw [hs2o m (by omega)] at hmu ⊢
      rw [(hs1iu m).1] at hmu
      rw [(hs1iu m).2]
      exact hfresh m hm hmu
  have hcl0 : clamp_count 0 (c + (B.length : Int)) = c + B.length :=
    clamp_count_small 0 _ (le_refl _) (by omega) (by omega)
  have hoff0 : disk_offset st 0 = st * 512 := by
    rw [disk_offset_eq st 0 hs0 hs1 (le_refl _) (by omega)]; omega
  have hread := read_file_ok s2 s.next_fd (c + B.length) k3 hfind (by omega)
    (by rw [hs2e]; simp only []; omega) (by rw [hs2e]; simp only []; rw [hcl0]; omega)
    (by rw [hs2e]; simp only []; rw [hoff0]; omega)
    (by
      rw [hs2e]; simp only []
      rw [hoff0, hcl0, wrap32_of_range _ (by omega) (by omega), DISK_SIZE_eq]; omega)
  rw [hs2e] at hread
  simp only [] at hread
  rw [hoff0, hcl0, hs2d] at hread
  have hcount : disk_read_count
      (disk_write s.disk (st * 512 + c) B.length (fun q => B.getD q.toNat 0))
      (st * 512) (c + B.length) = c + B.length := by
    unfold disk_read_count disk_write
    simp only []
    omega
  rw [hcount] at hread
  refine ⟨s1, s2, _, _, _, hw, ho, hfind, by rw [hs2e], by rw [hs2e], hread, ?_⟩
  unfold disk_read
  rw [hcount]
  have hn : (c + (B.length : Int)).toNat = c.toNat + B.length := by omega
  rw [hn, bytes_from_drop]
  apply bytes_from_eq
  intro q hq
  unfold disk_write
  simp only []
  rw [if_pos (by omega)]
  have hq2 : (st * 512 + (c.toNat : Int) + (q : Int) - (st * 512 + c)).toNat = q := by omega
  rw [hq2]

theorem state_two_sessions_reachable : Reachable layout32 state_two_sessions :=
  Reachable.reach_serve_all ReachableBy.init _

/-- Sessions do not disturb one another: the part of C16 that holds.  In
every reachable state with two distinct descriptors `h1`, `h2` of open
sessions (entries `k1`, `k2`; on the same file or not): after any read,
write, seek or close on `h1` the entry of `h2` is the same (cursor, start
block, names, descriptor) and `h2` still resolves to it.  And when the session
of `h1` (cursor `c ≥ 0`, start block `st`) writes `B` with
`c + len(B) ≤ file_max_size` and then `open(u, f)` finds a file slot with
start block `st` and a free table entry, with a descriptor that no entry in
use before it carries: the write succeeds, the open succeeds, the new session
has cursor 0 and start block `st`, and a read of `c + len(B)` bytes through it
succeeds and returns a buffer whose part from position `c` on is `B`. -/
theorem independent_cursors (L : Layout) (s : State) (h1 h2 : Int) (k1 k2 : Nat)
    (hr : Reachable L s) (hne : h1 ≠ h2)
    (hk1 : find_open_by_fd s h1 = some k1) (hk2 : find_open_by_fd s h2 = some k2) :
    (∀ n, (read_file_1_svc s h1 n).1.open_table k2 = s.open_table k2 ∧
      find_open_by_fd (read_file_1_svc s h1 n).1 h2 = some k2) ∧
    (∀ n b, (write_file_1_svc s h1 n b).1.open_table k2 = s.open_table k2 ∧
      find_open_by_fd (write_file_1_svc s h1 n b).1 h2 = some k2) ∧
    (∀ pos, (seek_position_1_svc s h1 pos).1.open_table k2 = s.open_table k2 ∧
      find_open_by_fd (seek_position_1_svc s h1 pos).1 h2 = some k2) ∧
    ((close_file_1_svc s h1).1.open_table k2 = s.open_table k2 ∧
      find_open_by_fd (close_file_1_svc s h1).1 h2 = some k2) ∧
    (∀ (B u f : List Nat) (i j k3 : Nat), B ≠ [] →
      0 ≤ (s.open_table k1).current_pos →
      (s.open_table k1).current_pos + (B.length : Int) ≤ file_max_size →
      find_user L s u = some i → find_file L (s.users i) f = some j →
      slot_start s i j = (s.open_table k1).start_block →
      alloc_open_entry s = some k3 →
      (∀ k, k < k3 → (s.open_table k).in_use ≠ 0 → (s.open_table k).fd ≠ s.next_fd) →
      ∃ s1 s2 s3 m buf,
        write_file_1_svc s h1 B.length B = (s1, ⟨1, m⟩) ∧
        open_file_1_svc L s1 u f = (s2, ⟨s.next_fd, "File opened"⟩) ∧
        find_open_by_fd s2 s.next_fd = some k3 ∧
        (s2.open_table k3).current_pos = 0 ∧
        (s2.open_table k3).start_block = (s.open_table k1).start_block ∧
        read_file_1_svc s2 s.next_fd ((s.open_table k1).current_pos + B.length) =
          (s3, ⟨1, (s.open_table k1).current_pos + B.length, buf, "Read ok"⟩) ∧
        buf.drop (s.open_table k1).current_pos.toNat = B) := by
  have h2fd : (s.open_table k2).fd ≠ h1 := by
    rw [(find_open_by_fd_some s h2 k2 hk2).2.2]; exact fun e => hne e.symm
  refine ⟨?_, ?_, ?_, ?_, ?_⟩
  · intro n
    refine ⟨read_other_entry s h1 n k2 h2fd, ?_⟩
    rw [find_after_other s _ h1 h2 hne (read_keeps_fd s h1 n)
      (fun k hk => read_other_entry s h1 n k hk)]
    exact hk2
  · intro n b
    refine ⟨write_other_entry s h1 n b k2 h2fd, ?_⟩
    rw [find_after_other s _ h1 h2 hne (write_keeps_fd s h1 n b)
      (fun k hk => write_other_entry s h1 n b k hk)]
    exact hk2
  · intro pos
    refine ⟨seek_other_entry s h1 pos k2 h2fd, ?_⟩
    rw [find_after_other s _ h1 h2 hne (seek_keeps_fd s h1 pos)
      (fun k hk => seek_other_entry s h1 pos k hk)]
    exact hk2
  · refine ⟨close_other_entry s h1 k2 h2fd, ?_⟩
    rw [find_after_other s _ h1 h2 hne (close_keeps_fd s h1)
      (fun k hk => close_other_entry s h1 k hk)]
    exact hk2
  · intro B u f i j k3 hB h0 hle hu hf hsame hk3 hfresh
    exact new_session_reads_written L s h1 k1 hr hk1 B u f i j k3 hB h0 hle hu hf hsame hk3
      hfresh

set_option maxRecDepth 100000 in
theorem independent_cursors_witness :
    Reachable layout32 state_two_sessions ∧
    find_open_by_fd state_two_sessions 3 = some 0 ∧
    find_open_by_fd state_two_sessions 4 = some 1 ∧
    (write_file_1_svc state_two_sessions 3 5 (c_str "hello")).2.success = 1 ∧
    ((write_file_1_svc state_two_sessions 3 5 (c_str "hello")).1.open_table 0).current_pos
      = 5 ∧
    (write_file_1_svc state_two_sessions 3 5 (c_str "hello")).1.open_table 1
      = state_two_sessions.open_table 1 ∧
    find_open_by_fd (write_file_1_svc state_two_sessions 3 5 (c_str "hello")).1 4 = some 1 ∧
    (open_file_1_svc layout32 (write_file_1_svc state_two_sessions 3 5 (c_str "hello")).1
      alice file_F).2.fd = 5 ∧
    (read_file_1_svc
      (open_file_1_svc layout32 (write_file_1_svc state_two_sessions 3 5 (c_str "hello")).1
        alice file_F).1 5 5).2.buffer_val = c_str "hello" :=
  ⟨state_two_sessions_reachable, by decide, by decide, by decide, by decide,
    ((independent_cursors layout32 state_two_sessions 3 4 0 1 state_two_sessions_reachable
      (by decide) (by decide) (by decide)).2.1 5 (c_str "hello")).1,
    ((independent_cursors layout32 state_two_sessions 3 4 0 1 state_two_sessions_reachable
      (by decide) (by decide) (by decide)).2.1 5 (c_str "hello")).2, by decide, by decide⟩

/-! ## Zero-filled slots have no name -/

theorem ZInv.zinv_of_users_eq {s t : State} (h : ZInv s) (hu : t.users = s.users) : ZInv t := by
  intro i j
  simpa [slot_name, slot_start, hu] using h i j

/-- Rewriting one slot keeps the fact, when the new slot is not a named slot
with start block 0. -/
theorem ZInv.zinv_set_slot {s t : State} (h : ZInv s) (i j : Nat) (nm : List Nat) (st : Int)
    (hz : st = 0 → nm = [])
    (hf : ∀ i' j', (t.users i').files j' =
      if i' = i ∧ j' = j then file_meta_t.mk nm st else (s.users i').files j') :
    ZInv t := by
  intro i' j'
  unfold slot_start slot_name
  rw [hf]
  by_cases hc : i' = i ∧ j' = j
  · rw [if_pos hc]; exact hz
  · rw [if_neg hc]; exact h i' j'

theorem ZInv.zinv_find_or_create_user {L : Layout} {s : State} (u : List Nat) (h : ZInv s) :
    ZInv (find_or_create_user L s u).1 := by
  unfold SSNFS.find_or_create_user
  split
  · exact h
  · split
    · rename_i i _
      intro i' j
      unfold slot_start slot_name
      simp only [save_metadata_users]
      by_cases hi : i' = i
      · subst hi
        simp only [Function.update_same, zero_files]
        intro _; trivial
      · simp only [Function.update_noteq hi]
        exact h i' j
    · exact h

theorem ZInv.zinv_create_file_meta {L : Layout} {s : State} (i : Nat) (f : List Nat)
    (h : ZInv s) : ZInv (create_file_meta L s i f).1 := by
  unfold SSNFS.create_file_meta
  split
  · exact h
  · split
    · rename_i j _
      exact h.zinv_set_slot i j _ (-1) (by intro e; omega)
        (fun i' j' => set_file_files s i j _ i' j')
    · exact h

theorem ZInv.zinv_init (L : Layout) : ZInv (init_disk L) := by
  intro i j _
  rfl

/-- The start block `allocate_blocks` returns is -1 or at least 2. -/
theorem allocate_blocks_result (L : Layout) (s : State) :
    (allocate_blocks L s).2 = -1 ∨ 2 ≤ (allocate_blocks L s).2 := by
  rcases allocate_blocks_cases L s with ⟨_, e⟩ | ⟨st, hscan, e⟩
  · left; rw [e]
  · right; rw [e]; exact (allocate_scan_start _ st hscan).1

theorem ZInv.zinv_create_file {L : Layout} {s : State} (u f : List Nat) (h : ZInv s) :
    ZInv (create_file_1_svc L s u f).1 := by
  have h1 := h.zinv_find_or_create_user (L := L) u
  unfold create_file_1_svc
  simp only []
  split
  · exact h1
  · rename_i i _
    have h2 := h1.zinv_create_file_meta (L := L) i f
    split
    · exact h2
    · rename_i j hj
      split
      · exact h2.zinv_of_users_eq (allocate_blocks_users L _)
      · rename_i hneg
        refine h2.zinv_set_slot i j
          (((SSNFS.create_file_meta L (SSNFS.find_or_create_user L s u).1 i f).1.users i).files
            j).file_name
          (allocate_blocks L
            (SSNFS.create_file_meta L (SSNFS.find_or_create_user L s u).1 i f).1).2 ?_ ?_
        · intro e0
          rcases allocate_blocks_result L
            (SSNFS.create_file_meta L (SSNFS.find_or_create_user L s u).1 i f).1 with e | e
          · omega
          · omega
        · intro i' j'
          simp only [save_metadata_users]
          rw [set_file_files]
          simp only [allocate_blocks_users]

theorem ZInv.zinv_delete_file {L : Layout} {s : State} (u f : List Nat) (h : ZInv s) :
    ZInv (delete_file_1_svc L s u f).1 := by
  unfold delete_file_1_svc
  split
  · exact h
  · split
    · exact h
    · rename_i i _ _ j hj
      split
      · exact h
      · refine h.zinv_set_slot i j [] (-1) (fun _ => rfl) ?_
        intro i' j'
        simp only [save_metadata_users]
        rw [set_file_files, free_blocks_users]

theorem open_file_users (L : Layout) (s : State) (u f : List Nat) :
    (open_file_1_svc L s u f).1.users = s.users := by
  unfold open_file_1_svc
  split
  · rfl
  · split
    · rfl
    · split
      · rfl
      · split <;> rfl

theorem read_file_users (s : State) (fd n : Int) : (read_file_1_svc s fd n).1.users = s.users := by
  unfold read_file_1_svc
  split
  · rfl
  · split
    · rfl
    · split
      · rfl
      · simp only
        split
        · rfl
        · split <;> rfl

theorem write_file_users (s : State) (fd n : Int) (b : List Nat) :
    (write_file_1_svc s fd n b).1.users = s.users := by
  unfold write_file_1_svc
  split
  · rfl
  · split
    · rfl
    · simp only
      split
      · rfl
      · split <;> rfl

theorem seek_position_users (s : State) (fd pos : Int) :
    (seek_position_1_svc s fd pos).1.users = s.users := by
  unfold seek_position_1_svc
  split
  · rfl
  · split <;> rfl

theorem close_file_users (s : State) (fd : Int) : (close_file_1_svc s fd).1.users = s.users := by
  unfold close_file_1_svc
  split <;> rfl

theorem list_files_state (L : Layout) (s : State) (u : List Nat) :
    (list_files_1_svc L s u).1 = s := by
  unfold list_files_1_svc
  split <;> rfl

theorem ZInv.zinv_serve {L : Layout} {s : State} (r : Request) (h : ZInv s) :
    ZInv (serve L s r) := by
  cases r with
  | create_file u f => exact h.zinv_create_file u f
  | open_file u f => exact h.zinv_of_users_eq (open_file_users L s u f)
  | read_file fd n => exact h.zinv_of_users_eq (read_file_users s fd n)
  | write_file fd n b => exact h.zinv_of_users_eq (write_file_users s fd n b)
  | seek_position fd pos => exact h.zinv_of_users_eq (seek_position_users s fd pos)
  | close_file fd => exact h.zinv_of_users_eq (close_file_users s fd)
  | delete_file u f => exact h.zinv_delete_file u f
  | list_files u => exact h.zinv_of_users_eq (by rw [serve, list_files_state])

theorem ReachableBy.by_zinv {L : Layout} {P : Request → Prop} {s : State}
    (h : ReachableBy L P s) : ZInv s := by
  induction h with
  | init => exact ZInv.zinv_init L
  | step s r _ _ ih => exact ih.zinv_serve r

/-! ## C17: what a listing holds -/

theorem nodup_filterMap_range {β : Type} (f : Nat → Option β) (n : Nat)
    (h : ∀ a a' b, a < n → a' < n → f a = some b → f a' = some b → a = a') :
    ((List.range n).filterMap f).Nodup := by
  have e : (List.range n).filterMap f =
      (List.range n).filterMap (fun a => if a < n then f a else none) := by
    apply List.filterMap_congr
    intro a ha
    rw [if_pos (List.mem_range.mp ha)]
  rw [e]
  apply List.Nodup.filterMap _ (List.nodup_range n)
  intro a a' b hb hb'
  by_cases ha : a < n
  · by_cases ha' : a' < n
    · rw [if_pos ha] at hb
      rw [if_pos ha'] at hb'
      exact h a a' b ha ha' hb hb'
    · rw [if_neg ha'] at hb'; cases hb'
  · rw [if_neg ha] at hb; cases hb

set_option maxRecDepth 100000 in
/-- C17 (counterexample). Two listings that are not what the claim says.
On a fresh image alice has created no file, and `list("alice")` is the text
"User directory empty\n", not the empty listing.  After ten creates that fill
the directory of alice, `delete("alice","0")` and `create("alice","")`, which
succeeds, slot 0 holds a created file with the empty name, and `list("alice")`
is the nine names "1" to "9": the tenth file is not in it. -/
theorem list_omits_unnamed_file :
    ReachableBy layout32 (names_terminated layout32) state_unnamed_file ∧
    (list_files_1_svc layout32 (init_disk layout32) alice).2.out_msg
      = c_str "User directory empty\n" ∧
    (list_files_1_svc layout32 (init_disk layout32) alice).2.out_msg ≠ [] ∧
    (create_file_1_svc layout32
      (serve_all layout32 (init_disk layout32)
        (ten_creates ++ [Request.delete_file alice [48]])) alice []).2.success = 1 ∧
    (∀ j, j < 10 → holds_file state_unnamed_file 0 j) ∧
    slot_name state_unnamed_file 0 0 = [] ∧
    (list_files_1_svc layout32 state_unnamed_file alice).2.out_msg =
      [49, 10, 50, 10, 51, 10, 52, 10, 53, 10, 54, 10, 55, 10, 56, 10, 57, 10] :=
  ⟨ReachableBy.by_serve_all ReachableBy.init _ (by decide), by decide, by decide, by decide,
    by decide, by decide, by decide⟩

/-- C17 (amended). In every state reached by requests with NUL-terminated
names and for every known user `u` (found in entry `i`): `list(u)` changes
nothing and returns the listed names, each followed by a newline; the listed
names are, in slot order, the names of the slots of `u` that hold a created,
undeleted file with a non-empty name; no name is listed twice; a name is
listed exactly when it is non-empty and the name of a slot of `u` that holds a
file; when `u` holds no file the reply is empty.  For a user the server does
not know the reply is the text "User directory empty\n". -/
theorem list_contents (L : Layout) (s : State) (u : List Nat) (i : Nat)
    (hr : ReachableBy L (names_terminated L) s) (hu : find_user L s u = some i) :
    list_files_1_svc L s u =
      (s, ⟨((listed_names (s.users i)).map (fun nm => nm ++ [10])).flatten⟩) ∧
    listed_names (s.users i) =
      (List.range MAX_FILES_USER).filterMap (fun j =>
        if holds_file s i j ∧ slot_name s i j ≠ [] then some (slot_name s i j) else none) ∧
    (listed_names (s.users i)).Nodup ∧
    (∀ nm, nm ∈ listed_names (s.users i) ↔
      nm ≠ [] ∧ ∃ j, j < MAX_FILES_USER ∧ holds_file s i j ∧ slot_name s i j = nm) ∧
    ((∀ j, j < MAX_FILES_USER → ¬ holds_file s i j) →
      (list_files_1_svc L s u).2.out_msg = []) ∧
    (∀ u', find_user L s u' = none →
      list_files_1_svc L s u' = (s, ⟨c_str "User directory empty\n"⟩)) := by
  have hz : ZInv s := ReachableBy.by_zinv hr
  have hn : NInv L s := ReachableBy.by_ninv hr
  have hpos : ∀ j, 0 ≤ ((s.users i).files j).start_block →
      ((s.users i).files j).file_name ≠ [] → 0 < ((s.users i).files j).start_block := by
    intro j h0 hne
    have := hz i j
    unfold slot_start slot_name at this
    by_contra hcon
    exact hne (this (by omega))
  have hlist : list_files_1_svc L s u =
      (s, ⟨((listed_names (s.users i)).map (fun nm => nm ++ [10])).flatten⟩) := by
    unfold list_files_1_svc
    rw [hu]
  have hmem : ∀ nm, nm ∈ listed_names (s.users i) ↔
      nm ≠ [] ∧ ∃ j, j < MAX_FILES_USER ∧ holds_file s i j ∧ slot_name s i j = nm := by
    intro nm
    rw [mem_listed_names]
    unfold holds_file slot_start slot_name
    constructor
    · rintro ⟨j, hj, h0, hne, e⟩
      exact ⟨by rw [← e]; exact hne, j, hj, hpos j h0 hne, e⟩
    · rintro ⟨hne, j, hj, h0, e⟩
      exact ⟨j, hj, le_of_lt h0, by rw [e]; exact hne, e⟩
  refine ⟨hlist, ?_, ?_, hmem, ?_, ?_⟩
  · unfold listed_names
    apply List.filterMap_congr
    intro j _
    unfold holds_file slot_start slot_name
    by_cases hc : ((s.users i).files j).start_block ≥ 0 ∧ ((s.users i).files j).file_name ≠ []
    · rw [if_pos hc, if_pos ⟨hpos j hc.1 hc.2, hc.2⟩]
    · rw [if_neg hc, if_neg (fun h => hc ⟨le_of_lt h.1, h.2⟩)]
  · unfold listed_names
    apply nodup_filterMap_range
    intro a a' b ha ha' hb hb'
    by_cases hc : ((s.users i).files a).start_block ≥ 0 ∧ ((s.users i).files a).file_name ≠ []
    · by_cases hc' : ((s.users i).files a').start_block ≥ 0 ∧
          ((s.users i).files a').file_name ≠ []
      · rw [if_pos hc] at hb
        rw [if_pos hc'] at hb'
        simp only [Option.some.injEq] at hb hb'
        by_contra hne
        have := hn.uniq i a a' ha ha' hne (hpos a hc.1 hc.2) hc'.1
        unfold slot_name at this
        exact this (hb.trans hb'.symm)
      · rw [if_neg hc'] at hb'; cases hb'
    · rw [if_neg hc] at hb; cases hb
  · intro hnone
    rw [hlist]
    have : listed_names (s.users i) = [] := by
      apply List.eq_nil_iff_forall_not_mem.mpr
      intro nm hnm
      obtain ⟨_, j, hj, hh, _⟩ := (hmem nm).mp hnm
      exact hnone j hj hh
    rw [this]
    rfl
  · intro u' hu'
    unfold list_files_1_svc
    rw [hu']

set_option maxRecDepth 100000 in
theorem list_contents_witness :
    ReachableBy layout32 (names_terminated layout32) state_F_G ∧
    find_user layout32 state_F_G alice = some 0 ∧
    list_files_1_svc layout32 state_F_G alice =
      (state_F_G, ⟨((listed_names (state_F_G.users 0)).map (fun nm => nm ++ [10])).flatten⟩) ∧
    listed_names (state_F_G.users 0) = [file_F, file_G] ∧
    (list_files_1_svc layout32 state_F_G alice).2.out_msg = [70, 10, 71, 10] :=
  ⟨state_F_G_reachable_terminated, by decide,
    (list_contents layout32 state_F_G alice 0 state_F_G_reachable_terminated (by decide)).1,
    by decide, by decide⟩

/-! ## C14 and C15: the descriptor counter wraps around -/

/-- One round: with session 3 of alice's file open in entry 0, entry 1 free
and `next_fd` not 3, an `open("alice","F")` followed by the `close` of its
descriptor leaves entry 1 free with that descriptor and `next_fd` one
further. -/
theorem open_close_round (s : State)
    (hu : find_user layout32 s alice = some 0)
    (hf : find_file layout32 (s.users 0) file_F = some 0)
    (hst : ((s.users 0).files 0).start_block = 2)
    (h0 : (s.open_table 0).in_use ≠ 0) (h0fd : (s.open_table 0).fd ≠ s.next_fd)
    (h1 : (s.open_table 1).in_use = 0) :
    serve_all layout32 s [Request.open_file alice file_F, Request.close_file s.next_fd] =
      State.mk s.disk s.users
        (Function.update s.open_table 1
          (open_entry_t.mk 0 s.next_fd (strncpy alice layout32.USER_NAME_SIZE)
            (strncpy file_F layout32.FILE_NAME_SIZE) 2 0))
        (wrap32 (s.next_fd + 1)) s.block_used := by
  have hk : alloc_open_entry s = some 1 := by
    unfold alloc_open_entry
    apply first_index_first _ _ _ _ (Nat.zero_le _) (by decide)
    · simp only [decide_eq_true_eq]; exact h1
    · intro m _ hm
      have e : m = 0 := by omega
      subst e
      simp only [decide_eq_false_iff_not]
      exact h0
  have ho := open_file_ok layout32 s alice file_F 0 0 1 hu hf (by rw [hst]; decide) hk
  rw [hst] at ho
  have hfind : find_open_by_fd (open_file_1_svc layout32 s alice file_F).1 s.next_fd
      = some 1 := by
    rw [ho]
    apply find_open_by_fd_unique _ _ 1 (by decide)
    · simp
    · simp
    · intro m hm
      have e : m = 0 := by omega
      subst e
      simp only [ne_eq, zero_ne_one, not_false_eq_true, Function.update_noteq]
      intro _
      exact h0fd
  have hc := close_file_ok _ _ 1 hfind
  unfold serve_all
  simp only [List.foldl_cons, List.foldl_nil, serve]
  rw [hc, ho]
  simp

theorem cycle_state_users (m : Nat) : (cycle_state m).users = state_open_F.users := rfl

theorem cycle_state_entry_0 (m : Nat) :
    (cycle_state m).open_table 0 = state_open_F.open_table 0 := by
  unfold cycle_state
  simp

theorem cycle_state_entry_1 (m : Nat) : ((cycle_state m).open_table 1).in_use = 0 := by
  unfold cycle_state
  simp

theorem cycle_state_next_fd (m : Nat) : (cycle_state m).next_fd = wrap32 (4 + (m : Int)) := rfl

set_option maxRecDepth 100000 in
theorem cycle_state_find_user (m : Nat) : find_user layout32 (cycle_state m) alice = some 0 := by
  have e : find_user layout32 (cycle_state m) alice = find_user layout32 state_open_F alice :=
    find_user_congr layout32 state_open_F (cycle_state m) alice
      (fun k => by rw [cycle_state_users]; exact ⟨rfl, rfl⟩)
  rw [e]
  decide

set_option maxRecDepth 100000 in
theorem cycle_state_find_file (m : Nat) :
    find_file layout32 ((cycle_state m).users 0) file_F = some 0 := by
  rw [cycle_state_users]; decide

set_option maxRecDepth 100000 in
theorem cycle_state_slot (m : Nat) : (((cycle_state m).users 0).files 0).start_block = 2 := by
  rw [cycle_state_users]; decide

set_option maxRecDepth 100000 in
theorem cycle_state_session (m : Nat) :
    ((cycle_state m).open_table 0).in_use = 1 ∧ ((cycle_state m).open_table 0).fd = 3 := by
  rw [cycle_state_entry_0]; decide

/-- Round `m`, as long as the counter has not come back to 3. -/
theorem cycle_round (m : Nat) (hm : m < 4294967295) :
    serve_all layout32 (cycle_state m)
      [Request.open_file alice file_F, Request.close_file (wrap32 (4 + (m : Int)))]
      = cycle_state (m + 1) := by
  have h := open_close_round (cycle_state m) (cycle_state_find_user m)
    (cycle_state_find_file m) (cycle_state_slot m)
    (by rw [(cycle_state_session m).1]; decide)
    (by
      rw [(cycle_state_session m).2, cycle_state_next_fd]
      unfold wrap32
      omega)
    (cycle_state_entry_1 m)
  rw [cycle_state_next_fd] at h
  rw [h]
  have e1 : (3 : Int) + ((m + 1 : Nat) : Int) = 4 + (m : Int) := by push_cast; omega
  have e2 : wrap32 (4 + ((m + 1 : Nat) : Int)) = wrap32 (wrap32 (4 + (m : Int)) + 1) := by
    unfold wrap32; push_cast; omega
  unfold cycle_state
  simp only [Function.update_idem]
  rw [e1, e2]

set_option maxRecDepth 100000 in
/-- The first round, from the state after `create` and `open`. -/
theorem first_round :
    serve_all layout32 state_open_F
      [Request.open_file alice file_F, Request.close_file 4] = cycle_state 1 := by
  have h := open_close_round state_open_F (by decide) (by decide) (by decide) (by decide)
    (by decide) (by decide)
  have e : state_open_F.next_fd = 4 := by decide
  rw [e] at h
  rw [h]
  rfl

/-- The rounds `a`, ..., `a + n - 1` lead from `cycle_state a` to
`cycle_state (a + n)`, as long as the counter has not come back to 3. -/
theorem cycle_run (a : Nat) :
    ∀ n, a + n ≤ 4294967295 →
      serve_all layout32 (cycle_state a) (cycle_requests a n) = cycle_state (a + n) := by
  intro n
  induction n with
  | zero => intro _; rfl
  | succ n ih =>
    intro h
    have h1 := ih (by omega)
    have h2 := cycle_round (a + n) (by omega)
    unfold cycle_requests
    unfold serve_all at h1 h2 ⊢
    rw [List.foldl_append, h1, h2]
    rfl

/-- After all the rounds session 3 is still open and `next_fd` is 3 again. -/
theorem state_wrapped_eq : state_wrapped = cycle_state 4294967295 := by
  unfold state_wrapped wrap_requests serve_all
  rw [List.foldl_append]
  have h1 := first_round
  have h2 := cycle_run 1 4294967294 (by decide)
  unfold serve_all at h1 h2
  rw [h1, h2]

theorem state_wrapped_reachable : Reachable layout32 state_wrapped :=
  Reachable.reach_serve_all state_open_F_reachable _

set_option maxRecDepth 100000 in
/-- C15 (failing input). The first `open("alice","F")` returns descriptor 3
and the session stays open.  After the 4294967295 rounds of `wrap_requests`
(an `open` and the `close` of its descriptor each) the counter `next_fd` has
wrapped around to 3: the next `open("alice","F")` succeeds and returns 3
again, which is not greater than the descriptors returned before, and the
open table then has two sessions in use with descriptor 3. -/
theorem descriptor_reused_while_open :
    (open_file_1_svc layout32 state_F alice file_F).2.fd = 3 ∧
    (open_file_1_svc layout32 state_F alice file_F).2.out_msg = "File opened" ∧
    Reachable layout32 state_wrapped ∧
    find_open_by_fd state_wrapped 3 = some 0 ∧
    state_wrapped.next_fd = 3 ∧
    (open_file_1_svc layout32 state_wrapped alice file_F).2.fd = 3 ∧
    (open_file_1_svc layout32 state_wrapped alice file_F).2.out_msg = "File opened" ∧
    ((open_file_1_svc layout32 state_wrapped alice file_F).1.open_table 0).in_use = 1 ∧
    ((open_file_1_svc layout32 state_wrapped alice file_F).1.open_table 0).fd = 3 ∧
    ((open_file_1_svc layout32 state_wrapped alice file_F).1.open_table 1).in_use = 1 ∧
    ((open_file_1_svc layout32 state_wrapped alice file_F).1.open_table 1).fd = 3 := by
  refine ⟨by decide, by decide, state_wrapped_reachable, ?_⟩
  rw [state_wrapped_eq]
  decide

set_option maxRecDepth 100000 in
/-- C14 (failing input). The second `open("alice","F")` returns descriptor 4
and `close(4)` answers "File closed"; this is the first round of
`wrap_requests`.  After the other rounds and two more `open("alice","F")`,
which return 3 and 4, the closed descriptor 4 is valid again: `read(4, 1)`
succeeds, `seek(4, 0)` succeeds and `close(4)` answers "File closed" instead
of "Invalid file descriptor". -/
theorem closed_descriptor_valid_again :
    (open_file_1_svc layout32 state_open_F alice file_F).2.fd = 4 ∧
    (close_file_1_svc (open_file_1_svc layout32 state_open_F alice file_F).1 4).2.out_msg
      = "File closed" ∧
    find_open_by_fd
      (close_file_1_svc (open_file_1_svc layout32 state_open_F alice file_F).1 4).1 4 = none ∧
    wrap_requests.take 2 = [Request.open_file alice file_F, Request.close_file 4] ∧
    Reachable layout32 state_wrapped ∧
    (open_file_1_svc layout32 state_wrapped alice file_F).2.fd = 3 ∧
    (open_file_1_svc layout32 (open_file_1_svc layout32 state_wrapped alice file_F).1
      alice file_F).2.fd = 4 ∧
    (read_file_1_svc
      (open_file_1_svc layout32 (open_file_1_svc layout32 state_wrapped alice file_F).1
        alice file_F).1 4 1).2.success = 1 ∧
    (read_file_1_svc
      (open_file_1_svc layout32 (open_file_1_svc layout32 state_wrapped alice file_F).1
        alice file_F).1 4 1).2.out_msg = "Read ok" ∧
    (seek_position_1_svc
      (open_file_1_svc layout32 (open_file_1_svc layout32 state_wrapped alice file_F).1
        alice file_F).1 4 0).2.out_msg = "Seek ok" ∧
    (close_file_1_svc
      (open_file_1_svc layout32 (open_file_1_svc layout32 state_wrapped alice file_F).1
        alice file_F).1 4).2.out_msg = "File closed" := by
  refine ⟨by decide, by decide, by decide, rfl, state_wrapped_reachable, ?_⟩
  rw [state_wrapped_eq]
  decide

/-! ## Descriptors before the counter wraps -/

theorem create_file_meta_open_table (L : Layout) (s : State) (i : Nat) (f : List Nat) :
    (create_file_meta L s i f).1.open_table = s.open_table ∧
    (create_file_meta L s i f).1.next_fd = s.next_fd := by
  unfold create_file_meta
  split
  · exact ⟨rfl, rfl⟩
  · split <;> exact ⟨rfl, rfl⟩

theorem create_file_table (L : Layout) (s : State) (u f : List Nat) :
    (create_file_1_svc L s u f).1.open_table = s.open_table ∧
    (create_file_1_svc L s u f).1.next_fd = s.next_fd := by
  unfold create_file_1_svc
  simp only []
  split
  · simp
  · rename_i i _
    split
    · simp [create_file_meta_open_table]
    · split
      · simp [create_file_meta_open_table]
      · simp [create_file_meta_open_table]

theorem delete_file_table (L : Layout) (s : State) (u f : List Nat) :
    (delete_file_1_svc L s u f).1.open_table = s.open_table ∧
    (delete_file_1_svc L s u f).1.next_fd = s.next_fd := by
  unfold delete_file_1_svc
  split
  · exact ⟨rfl, rfl⟩
  · split
    · exact ⟨rfl, rfl⟩
    · split
      · exact ⟨rfl, rfl⟩
      · simp

theorem read_file_table (s : State) (h n : Int) (k : Nat) :
    (read_file_1_svc s h n).1.next_fd = s.next_fd ∧
    ((read_file_1_svc s h n).1.open_table k).in_use = (s.open_table k).in_use := by
  unfold read_file_1_svc
  cases hk : find_open_by_fd s h with
  | none => exact ⟨rfl, rfl⟩
  | some k1 =>
    simp only
    split_ifs <;> first
      | exact ⟨rfl, rfl⟩
      | (refine ⟨rfl, ?_⟩; rw [set_pos_entry]; split_ifs with e <;> simp [e])

theorem write_file_table (s : State) (h n : Int) (b : List Nat) (k : Nat) :
    (write_file_1_svc s h n b).1.next_fd = s.next_fd ∧
    ((write_file_1_svc s h n b).1.open_table k).in_use = (s.open_table k).in_use := by
  unfold write_file_1_svc
  cases hk : find_open_by_fd s h with
  | none => exact ⟨rfl, rfl⟩
  | some k1 =>
    simp only
    split_ifs <;> first
      | exact ⟨rfl, rfl⟩
      | (refine ⟨rfl, ?_⟩; rw [set_pos_entry]; split_ifs with e <;> simp [e])

theorem seek_position_table (s : State) (h pos : Int) (k : Nat) :
    (seek_position_1_svc s h pos).1.next_fd = s.next_fd ∧
    ((seek_position_1_svc s h pos).1.open_table k).in_use = (s.open_table k).in_use := by
  unfold seek_position_1_svc
  cases hk : find_open_by_fd s h with
  | none => exact ⟨rfl, rfl⟩
  | some k1 =>
    simp only
    split_ifs <;> first
      | exact ⟨rfl, rfl⟩
      | (refine ⟨rfl, ?_⟩; rw [set_pos_entry]; split_ifs with e <;> simp [e])

theorem close_file_table (s : State) (h : Int) (k : Nat) :
    (close_file_1_svc s h).1.next_fd = s.next_fd ∧
    (((close_file_1_svc s h).1.open_table k).in_use ≠ 0 → (s.open_table k).in_use ≠ 0) := by
  unfold close_file_1_svc
  cases hk : find_open_by_fd s h with
  | none => exact ⟨rfl, fun x => x⟩
  | some k1 =>
    simp only
    refine ⟨trivial, ?_⟩
    by_cases e : k = k1
    · subst e; simp
    · rw [Function.update_noteq e]; exact fun x => x

/-- A request other than `open` keeps `next_fd` and the descriptor of every
entry, and brings no entry into use. -/
theorem serve_table_other (L : Layout) (s : State) (r : Request)
    (hr : ∀ u f, r ≠ Request.open_file u f) :
    (serve L s r).next_fd = s.next_fd ∧
    ∀ k, ((serve L s r).open_table k).fd = (s.open_table k).fd ∧
      (((serve L s r).open_table k).in_use ≠ 0 → (s.open_table k).in_use ≠ 0) := by
  cases r with
  | create_file u f =>
    unfold serve
    rw [(create_file_table L s u f).1, (create_file_table L s u f).2]
    exact ⟨rfl, fun k => ⟨rfl, fun x => x⟩⟩
  | open_file u f => exact absurd rfl (hr u f)
  | read_file fd n =>
    refine ⟨(read_file_table s fd n 0).1, fun k => ⟨read_keeps_fd s fd n k, ?_⟩⟩
    unfold serve
    rw [(read_file_table s fd n k).2]; exact fun x => x
  | write_file fd n b =>
    refine ⟨(write_file_table s fd n b 0).1, fun k => ⟨write_keeps_fd s fd n b k, ?_⟩⟩
    unfold serve
    rw [(write_file_table s fd n b k).2]; exact fun x => x
  | seek_position fd pos =>
    refine ⟨(seek_position_table s fd pos 0).1, fun k => ⟨seek_keeps_fd s fd pos k, ?_⟩⟩
    unfold serve
    rw [(seek_position_table s fd pos k).2]; exact fun x => x
  | close_file fd =>
    exact ⟨(close_file_table s fd 0).1, fun k => ⟨close_keeps_fd s fd k,
      (close_file_table s fd k).2⟩⟩
  | delete_file u f =>
    unfold serve
    rw [(delete_file_table L s u f).1, (delete_file_table L s u f).2]
    exact ⟨rfl, fun k => ⟨rfl, fun x => x⟩⟩
  | list_files u =>
    have e : serve L s (Request.list_files u) = s := list_files_state L s u
    rw [e]
    exact ⟨rfl, fun k => ⟨rfl, fun x => x⟩⟩

/-- What a request does to the descriptors while the counter is below
`INT_MAX`: either it keeps `next_fd` and every descriptor and brings no entry
into use, or it is a successful `open`, which puts `next_fd` into a free entry
and increments the counter. -/
theorem serve_table (L : Layout) (s : State) (r : Request)
    (hlo : 3 ≤ s.next_fd) (hn : s.next_fd < 2147483647) :
    ((serve L s r).next_fd = s.next_fd ∧
      ∀ k, ((serve L s r).open_table k).fd = (s.open_table k).fd ∧
        (((serve L s r).open_table k).in_use ≠ 0 → (s.open_table k).in_use ≠ 0)) ∨
    (∃ k0 u f, r = Request.open_file u f ∧
      (open_file_1_svc L s u f).2 = ⟨s.next_fd, "File opened"⟩ ∧
      (s.open_table k0).in_use = 0 ∧ (serve L s r).next_fd = s.next_fd + 1 ∧
      ((serve L s r).open_table k0).fd = s.next_fd ∧
      ∀ k, k ≠ k0 → (serve L s r).open_table k = s.open_table k) := by
  by_cases hr : ∀ u f, r ≠ Request.open_file u f
  · exact Or.inl (serve_table_other L s r hr)
  · push_neg at hr
    obtain ⟨u, f, e⟩ := hr
    subst e
    rcases open_file_cases L s u f with ⟨i, j, k, hu, hf, hst, hk⟩ | ⟨m, _, e⟩
    · right
      have ho := open_file_ok L s u f i j k hu hf hst hk
      refine ⟨k, u, f, rfl, by rw [ho], (alloc_open_entry_some s k hk).2, ?_, ?_, ?_⟩
      · show (open_file_1_svc L s u f).1.next_fd = s.next_fd + 1
        rw [ho]
        exact wrap32_of_range _ (by omega) (by omega)
      · show ((open_file_1_svc L s u f).1.open_table k).fd = s.next_fd
        rw [ho]
        simp
      · intro k' hk'
        show (open_file_1_svc L s u f).1.open_table k' = s.open_table k'
        rw [ho]
        simp [Function.update_noteq hk']
    · left
      have e1 : serve L s (Request.open_file u f) = s := by
        show (open_file_1_svc L s u f).1 = s
        rw [e]
      rw [e1]
      exact ⟨rfl, fun k => ⟨rfl, fun x => x⟩⟩

theorem FInv.finv_serve {L : Layout} {s : State} (r : Request) (h : FInv s)
    (hn : s.next_fd < 2147483647) :
    FInv (serve L s r) ∧ s.next_fd ≤ (serve L s r).next_fd ∧
      (serve L s r).next_fd ≤ s.next_fd + 1 := by
  rcases serve_table L s r h.lo hn with ⟨e, hk⟩ | ⟨k0, _, _, _, _, hfree, e, hfd, hoth⟩
  · refine ⟨⟨by rw [e]; exact h.lo, ?_, ?_⟩, by omega, by omega⟩
    · intro k hu
      rw [(hk k).1, e]
      exact h.below k ((hk k).2 hu)
    · intro k k' hne hu hu'
      rw [(hk k).1, (hk k').1]
      exact h.distinct k k' hne ((hk k).2 hu) ((hk k').2 hu')
  · have hb : ∀ k, k ≠ k0 → ((serve L s r).open_table k).in_use ≠ 0 →
        3 ≤ ((serve L s r).open_table k).fd ∧ ((serve L s r).open_table k).fd < s.next_fd := by
      intro k hne hu
      rw [hoth k hne] at hu ⊢
      exact h.below k hu
    refine ⟨⟨by have := h.lo; omega, ?_, ?_⟩, by omega, by omega⟩
    · intro k hu
      by_cases hne : k = k0
      · subst hne; rw [hfd, e]; have := h.lo; omega
      · have := hb k hne hu; omega
    · intro k k' hne hu hu'
      by_cases h1 : k = k0
      · subst h1
        have := hb k' (fun x => hne x.symm) hu'
        rw [hfd]; omega
      · by_cases h2 : k' = k0
        · subst h2
          have := hb k h1 hu
          rw [hfd]; omega
        · rw [hoth k h1] at hu ⊢
          rw [hoth k' h2] at hu' ⊢
          exact h.distinct k k' hne hu hu'

theorem FInv.finv_init (L : Layout) : FInv (init_disk L) := by
  refine ⟨le_refl _, ?_, ?_⟩
  · intro k hu; exact absurd rfl hu
  · intro k k' _ hu; exact absurd rfl hu

/-- The descriptor facts hold along every run during which the counter stays
below `INT_MAX`; the counter grows by at most one per request. -/
theorem FInv.finv_run {L : Layout} :
    ∀ (reqs : List Request) (s : State), FInv s →
      s.next_fd + (reqs.length : Int) ≤ 2147483647 →
      FInv (serve_all L s reqs) ∧ s.next_fd ≤ (serve_all L s reqs).next_fd ∧
        (serve_all L s reqs).next_fd ≤ s.next_fd + reqs.length := by
  intro reqs
  induction reqs with
  | nil => intro s h _; exact ⟨h, le_refl _, by simp [serve_all]⟩
  | cons r rs ih =>
    intro s h hb
    simp only [List.length_cons, Nat.cast_add, Nat.cast_one] at hb
    obtain ⟨h1, h2, h3⟩ := h.finv_serve (L := L) r (by omega)
    obtain ⟨h4, h5, h6⟩ := ih (serve L s r) h1 (by omega)
    refine ⟨h4, ?_, ?_⟩
    · exact le_trans h2 h5
    · simp only [List.length_cons, Nat.cast_add, Nat.cast_one]
      have : serve_all L s (r :: rs) = serve_all L (serve L s r) rs := rfl
      rw [this]
      omega

/-- A descriptor below the counter that no session in use carries stays so
along every run during which the counter stays below `INT_MAX`. -/
theorem dead_run (L : Layout) (h : Int) :
    ∀ (reqs : List Request) (s : State), FInv s →
      s.next_fd + (reqs.length : Int) ≤ 2147483647 → h < s.next_fd →
      (∀ k, (s.open_table k).in_use ≠ 0 → (s.open_table k).fd ≠ h) →
      ∀ k, ((serve_all L s reqs).open_table k).in_use ≠ 0 →
        ((serve_all L s reqs).open_table k).fd ≠ h := by
  intro reqs
  induction reqs with
  | nil => intro s _ _ _ hd; exact hd
  | cons r rs ih =>
    intro s hf hb hlt hd
    simp only [List.length_cons, Nat.cast_add, Nat.cast_one] at hb
    obtain ⟨h1, h2, h3⟩ := hf.finv_serve (L := L) r (by omega)
    apply ih (serve L s r) h1 (by omega) (by omega)
    rcases serve_table L s r hf.lo (by omega) with ⟨e, hk⟩ | ⟨k0, _, _, _, _, hfree, e, hfd, hoth⟩
    · intro k hu
      rw [(hk k).1]
      exact hd k ((hk k).2 hu)
    · intro k hu
      by_cases hne : k = k0
      · subst hne; rw [hfd]; omega
      · rw [hoth k hne] at hu ⊢
        exact hd k hu

theorem find_open_by_fd_none (s : State) (h : Int)
    (hd : ∀ k, (s.open_table k).in_use ≠ 0 → (s.open_table k).fd ≠ h) :
    find_open_by_fd s h = none := by
  cases hk : find_open_by_fd s h with
  | none => rfl
  | some k =>
    obtain ⟨_, hu, hfd⟩ := find_open_by_fd_some s h k hk
    exact absurd hfd (hd k hu)

/-- A request other than `open` keeps the descriptor facts, wherever the
counter stands. -/
theorem FInv.finv_other {L : Layout} {s : State} (r : Request) (h : FInv s)
    (hr : ∀ u f, r ≠ Request.open_file u f) : FInv (serve L s r) := by
  obtain ⟨e, hk⟩ := serve_table_other L s r hr
  refine ⟨by rw [e]; exact h.lo, ?_, ?_⟩
  · intro k hu
    rw [(hk k).1, e]
    exact h.below k ((hk k).2 hu)
  · intro k k' hne hu hu'
    rw [(hk k).1, (hk k').1]
    exact h.distinct k k' hne ((hk k).2 hu) ((hk k').2 hu')

/-- The descriptors that successful opens return along a run during which the
counter stays below `INT_MAX` are strictly increasing and start at the
counter. -/
theorem open_handles_run (L : Layout) :
    ∀ (reqs : List Request) (s : State), FInv s →
      s.next_fd + (reqs.length : Int) ≤ 2147483647 →
      (open_handles L s reqs).Pairwise (fun a b => a < b) ∧
        ∀ h ∈ open_handles L s reqs, s.next_fd ≤ h := by
  intro reqs
  induction reqs with
  | nil => intro s _ _; simp [open_handles]
  | cons r rs ih =>
    intro s hf hb
    simp only [List.length_cons, Nat.cast_add, Nat.cast_one] at hb
    obtain ⟨h1, h2, h3⟩ := hf.finv_serve (L := L) r (by omega)
    obtain ⟨ih1, ih2⟩ := ih (serve L s r) h1 (by omega)
    have hrest : (open_handles L (serve L s r) rs).Pairwise (fun a b => a < b) ∧
        ∀ h ∈ open_handles L (serve L s r) rs, s.next_fd ≤ h :=
      ⟨ih1, fun h hh => le_trans h2 (ih2 h hh)⟩
    cases r with
    | open_file u f =>
      simp only [open_handles]
      by_cases hok : (open_file_1_svc L s u f).2.out_msg = "File opened"
      · rw [if_pos hok]
        rcases serve_table L s (Request.open_file u f) hf.lo (by omega) with
          ⟨e, _⟩ | ⟨k0, u', f', er, ho, _, e, _, _⟩
        · rcases open_file_cases L s u f with ⟨i, j, k, hu, hf', hst, hk⟩ | ⟨m, hm, e'⟩
          · have ho := open_file_ok L s u f i j k hu hf' hst hk
            have : (serve L s (Request.open_file u f)).next_fd = wrap32 (s.next_fd + 1) := by
              show (open_file_1_svc L s u f).1.next_fd = _
              rw [ho]
            rw [this, wrap32_of_range _ (by have := hf.lo; omega) (by omega)] at e
            omega
          · rw [e'] at hok
            exact absurd hok hm
        · cases er
          rw [ho]
          simp only []
          refine ⟨List.pairwise_cons.mpr ⟨?_, ih1⟩, ?_⟩
          · intro h hh
            have := ih2 h hh
            omega
          · intro h hh
            rcases List.mem_cons.mp hh with e1 | e1
            · rw [e1]
            · have := ih2 h e1
              omega
      · rw [if_neg hok]; exact hrest
    | create_file u f => simp only [open_handles]; exact hrest
    | read_file fd n => simp only [open_handles]; exact hrest
    | write_file fd n b => simp only [open_handles]; exact hrest
    | seek_position fd pos => simp only [open_handles]; exact hrest
    | close_file fd => simp only [open_handles]; exact hrest
    | delete_file u f => simp only [open_handles]; exact hrest
    | list_files u => simp only [open_handles]; exact hrest

/-- Descriptors are fresh before the counter wraps: along a run of at most
2147483644 requests from a fresh image, the descriptors of the successful
opens are at least 3 and strictly increasing, and in the state reached the
sessions in use have descriptors from 3 up to `next_fd` that differ from one
another. -/
theorem handles_increase_before_wrap (L : Layout) (reqs : List Request)
    (hlen : reqs.length ≤ 2147483644) :
    (open_handles L (init_disk L) reqs).Pairwise (fun a b => a < b) ∧
    (∀ h ∈ open_handles L (init_disk L) reqs, 3 ≤ h) ∧
    FInv (serve_all L (init_disk L) reqs) := by
  have h3 : (init_disk L).next_fd = 3 := rfl
  have hb : (init_disk L).next_fd + (reqs.length : Int) ≤ 2147483647 := by rw [h3]; omega
  obtain ⟨h1, h2⟩ := open_handles_run L reqs (init_disk L) (FInv.finv_init L) hb
  refine ⟨h1, ?_, (FInv.finv_run reqs (init_disk L) (FInv.finv_init L) hb).1⟩
  intro h hh
  have := h2 h hh
  rw [h3] at this
  exact this

/-- A closed descriptor stays invalid before the counter wraps: when
`close(h)` answers "File closed" after the requests `reqs0` from a fresh
image, the session is gone, and after any further requests `reqs1`, with at
most 2147483644 requests in `reqs0` and `reqs1` together, `h` resolves to no
session: read, write, seek and close with `h` answer "Invalid file
descriptor" and return the state they were given. -/
theorem closed_handle_invalid_before_wrap (L : Layout) (reqs0 reqs1 : List Request) (h : Int)
    (hlen : reqs0.length + reqs1.length ≤ 2147483644)
    (hc : (close_file_1_svc (serve_all L (init_disk L) reqs0) h).2.out_msg = "File closed") :
    ∀ t, t = serve_all L (close_file_1_svc (serve_all L (init_disk L) reqs0) h).1 reqs1 →
      find_open_by_fd t h = none ∧
      (∀ n, read_file_1_svc t h n = (t, ⟨-1, 0, [], "Invalid file descriptor"⟩)) ∧
      (∀ n b, write_file_1_svc t h n b = (t, ⟨-1, "Invalid file descriptor"⟩)) ∧
      (∀ pos, seek_position_1_svc t h pos = (t, ⟨-1, "Invalid file descriptor"⟩)) ∧
      close_file_1_svc t h = (t, ⟨"Invalid file descriptor"⟩) := by
  intro t ht
  have h3 : (init_disk L).next_fd = 3 := rfl
  obtain ⟨hf, _, hnf⟩ := FInv.finv_run (L := L) reqs0 (init_disk L) (FInv.finv_init L)
    (by rw [h3]; omega)
  rw [h3] at hnf
  generalize serve_all L (init_disk L) reqs0 = s at hf hnf hc ht
  obtain ⟨k, hk⟩ : ∃ k, find_open_by_fd s h = some k := by
    cases hk : find_open_by_fd s h with
    | some k => exact ⟨k, rfl⟩
    | none =>
      unfold close_file_1_svc at hc
      rw [hk] at hc
      simp at hc
  obtain ⟨_, hu, hfd⟩ := find_open_by_fd_some s h k hk
  have hclose := close_file_ok s h k hk
  have hf1 := hf.finv_other (L := L) (Request.close_file h) (fun _ _ e => by cases e)
  have hs1 : serve L s (Request.close_file h) = (close_file_1_svc s h).1 := rfl
  rw [hs1] at hf1
  have hnf1 : (close_file_1_svc s h).1.next_fd = s.next_fd := (close_file_table s h 0).1
  have hdead : ∀ k', ((close_file_1_svc s h).1.open_table k').in_use ≠ 0 →
      ((close_file_1_svc s h).1.open_table k').fd ≠ h := by
    intro k' hu'
    rw [hclose] at hu' ⊢
    by_cases e : k' = k
    · subst e; simp at hu'
    · simp only [Function.update_noteq e] at hu' ⊢
      rw [← hfd]
      exact hf.distinct k' k e hu' hu
  have hd := dead_run L h reqs1 (close_file_1_svc s h).1 hf1 (by rw [hnf1]; omega)
    (by rw [hnf1, ← hfd]; exact (hf.below k hu).2) hdead
  rw [← ht] at hd
  have hnone := find_open_by_fd_none t h hd
  refine ⟨hnone, ?_, ?_, ?_, ?_⟩
  · intro n; unfold read_file_1_svc; rw [hnone]
  · intro n b; unfold write_file_1_svc; rw [hnone]
  · intro pos; unfold seek_position_1_svc; rw [hnone]
  · unfold close_file_1_svc; rw [hnone]

/-! ## C21: first fit -/

/-- C21. For every bitmap (every state), with `r` the value `allocate_blocks`
returns: when some index `i` with `2 ≤ i ≤ TOTAL_BLOCKS - 64` has the blocks
`i .. i + 63` all free, `r` is the smallest such index, the new bitmap has the
flag 1 for exactly the blocks `r .. r + 63` and every other flag is as before;
`r = -1` exactly when there is no such index, and then the state, and so the
bitmap, is returned unchanged. -/
theorem allocate_first_fit (L : Layout) (s : State) :
    ((∃ i, 2 ≤ i ∧ i ≤ TOTAL_BLOCKS - 64 ∧ ∀ b, i ≤ b → b < i + 64 → s.block_used b = 0) →
      2 ≤ (allocate_blocks L s).2 ∧ (allocate_blocks L s).2 ≤ TOTAL_BLOCKS - 64 ∧
      (∀ b, (allocate_blocks L s).2 ≤ b → b < (allocate_blocks L s).2 + 64 →
        s.block_used b = 0) ∧
      (∀ i, 2 ≤ i → i ≤ TOTAL_BLOCKS - 64 →
        (∀ b, i ≤ b → b < i + 64 → s.block_used b = 0) → (allocate_blocks L s).2 ≤ i) ∧
      (∀ b, (allocate_blocks L s).1.block_used b =
        if (allocate_blocks L s).2 ≤ b ∧ b < (allocate_blocks L s).2 + 64 then 1
        else s.block_used b)) ∧
    ((allocate_blocks L s).2 = -1 ↔
      ¬ ∃ i, 2 ≤ i ∧ i ≤ TOTAL_BLOCKS - 64 ∧ ∀ b, i ≤ b → b < i + 64 → s.block_used b = 0) ∧
    ((allocate_blocks L s).2 = -1 → (allocate_blocks L s).1 = s) := by
  have hT := TOTAL_BLOCKS_eq
  have hfit : ∀ i, 2 ≤ i → i ≤ TOTAL_BLOCKS - 64 →
      (∀ b, i ≤ b → b < i + 64 → s.block_used b = 0) →
      ∃ r, allocate_scan s.block_used (TOTAL_BLOCKS - 2).toNat 2 0 (-1) = some r ∧ r ≤ i := by
    intro i h2 hle hfree
    obtain ⟨r, hr, _, hri, _⟩ := allocate_scan_first_fit s.block_used i h2 (by omega) hfree
    exact ⟨r, hr, hri⟩
  rcases allocate_blocks_cases L s with ⟨hnone, e⟩ | ⟨st, hscan, e⟩
  · have hno : ¬ ∃ i, 2 ≤ i ∧ i ≤ TOTAL_BLOCKS - 64 ∧
        ∀ b, i ≤ b → b < i + 64 → s.block_used b = 0 := by
      rintro ⟨i, h2, hle, hfree⟩
      obtain ⟨r, hr, _⟩ := hfit i h2 hle hfree
      rw [hnone] at hr
      cases hr
    rw [e]
    refine ⟨fun h => absurd h hno, ?_, fun _ => rfl⟩
    constructor
    · exact fun _ => hno
    · exact fun _ => rfl
  · obtain ⟨h2, hend, hfree⟩ := allocate_scan_start s.block_used st hscan
    rw [e]
    simp only [save_metadata_block_used, BLOCKS_PER_FILE_eq]
    refine ⟨fun _ => ⟨h2, by omega, hfree, ?_, fun _ => trivial⟩, ⟨fun h => by omega, ?_⟩,
      fun h => by omega⟩
    · intro i hi2 hile hifree
      obtain ⟨r, hr, hri⟩ := hfit i hi2 hile hifree
      rw [hscan] at hr
      cases hr
      exact hri
    · intro hno
      exact absurd ⟨st, h2, by omega, hfree⟩ hno

/-! ## C23: the cursor of a session -/

set_option maxRecDepth 100000 in
/-- C23 (failing input). After `create("alice","F")`, `open("alice","F") = 3`
and `seek(3, 1)`, the request `read(3, 2147483647)` succeeds and leaves the
cursor of the open session at 16776192, far above `file_max_size`: the sum
`current_pos + numbytes` of the clamp overflows, so the count is not clamped
and the read runs to the end of the disk. -/
theorem cursor_leaves_file :
    Reachable layout32 (seek_position_1_svc state_open_F 3 1).1 ∧
    find_open_by_fd (seek_position_1_svc state_open_F 3 1).1 3 = some 0 ∧
    ((seek_position_1_svc state_open_F 3 1).1.open_table 0).current_pos = 1 ∧
    (read_file_1_svc (seek_position_1_svc state_open_F 3 1).1 3 2147483647).2.success = 1 ∧
    (read_file_1_svc (seek_position_1_svc state_open_F 3 1).1 3 2147483647).2.buffer_len
      = 16776191 ∧
    ((read_file_1_svc (seek_position_1_svc state_open_F 3 1).1 3 2147483647).1.open_table
      0).in_use = 1 ∧
    ((read_file_1_svc (seek_position_1_svc state_open_F 3 1).1 3 2147483647).1.open_table
      0).current_pos = 16776192 ∧
    file_max_size = 32768 :=
  ⟨ReachableBy.step state_open_F (Request.seek_position 3 1) state_open_F_reachable trivial,
    by decide, by decide, by decide, by decide, by decide, by decide, by decide⟩

theorem CInv.cinv_of_table_eq {s t : State} (h : CInv s) (e : t.open_table = s.open_table) :
    CInv t := by
  intro k; rw [e]; exact h k

/-- Moving the cursor of one entry to a position inside the file keeps the
cursors inside the file. -/
theorem CInv.cinv_set_pos {s : State} (h : CInv s) (k : Nat) (pos : Int) (t : State)
    (ht : t.open_table = s.open_table) (h0 : 0 ≤ pos) (h1 : pos ≤ file_max_size) :
    CInv (set_pos t k pos) := by
  intro k' hu
  rw [set_pos_entry] at hu ⊢
  by_cases e : k' = k
  · rw [if_pos e]; exact ⟨h0, h1⟩
  · rw [if_neg e] at hu ⊢
    rw [ht] at hu ⊢
    exact h k' hu

theorem CInv.cinv_read_file {s : State} (fd n : Int) (hn : n ≤ 2147450879) (h : CInv s) :
    CInv (read_file_1_svc s fd n).1 := by
  unfold read_file_1_svc
  cases hk : find_open_by_fd s fd with
  | none => exact h
  | some k =>
    obtain ⟨hc0, hc1⟩ := h k (find_open_by_fd_some s fd k hk).2.1
    have hfm := file_max_size_eq
    simp only
    split_ifs with h1 h2 h3 h4
    · exact h
    · exact h
    · exact h
    · exact h
    · have hcl := clamp_count_eq_min (s.open_table k).current_pos n hc0 hc1 (by omega)
        (by omega)
      apply h.cinv_set_pos k _ s rfl
      · rw [wrap32_of_range _ (by unfold disk_read_count; omega)
          (by unfold disk_read_count; omega)]
        unfold disk_read_count; omega
      · rw [wrap32_of_range _ (by unfold disk_read_count; omega)
          (by unfold disk_read_count; omega)]
        unfold disk_read_count; omega

theorem CInv.cinv_write_file {s : State} (fd n : Int) (b : List Nat) (hn : n ≤ 2147450879)
    (h : CInv s) : CInv (write_file_1_svc s fd n b).1 := by
  unfold write_file_1_svc
  cases hk : find_open_by_fd s fd with
  | none => exact h
  | some k =>
    obtain ⟨hc0, hc1⟩ := h k (find_open_by_fd_some s fd k hk).2.1
    have hfm := file_max_size_eq
    simp only
    split_ifs with h1 h2 h3
    · exact h
    · exact h
    · exact h
    · have hcl := clamp_count_eq_min (s.open_table k).current_pos n hc0 hc1 (by omega)
        (by omega)
      apply h.cinv_set_pos k _ _ rfl
      · rw [wrap32_of_range _ (by omega) (by omega)]; omega
      · rw [wrap32_of_range _ (by omega) (by omega)]; omega

theorem CInv.cinv_seek_position {s : State} (fd pos : Int) (h : CInv s) :
    CInv (seek_position_1_svc s fd pos).1 := by
  unfold seek_position_1_svc
  cases hk : find_open_by_fd s fd with
  | none => exact h
  | some k =>
    simp only
    split_ifs with h1
    · exact h
    · exact h.cinv_set_pos k _ s rfl (by omega) (by omega)

theorem CInv.cinv_open_file {L : Layout} {s : State} (u f : List Nat) (h : CInv s) :
    CInv (open_file_1_svc L s u f).1 := by
  rcases open_file_cases L s u f with ⟨i, j, k, hu, hf, hst, hk⟩ | ⟨m, _, e⟩
  · rw [open_file_ok L s u f i j k hu hf hst hk]
    intro k' hu'
    by_cases e : k' = k
    · subst e
      simp only [Function.update_same]
      rw [file_max_size_eq]; omega
    · simp only [Function.update_noteq e] at hu' ⊢
      exact h k' hu'
  · rw [e]; exact h

theorem CInv.cinv_close_file {s : State} (fd : Int) (h : CInv s) :
    CInv (close_file_1_svc s fd).1 := by
  intro k hu
  by_cases e : (s.open_table k).fd = fd
  · cases hk : find_open_by_fd s fd with
    | none =>
      unfold close_file_1_svc at hu ⊢
      rw [hk] at hu ⊢
      exact h k hu
    | some k1 =>
      rw [close_file_ok s fd k1 hk] at hu ⊢
      by_cases e1 : k = k1
      · subst e1; simp at hu
      · simp only [Function.update_noteq e1] at hu ⊢
        exact h k hu
  · rw [close_other_entry s fd k e] at hu ⊢
    exact h k hu

theorem CInv.cinv_serve {L : Layout} {s : State} (r : Request) (hr : small_counts r)
    (h : CInv s) : CInv (serve L s r) := by
  cases r with
  | create_file u f => exact h.cinv_of_table_eq (create_file_table L s u f).1
  | open_file u f => exact h.cinv_open_file u f
  | read_file fd n => exact h.cinv_read_file fd n hr
  | write_file fd n b => exact h.cinv_write_file fd n b hr
  | seek_position fd pos => exact h.cinv_seek_position fd pos
  | close_file fd => exact h.cinv_close_file fd
  | delete_file u f => exact h.cinv_of_table_eq (delete_file_table L s u f).1
  | list_files u => exact h.cinv_of_table_eq (by rw [serve, list_files_state])

/-- Without the overflow the cursor invariant holds: in every state reached
from a fresh image by requests whose read and write counts are at most
`INT_MAX - file_max_size`, every session in use has a cursor in
`[0, file_max_size]`. -/
theorem cursor_in_file_small_counts {L : Layout} {s : State}
    (h : ReachableBy L small_counts s) : CInv s := by
  induction h with
  | init => intro k hu; exact absurd rfl hu
  | step s r _ hr ih => exact ih.cinv_serve r hr

/-! ## C22: the bitmap and the extents -/

theorem BInv.binv_of_eq {s t : State} (h : BInv s) (hu : t.users = s.users)
    (hb : t.block_used = s.block_used) : BInv t := by
  constructor
  · intro b; simpa [slot_start, hu, hb] using h.exact b
  · intro i j; simpa [slot_start, slot_name, hu] using h.named i j
  · intro i; simpa [slot_start, hu] using h.idle i
  · intro i j; simpa [slot_start, hu] using h.bounded i j

/-- Rewriting slot `(i, j)` keeps the facts about the bitmap, when the new
bitmap marks the extent of the new slot and the extents of the other slots. -/
theorem BInv.binv_slot {s t : State} (h : BInv s) (i j : Nat) (nm : List Nat) (st : Int)
    (hf : ∀ i' j', (t.users i').files j' =
      if i' = i ∧ j' = j then file_meta_t.mk nm st else (s.users i').files j')
    (hin : ∀ i', (t.users i').in_use = (s.users i').in_use)
    (hnew : 2 ≤ st → nm ≠ [] ∧ (s.users i).in_use ≠ 0 ∧ i < MAX_USERS ∧ j < MAX_FILES_USER)
    (hbu : ∀ b, t.block_used b ≠ 0 ↔
      (2 ≤ st ∧ st ≤ b ∧ b < st + 64) ∨
      ∃ i' j', ¬ (i' = i ∧ j' = j) ∧ 2 ≤ slot_start s i' j' ∧ slot_start s i' j' ≤ b ∧
        b < slot_start s i' j' + 64) :
    BInv t := by
  have hst : ∀ i' j', slot_start t i' j' = if i' = i ∧ j' = j then st else slot_start s i' j' := by
    intro i' j'
    unfold slot_start
    rw [hf]
    split_ifs <;> rfl
  have hnm : ∀ i' j', slot_name t i' j' = if i' = i ∧ j' = j then nm else slot_name s i' j' := by
    intro i' j'
    unfold slot_name
    rw [hf]
    split_ifs <;> rfl
  constructor
  · intro b
    rw [hbu]
    constructor
    · rintro (⟨h1, h2, h3⟩ | ⟨i', j', hne, h1, h2, h3⟩)
      · exact ⟨i, j, by rw [hst, if_pos ⟨rfl, rfl⟩]; exact ⟨h1, h2, h3⟩⟩
      · exact ⟨i', j', by rw [hst, if_neg hne]; exact ⟨h1, h2, h3⟩⟩
    · rintro ⟨i', j', h1⟩
      rw [hst] at h1
      by_cases hc : i' = i ∧ j' = j
      · rw [if_pos hc] at h1; exact Or.inl h1
      · rw [if_neg hc] at h1; exact Or.inr ⟨i', j', hc, h1⟩
  · intro i' j' h1
    rw [hst] at h1
    rw [hnm]
    by_cases hc : i' = i ∧ j' = j
    · rw [if_pos hc] at h1 ⊢; exact (hnew h1).1
    · rw [if_neg hc] at h1 ⊢; exact h.named i' j' h1
  · intro i' hi' j'
    rw [hin] at hi'
    rw [hst]
    by_cases hc : i' = i ∧ j' = j
    · rw [if_pos hc]
      by_contra hcon
      have := (hnew (by omega)).2.1
      rw [← hc.1] at this
      exact this hi'
    · rw [if_neg hc]; exact h.idle i' hi' j'
  · intro i' j' h1
    rw [hst] at h1
    by_cases hc : i' = i ∧ j' = j
    · rw [if_pos hc] at h1
      rw [hc.1, hc.2]
      exact (hnew h1).2.2
    · rw [if_neg hc] at h1; exact h.bounded i' j' h1

/-- The user `find_or_create_user` returns is in use afterwards and lies
inside the table. -/
theorem find_or_create_user_in_use (L : Layout) (s : State) (u : List Nat) (i : Nat)
    (h : (find_or_create_user L s u).2 = some i) :
    ((find_or_create_user L s u).1.users i).in_use ≠ 0 ∧ i < MAX_USERS := by
  rcases find_or_create_user_some L s u i h with ⟨h1, e⟩ | ⟨_, h2, e⟩
  · rw [e]
    unfold find_user at h1
    obtain ⟨_, hi, hp, _⟩ := first_index_some _ _ _ _ h1
    simp only [decide_eq_true_eq] at hp
    exact ⟨hp.1, by omega⟩
  · rw [e]
    obtain ⟨_, hi, _, _⟩ := first_index_some _ _ _ _ h2
    simp only [save_metadata_users, Function.update_same]
    exact ⟨by decide, by omega⟩

theorem BInv.binv_find_or_create_user {L : Layout} {s : State} (u : List Nat) (h : BInv s) :
    BInv (find_or_create_user L s u).1 := by
  cases hr : (find_or_create_user L s u).2 with
  | none =>
    have e : (find_or_create_user L s u).1 = s := by
      unfold find_or_create_user at hr ⊢
      split at hr
      · cases hr
      · split at hr
        · cases hr
        · rfl
    rw [e]; exact h
  | some i =>
    rcases find_or_create_user_some L s u i hr with ⟨_, e⟩ | ⟨_, h2, e⟩
    · rw [e]; exact h
    · rw [e]
      obtain ⟨_, _, hp, _⟩ := first_index_some _ _ _ _ h2
      simp only [decide_eq_true_eq] at hp
      have hidle := h.idle i hp
      have hst : ∀ i' j', slot_start
          (save_metadata L
            { s with
              users := Function.update s.users i
                (user_meta_t.mk (strncpy u (L.USER_NAME_SIZE - 1)) 1 zero_files) }) i' j' =
          if i' = i then 0 else slot_start s i' j' := by
        intro i' j'
        unfold slot_start
        simp only [save_metadata_users]
        by_cases hc : i' = i
        · subst hc; simp [zero_files]
        · simp [hc, Function.update_noteq hc]
      constructor
      · intro b
        simp only [save_metadata_block_used]
        rw [h.exact b]
        constructor
        · rintro ⟨i', j', h1, h2', h3⟩
          have hne : i' ≠ i := by
            intro hc; subst hc; have := hidle j'; omega
          exact ⟨i', j', by rw [hst, if_neg hne]; exact ⟨h1, h2', h3⟩⟩
        · rintro ⟨i', j', h1⟩
          rw [hst] at h1
          by_cases hc : i' = i
          · rw [if_pos hc] at h1; omega
          · rw [if_neg hc] at h1; exact ⟨i', j', h1⟩
      · intro i' j' h1
        rw [hst] at h1
        by_cases hc : i' = i
        · rw [if_pos hc] at h1; omega
        · rw [if_neg hc] at h1
          have := h.named i' j' h1
          unfold slot_name at this ⊢
          simp only [save_metadata_users, Function.update_noteq hc]
          exact this
      · intro i' hi' j'
        rw [hst]
        by_cases hc : i' = i
        · rw [if_pos hc]; omega
        · rw [if_neg hc]
          simp only [save_metadata_users, Function.update_noteq hc] at hi'
          exact h.idle i' hi' j'
      · intro i' j' h1
        rw [hst] at h1
        by_cases hc : i' = i
        · rw [if_pos hc] at h1; omega
        · rw [if_neg hc] at h1; exact h.bounded i' j' h1

theorem BInv.binv_create_file_meta {L : Layout} {s : State} (i : Nat) (f : List Nat)
    (h : BInv s) : BInv (create_file_meta L s i f).1 := by
  cases hj : (create_file_meta L s i f).2.1 with
  | none =>
    have e : (create_file_meta L s i f).1 = s := by
      unfold create_file_meta at hj ⊢
      split at hj
      · rfl
      · split at hj
        · cases hj
        · rfl
    rw [e]; exact h
  | some j =>
    obtain ⟨_, hpick, e⟩ := create_file_meta_some L s i f j hj
    obtain ⟨_, _, hp, _⟩ := first_index_some _ _ _ _ hpick
    simp only [decide_eq_true_eq] at hp
    have hold : slot_start s i j < 2 := by
      by_contra hcon
      have hn := h.named i j (by omega)
      unfold slot_start at hcon
      unfold slot_name at hn
      rcases hp with hp | hp
      · omega
      · exact hn hp
    rw [e]
    refine h.binv_slot i j _ (-1) (fun i' j' => set_file_files s i j _ i' j')
      (fun i' => set_file_in_use s i j _ i') (fun h2 => by omega) ?_
    intro b
    rw [set_file_block_used, h.exact b]
    constructor
    · rintro ⟨i', j', h1, h2, h3⟩
      right
      refine ⟨i', j', ?_, h1, h2, h3⟩
      rintro ⟨e1, e2⟩
      subst e1; subst e2
      omega
    · rintro (⟨h1, _⟩ | ⟨i', j', _, h1, h2, h3⟩)
      · omega
      · exact ⟨i', j', h1, h2, h3⟩

theorem BInv.binv_create_file {L : Layout} {s : State} (u f : List Nat)
    (hreq : strncpy f (L.FILE_NAME_SIZE - 1) ≠ []) (h : BInv s) :
    BInv (create_file_1_svc L s u f).1 := by
  have h1 := h.binv_find_or_create_user (L := L) u
  unfold create_file_1_svc
  simp only []
  split
  · exact h1
  · rename_i i hi
    have h2 := h1.binv_create_file_meta (L := L) i f
    obtain ⟨hiu, hilt⟩ := find_or_create_user_in_use L s u i hi
    split
    · exact h2
    · rename_i j hj
      obtain ⟨_, hpick, e⟩ := create_file_meta_some L _ i f j hj
      obtain ⟨_, hjlt, _, _⟩ := first_index_some _ _ _ _ hpick
      rcases allocate_blocks_cases L
          (SSNFS.create_file_meta L (SSNFS.find_or_create_user L s u).1 i f).1
        with ⟨_, e3⟩ | ⟨st, hscan, e3⟩
      · rw [e3]
        simp only [show ((-1 : Int) < 0) from by decide, if_true]
        exact h2
      · obtain ⟨hst2, _, _⟩ := allocate_scan_start _ st hscan
        rw [e3]
        simp only []
        rw [if_neg (by omega)]
        have hslot : ((SSNFS.create_file_meta L (SSNFS.find_or_create_user L s u).1 i f).1.users
            i).files j = file_meta_t.mk (strncpy f (L.FILE_NAME_SIZE - 1)) (-1) := by
          rw [e, set_file_files, if_pos ⟨rfl, rfl⟩]
        refine h2.binv_slot i j (strncpy f (L.FILE_NAME_SIZE - 1)) st ?_ ?_ ?_ ?_
        · intro i' j'
          simp only [save_metadata_users]
          rw [set_file_files]
          simp only [save_metadata_users, hslot]
        · intro i'
          simp only [save_metadata_users]
          rw [set_file_in_use]
          rfl
        · intro _
          refine ⟨hreq, ?_, hilt, by omega⟩
          rw [e, set_file_in_use]
          exact hiu
        · intro b
          simp only [save_metadata_block_used, set_file_block_used, BLOCKS_PER_FILE_eq]
          by_cases hb : st ≤ b ∧ b < st + 64
          · rw [if_pos hb]
            exact ⟨fun _ => Or.inl ⟨hst2, hb.1, hb.2⟩, fun _ => by decide⟩
          · rw [if_neg hb, h2.exact b]
            constructor
            · rintro ⟨i', j', h1', h2', h3'⟩
              right
              refine ⟨i', j', ?_, h1', h2', h3'⟩
              rintro ⟨e1, e2⟩
              subst e1; subst e2
              unfold slot_start at h1'
              rw [hslot] at h1'
              simp only [] at h1'
              omega
            · rintro (⟨_, h2', h3'⟩ | ⟨i', j', _, h1', h2', h3'⟩)
              · exact absurd ⟨h2', h3'⟩ hb
              · exact ⟨i', j', h1', h2', h3'⟩

theorem BInv.binv_delete_file {L : Layout} {s : State} (u f : List Nat)
    (hreq : strncpy f L.FILE_NAME_SIZE ≠ []) (hinv : Inv s) (hz : ZInv s) (h : BInv s) :
    BInv (delete_file_1_svc L s u f).1 := by
  unfold delete_file_1_svc
  split
  · exact h
  · split
    · exact h
    · rename_i i _ _ j hj
      split
      · exact h
      · obtain ⟨_, h0, hcmp, _⟩ := find_file_some L _ _ _ hj
        rw [strncmp_eq_zero_iff] at hcmp
        have hname : slot_name s i j ≠ [] := by
          intro hc
          unfold slot_name at hc
          rw [hc, strncpy_nil] at hcmp
          exact hreq hcmp.symm
        have hst : 2 ≤ slot_start s i j ∧ slot_start s i j + 64 ≤ 32768 := by
          have hz0 := hz i j
          rcases hinv.slot i j with e | e | e
          · unfold slot_start at e; omega
          · exact absurd (hz0 e) hname
          · exact e
        refine h.binv_slot i j [] (-1) ?_ ?_ (fun h2 => by omega) ?_
        · intro i' j'
          simp only [save_metadata_users]
          rw [set_file_files, free_blocks_users]
        · intro i'
          simp only [save_metadata_users]
          rw [set_file_in_use, free_blocks_users]
        · intro b
          rw [save_metadata_block_used, set_file_block_used,
            free_blocks_block_used L s _ h0 b]
          have hss : ((s.users i).files j).start_block = slot_start s i j := rfl
          rw [hss]
          by_cases hb : slot_start s i j ≤ b ∧ b < slot_start s i j + 64 ∧ b < 32768
          · rw [if_pos hb]
            constructor
            · intro hc; exact absurd rfl hc
            · rintro (⟨h1, _⟩ | ⟨i', j', hne, h1, h2, h3⟩)
              · omega
              · exfalso
                have hd := hinv.disjoint i' j' i j
                  (by
                    by_cases e1 : i' = i
                    · right; intro e2; exact hne ⟨e1, e2⟩
                    · left; exact e1)
                  h1 hst.1
                omega
          · rw [if_neg hb, h.exact b]
            constructor
            · rintro ⟨i', j', h1, h2, h3⟩
              right
              refine ⟨i', j', ?_, h1, h2, h3⟩
              rintro ⟨e1, e2⟩
              subst e1; subst e2
              omega
            · rintro (⟨h1, _⟩ | ⟨i', j', _, h1, h2, h3⟩)
              · omega
              · exact ⟨i', j', h1, h2, h3⟩

theorem open_file_block_used (L : Layout) (s : State) (u f : List Nat) :
    (open_file_1_svc L s u f).1.block_used = s.block_used := by
  unfold open_file_1_svc
  split
  · rfl
  · split
    · rfl
    · split
      · rfl
      · split <;> rfl

theorem read_file_block_used (s : State) (fd n : Int) :
    (read_file_1_svc s fd n).1.block_used = s.block_used := by
  unfold read_file_1_svc
  split
  · rfl
  · split
    · rfl
    · split
      · rfl
      · simp only
        split
        · rfl
        · split <;> rfl

theorem write_file_block_used (s : State) (fd n : Int) (b : List Nat) :
    (write_file_1_svc s fd n b).1.block_used = s.block_used := by
  unfold write_file_1_svc
  split
  · rfl
  · split
    · rfl
    · simp only
      split
      · rfl
      · split <;> rfl

theorem seek_position_block_used (s : State) (fd pos : Int) :
    (seek_position_1_svc s fd pos).1.block_used = s.block_used := by
  unfold seek_position_1_svc
  split
  · rfl
  · split <;> rfl

theorem close_file_block_used (s : State) (fd : Int) :
    (close_file_1_svc s fd).1.block_used = s.block_used := by
  unfold close_file_1_svc
  split <;> rfl

theorem BInv.binv_serve {L : Layout} {s : State} (r : Request) (hr : stored_names L r)
    (hinv : Inv s) (hz : ZInv s) (h : BInv s) : BInv (serve L s r) := by
  cases r with
  | create_file u f => exact h.binv_create_file u f hr
  | open_file u f =>
    exact h.binv_of_eq (open_file_users L s u f) (open_file_block_used L s u f)
  | read_file fd n => exact h.binv_of_eq (read_file_users s fd n) (read_file_block_used s fd n)
  | write_file fd n b =>
    exact h.binv_of_eq (write_file_users s fd n b) (write_file_block_used s fd n b)
  | seek_position fd pos =>
    exact h.binv_of_eq (seek_position_users s fd pos) (seek_position_block_used s fd pos)
  | close_file fd => exact h.binv_of_eq (close_file_users s fd) (close_file_block_used s fd)
  | delete_file u f => exact h.binv_delete_file u f hr hinv hz
  | list_files u =>
    have e : serve L s (Request.list_files u) = s := list_files_state L s u
    rw [e]; exact h

theorem BInv.binv_init (L : Layout) : BInv (init_disk L) := by
  constructor
  · intro b
    constructor
    · intro hc; exact absurd rfl hc
    · rintro ⟨i, j, h1, _⟩
      change (2 : Int) ≤ 0 at h1
      omega
  · intro i j h1
    change (2 : Int) ≤ 0 at h1
    omega
  · intro i _ j
    change (0 : Int) < 2
    omega
  · intro i j h1
    change (2 : Int) ≤ 0 at h1
    omega

theorem ReachableBy.by_binv {L : Layout} {s : State}
    (h : ReachableBy L (stored_names L) s) : BInv s := by
  induction h with
  | init => exact BInv.binv_init L
  | step s r hs hr ih => exact ih.binv_serve r hr hs.by_inv hs.by_zinv

set_option maxRecDepth 100000 in
/-- C22 (counterexample). Blocks 0 and 1 are the reserved blocks, and their
flags are never set: on a fresh image, and after `create("alice","F")`, which
marks the blocks from 2 on, `block_used[0]` and `block_used[1]` are 0. -/
theorem reserved_blocks_not_marked :
    (init_disk layout32).block_used 0 = 0 ∧ (init_disk layout32).block_used 1 = 0 ∧
    Reachable layout32 state_F ∧
    state_F.block_used 0 = 0 ∧ state_F.block_used 1 = 0 ∧ state_F.block_used 2 = 1 :=
  ⟨by decide, by decide, state_F_reachable, by decide, by decide, by decide⟩

/-- C22 (amended). In every state reached from a fresh image by requests whose
create and delete file names are not empty, for every block index `b`: the
flag `block_used[b]` is set exactly when `b` lies in the extent of a
created, undeleted file, and then in the extent of only one; the flags of the
reserved blocks 0 and 1 are not set. -/
theorem bitmap_matches_extents (L : Layout) (s : State) (b : Int)
    (hr : ReachableBy L (stored_names L) s) :
    (s.block_used b ≠ 0 ↔
      ∃ i j, holds_file s i j ∧ slot_start s i j ≤ b ∧
        b < slot_start s i j + BLOCKS_PER_FILE) ∧
    (∀ i j i' j', holds_file s i j → slot_start s i j ≤ b →
      b < slot_start s i j + BLOCKS_PER_FILE → holds_file s i' j' → slot_start s i' j' ≤ b →
      b < slot_start s i' j' + BLOCKS_PER_FILE → i = i' ∧ j = j') ∧
    s.block_used 0 = 0 ∧ s.block_used 1 = 0 := by
  have hinv : Inv s := hr.by_inv
  have hb : BInv s := hr.by_binv
  have hold : ∀ i j, holds_file s i j ↔ 2 ≤ slot_start s i j := by
    intro i j
    unfold holds_file
    rcases hinv.slot i j with e | e | e <;> omega
  have hzero : ∀ c : Int, c < 2 → s.block_used c = 0 := by
    intro c hc
    by_contra hne
    obtain ⟨i, j, h1, h2, _⟩ := (hb.exact c).mp hne
    omega
  rw [BLOCKS_PER_FILE_eq]
  refine ⟨?_, ?_, hzero 0 (by omega), hzero 1 (by omega)⟩
  · rw [hb.exact b]
    constructor
    · rintro ⟨i, j, h1, h2, h3⟩
      exact ⟨i, j, (hold i j).mpr h1, h2, h3⟩
    · rintro ⟨i, j, h1, h2, h3⟩
      exact ⟨i, j, (hold i j).mp h1, h2, h3⟩
  · intro i j i' j' h1 h2 h3 h1' h2' h3'
    by_contra hne
    have hd := hinv.disjoint i j i' j'
      (by
        by_cases e1 : i = i'
        · right; intro e2; exact hne ⟨e1, e2⟩
        · left; exact e1)
      ((hold i j).mp h1) ((hold i' j').mp h1')
    omega

set_option maxRecDepth 100000 in
theorem bitmap_matches_extents_witness :
    ReachableBy layout32 (stored_names layout32) state_F_G ∧
    holds_file state_F_G 0 1 ∧ slot_start state_F_G 0 1 = 66 ∧
    (state_F_G.block_used 100 ≠ 0 ↔
      ∃ i j, holds_file state_F_G i j ∧ slot_start state_F_G i j ≤ 100 ∧
        100 < slot_start state_F_G i j + BLOCKS_PER_FILE) ∧
    state_F_G.block_used 100 = 1 :=
  ⟨ReachableBy.by_serve_all ReachableBy.init _ (by decide), by decide, by decide,
    (bitmap_matches_extents layout32 state_F_G 100
      (ReachableBy.by_serve_all ReachableBy.init _ (by decide))).1, by decide⟩

/-! ## C24: extents that are lost -/

theorem first_index_none_of (p : Nat → Bool) (lo n : Nat)
    (h : ∀ m, lo ≤ m → m < lo + n → p m = false) : first_index p lo n = none := by
  cases hk : first_index p lo n with
  | none => rfl
  | some k =>
    obtain ⟨h1, h2, h3, _⟩ := first_index_some p n lo k hk
    rw [h k h1 h2] at h3
    cases h3

/-- On a bitmap whose used blocks among the allocatable ones are the first `K`
extents, the scan of `allocate_blocks` finds the extent behind them. -/
theorem allocate_scan_prefix (bu : Int → Int) (K : Int) (h0 : 0 ≤ K) (h1 : K ≤ 510)
    (hb : ∀ b, 2 ≤ b → b < 32768 → (bu b = 0 ↔ 2 + 64 * K ≤ b)) :
    allocate_scan bu (TOTAL_BLOCKS - 2).toNat 2 0 (-1) = some (2 + 64 * K) := by
  obtain ⟨r, hr, hr2, hrle, hrfree⟩ :=
    allocate_scan_first_fit bu (2 + 64 * K) (by omega) (by omega)
      (fun b hb1 hb2 => (hb b (by omega) (by omega)).mpr hb1)
  obtain ⟨_, hend, _⟩ := allocate_scan_start bu r hr
  have := (hb r hr2 (by omega)).mp (hrfree r (le_refl _) (by omega))
  have e : r = 2 + 64 * K := by omega
  rw [hr, e]

/-- When the first 511 extents are marked used, the scan finds nothing: the
62 blocks behind them are too few. -/
theorem allocate_scan_full (bu : Int → Int)
    (hb : ∀ b, 2 ≤ b → b < 32768 → (bu b = 0 ↔ 2 + 64 * 511 ≤ b)) :
    allocate_scan bu (TOTAL_BLOCKS - 2).toNat 2 0 (-1) = none := by
  cases hr : allocate_scan bu (TOTAL_BLOCKS - 2).toNat 2 0 (-1) with
  | none => rfl
  | some r =>
    obtain ⟨h2, hend, hfree⟩ := allocate_scan_start bu r hr
    have := (hb r h2 (by omega)).mp (hfree r (le_refl _) (by omega))
    omega

/-- A create that finds no file of its name takes slot 9 when that slot is
free, or has the empty name, and gives it the extent behind the `K` marked
ones. -/
theorem churn_create (s : State) (nm f : List Nat) (st K : Int) (h : Churn nm st K s)
    (h0 : 0 ≤ K) (h1 : K ≤ 510) (hfree : st < 0 ∨ nm = [])
    (hf : ∀ j, j < 9 → strncmp [48 + j] f layout32.FILE_NAME_SIZE ≠ 0)
    (hlast : st < 0 ∨ strncmp nm f layout32.FILE_NAME_SIZE ≠ 0) :
    (create_file_1_svc layout32 s alice f).2.success = 1 ∧
    Churn (strncpy f (layout32.FILE_NAME_SIZE - 1)) (2 + 64 * K) (K + 1)
      (create_file_1_svc layout32 s alice f).1 := by
  have e1 : find_or_create_user layout32 s alice = (s, some 0) := by
    unfold find_or_create_user
    rw [h.user]
  have hnone : find_file layout32 (s.users 0) f = none := by
    unfold find_file
    apply first_index_none_of
    intro m _ hm
    simp only [decide_eq_false_iff_not, ge_iff_le, not_and]
    intro hs
    by_cases hm9 : m < 9
    · have := (h.files m hm9).1
      unfold slot_name at this
      rw [this]
      exact hf m hm9
    · have e : m = 9 := by unfold MAX_FILES_USER at hm; omega
      subst e
      have hl := h.last
      unfold slot_name slot_start at hl
      rw [hl.1]
      rw [hl.2] at hs
      rcases hlast with c | c
      · omega
      · exact c
  have hpick : first_index
      (fun j => decide (((s.users 0).files j).start_block < 0 ∨
        ((s.users 0).files j).file_name = [])) 0 MAX_FILES_USER = some 9 := by
    apply first_index_first _ _ _ _ (Nat.zero_le _) (by decide)
    · simp only [decide_eq_true_eq]
      have hl := h.last
      unfold slot_name slot_start at hl
      rw [hl.1, hl.2]
      exact hfree
    · intro m _ hm
      simp only [decide_eq_false_iff_not, not_or, not_lt]
      have := h.files m hm
      unfold slot_name slot_start at this
      rw [this.1]
      exact ⟨this.2, by simp⟩
  have e2 : create_file_meta layout32 s 0 f =
      (set_file s 0 9 (file_meta_t.mk (strncpy f (layout32.FILE_NAME_SIZE - 1)) (-1)),
        some 9, 0) := by
    unfold create_file_meta
    rw [hnone]
    simp only
    rw [hpick]
  have hscan := allocate_scan_prefix s.block_used K h0 h1 h.bitmap
  have e3 : allocate_blocks layout32
      (set_file s 0 9 (file_meta_t.mk (strncpy f (layout32.FILE_NAME_SIZE - 1)) (-1))) =
      (save_metadata layout32
        { set_file s 0 9 (file_meta_t.mk (strncpy f (layout32.FILE_NAME_SIZE - 1)) (-1)) with
          block_used := fun j =>
            if 2 + 64 * K ≤ j ∧ j < 2 + 64 * K + BLOCKS_PER_FILE then 1
            else s.block_used j }, 2 + 64 * K) := by
    unfold allocate_blocks
    rw [set_file_block_used, hscan]
  have e : create_file_1_svc layout32 s alice f =
      (save_metadata layout32
        (set_file
          (save_metadata layout32
            { set_file s 0 9
                (file_meta_t.mk (strncpy f (layout32.FILE_NAME_SIZE - 1)) (-1)) with
              block_used := fun j =>
                if 2 + 64 * K ≤ j ∧ j < 2 + 64 * K + BLOCKS_PER_FILE then 1
                else s.block_used j })
          0 9 (file_meta_t.mk (strncpy f (layout32.FILE_NAME_SIZE - 1)) (2 + 64 * K))),
        ⟨1, "File created"⟩) := by
    unfold create_file_1_svc
    simp only [e1, e2, e3]
    rw [if_neg (by omega)]
    have hslot : (((set_file s 0 9
        (file_meta_t.mk (strncpy f (layout32.FILE_NAME_SIZE - 1)) (-1))).users 0).files
          9).file_name = strncpy f (layout32.FILE_NAME_SIZE - 1) := by
      rw [set_file_files, if_pos ⟨rfl, rfl⟩]
    simp only [save_metadata_users, hslot]
  rw [e]
  refine ⟨rfl, ?_⟩
  have hfiles : ∀ i j, ((save_metadata layout32
        (set_file
          (save_metadata layout32
            { set_file s 0 9
                (file_meta_t.mk (strncpy f (layout32.FILE_NAME_SIZE - 1)) (-1)) with
              block_used := fun j =>
                if 2 + 64 * K ≤ j ∧ j < 2 + 64 * K + BLOCKS_PER_FILE then 1
                else s.block_used j })
          0 9 (file_meta_t.mk (strncpy f (layout32.FILE_NAME_SIZE - 1))
            (2 + 64 * K)))).users i).files j =
      if i = 0 ∧ j = 9 then
        file_meta_t.mk (strncpy f (layout32.FILE_NAME_SIZE - 1)) (2 + 64 * K)
      else (s.users i).files j := by
    intro i j
    simp only [save_metadata_users]
    rw [set_file_files]
    by_cases hc : i = 0 ∧ j = 9
    · rw [if_pos hc, if_pos hc]
    · rw [if_neg hc, if_neg hc]
      simp only [save_metadata_users]
      rw [set_file_files, if_neg hc]
  constructor
  · rw [find_user_congr layout32 s _ alice]
    · exact h.user
    · intro m
      simp only [save_metadata_users]
      rw [set_file_in_use, set_file_user_name]
      simp only [save_metadata_users]
      rw [set_file_in_use, set_file_user_name]
      exact ⟨rfl, rfl⟩
  · intro j hj
    unfold slot_name slot_start
    rw [hfiles, if_neg (by omega)]
    exact h.files j hj
  · unfold slot_name slot_start
    rw [hfiles, if_pos ⟨rfl, rfl⟩]
    exact ⟨rfl, rfl⟩
  · intro i j hij
    unfold slot_start at hij
    rw [hfiles] at hij
    by_cases hc : i = 0 ∧ j = 9
    · exact ⟨hc.1, by omega⟩
    · rw [if_neg hc] at hij
      exact h.only i j hij
  · intro b hb1 hb2
    simp only [save_metadata_block_used, set_file_block_used, BLOCKS_PER_FILE_eq]
    by_cases hc : 2 + 64 * K ≤ b ∧ b < 2 + 64 * K + 64
    · rw [if_pos hc]
      constructor
      · intro hcon; exact absurd hcon (by decide)
      · intro hcon; omega
    · rw [if_neg hc, h.bitmap b hb1 hb2]
      omega
  · intro k hk
    simp only [save_metadata_open_table, set_file_open_table]
    exact h.closed k hk

/-- A delete of the file in slot 9, whose extent is the last marked one,
frees that extent and the slot. -/
theorem churn_delete (s : State) (nm f : List Nat) (K : Int) (h : Churn nm (2 + 64 * K) (K + 1) s)
    (h0 : 0 ≤ K) (h1 : K ≤ 510)
    (hf : ∀ j, j < 9 → strncmp [48 + j] f layout32.FILE_NAME_SIZE ≠ 0)
    (hlast : strncmp nm f layout32.FILE_NAME_SIZE = 0) :
    (delete_file_1_svc layout32 s alice f).2.out_msg = "File deleted" ∧
    Churn [] (-1) K (delete_file_1_svc layout32 s alice f).1 := by
  have hl := h.last
  unfold slot_name slot_start at hl
  have hfind : find_file layout32 (s.users 0) f = some 9 := by
    unfold find_file
    apply first_index_first _ _ _ _ (Nat.zero_le _) (by decide)
    · simp only [decide_eq_true_eq, ge_iff_le]
      rw [hl.1, hl.2]
      exact ⟨by omega, hlast⟩
    · intro m _ hm
      simp only [decide_eq_false_iff_not, ge_iff_le, not_and]
      intro _
      have := (h.files m hm).1
      unfold slot_name at this
      rw [this]
      exact hf m hm
  have hsess : first_index
      (fun k => decide ((s.open_table k).in_use ≠ 0 ∧
        strncmp (s.open_table k).user_name alice layout32.USER_NAME_SIZE = 0 ∧
        strncmp (s.open_table k).file_name f layout32.FILE_NAME_SIZE = 0))
      0 MAX_OPEN_FILES = none := by
    apply first_index_none_of
    intro m _ hm
    simp only [decide_eq_false_iff_not, not_and]
    intro hu
    exact absurd (h.closed m (by omega)) hu
  have e : delete_file_1_svc layout32 s alice f =
      (save_metadata layout32
        (set_file (free_blocks layout32 s (2 + 64 * K)) 0 9 (file_meta_t.mk [] (-1))),
        ⟨"File deleted"⟩) := by
    unfold delete_file_1_svc
    rw [h.user]
    simp only
    rw [hfind]
    simp only
    rw [hsess, hl.2]
  rw [e]
  refine ⟨rfl, ?_⟩
  have hfiles : ∀ i j, ((save_metadata layout32
        (set_file (free_blocks layout32 s (2 + 64 * K)) 0 9
          (file_meta_t.mk [] (-1)))).users i).files j =
      if i = 0 ∧ j = 9 then file_meta_t.mk [] (-1) else (s.users i).files j := by
    intro i j
    simp only [save_metadata_users]
    rw [set_file_files, free_blocks_users]
  constructor
  · rw [find_user_congr layout32 s _ alice]
    · exact h.user
    · intro m
      simp only [save_metadata_users]
      rw [set_file_in_use, set_file_user_name, free_blocks_users]
      exact ⟨rfl, rfl⟩
  · intro j hj
    unfold slot_name slot_start
    rw [hfiles, if_neg (by omega)]
    exact h.files j hj
  · unfold slot_name slot_start
    rw [hfiles, if_pos ⟨rfl, rfl⟩]
    exact ⟨rfl, rfl⟩
  · intro i j hij
    unfold slot_start at hij
    rw [hfiles] at hij
    by_cases hc : i = 0 ∧ j = 9
    · exact ⟨hc.1, by omega⟩
    · rw [if_neg hc] at hij
      exact h.only i j hij
  · intro b hb1 hb2
    rw [save_metadata_block_used, set_file_block_used,
      free_blocks_block_used layout32 s _ (by omega) b]
    by_cases hc : 2 + 64 * K ≤ b ∧ b < 2 + 64 * K + 64 ∧ b < 32768
    · rw [if_pos hc]
      exact ⟨fun _ => hc.1, fun _ => rfl⟩
    · rw [if_neg hc, h.bitmap b hb1 hb2]
      omega
  · intro k hk
    simp only [save_metadata_open_table, set_file_open_table, free_blocks_open_table]
    exact h.closed k hk

/-- With the first 511 extents marked used, a create that takes slot 9 fails
with "No space on disk" and leaves the name in the slot, with no extent. -/
theorem churn_full (s : State) (nm f : List Nat) (st : Int) (h : Churn nm st 511 s)
    (hfree : st < 0 ∨ nm = [])
    (hf : ∀ j, j < 9 → strncmp [48 + j] f layout32.FILE_NAME_SIZE ≠ 0)
    (hlast : st < 0 ∨ strncmp nm f layout32.FILE_NAME_SIZE ≠ 0) :
    (create_file_1_svc layout32 s alice f).2 = ⟨-1, "No space on disk"⟩ ∧
    slot_name (create_file_1_svc layout32 s alice f).1 0 9
      = strncpy f (layout32.FILE_NAME_SIZE - 1) ∧
    slot_start (create_file_1_svc layout32 s alice f).1 0 9 = -1 := by
  have e1 : find_or_create_user layout32 s alice = (s, some 0) := by
    unfold find_or_create_user
    rw [h.user]
  have hnone : find_file layout32 (s.users 0) f = none := by
    unfold find_file
    apply first_index_none_of
    intro m _ hm
    simp only [decide_eq_false_iff_not, ge_iff_le, not_and]
    intro hs
    by_cases hm9 : m < 9
    · have := (h.files m hm9).1
      unfold slot_name at this
      rw [this]
      exact hf m hm9
    · have e : m = 9 := by unfold MAX_FILES_USER at hm; omega
      subst e
      have hl := h.last
      unfold slot_name slot_start at hl
      rw [hl.1]
      rw [hl.2] at hs
      rcases hlast with c | c
      · omega
      · exact c
  have hpick : first_index
      (fun j => decide (((s.users 0).files j).start_block < 0 ∨
        ((s.users 0).files j).file_name = [])) 0 MAX_FILES_USER = some 9 := by
    apply first_index_first _ _ _ _ (Nat.zero_le _) (by decide)
    · simp only [decide_eq_true_eq]
      have hl := h.last
      unfold slot_name slot_start at hl
      rw [hl.1, hl.2]
      exact hfree
    · intro m _ hm
      simp only [decide_eq_false_iff_not, not_or, not_lt]
      have := h.files m hm
      unfold slot_name slot_start at this
      rw [this.1]
      exact ⟨this.2, by simp⟩
  have e2 : create_file_meta layout32 s 0 f =
      (set_file s 0 9 (file_meta_t.mk (strncpy f (layout32.FILE_NAME_SIZE - 1)) (-1)),
        some 9, 0) := by
    unfold create_file_meta
    rw [hnone]
    simp only
    rw [hpick]
  have hscan := allocate_scan_full s.block_used h.bitmap
  have e3 : allocate_blocks layout32
      (set_file s 0 9 (file_meta_t.mk (strncpy f (layout32.FILE_NAME_SIZE - 1)) (-1))) =
      (set_file s 0 9 (file_meta_t.mk (strncpy f (layout32.FILE_NAME_SIZE - 1)) (-1)),
        -1) := by
    unfold allocate_blocks
    rw [set_file_block_used, hscan]
  have e : create_file_1_svc layout32 s alice f =
      (set_file s 0 9 (file_meta_t.mk (strncpy f (layout32.FILE_NAME_SIZE - 1)) (-1)),
        ⟨-1, "No space on disk"⟩) := by
    unfold create_file_1_svc
    simp only [e1, e2, e3]
    rw [if_pos (by decide)]
  rw [e]
  refine ⟨rfl, ?_, ?_⟩
  · unfold slot_name
    rw [set_file_files, if_pos ⟨rfl, rfl⟩]
  · unfold slot_start
    rw [set_file_files, if_pos ⟨rfl, rfl⟩]

/-- One round loses one extent: from a directory whose slot 9 has the empty
name, the three requests of `leak_round` lead to such a directory again, with
one more extent marked used. -/
theorem leak_round_step (s : State) (st K : Int) (h : Churn [] st K s) (h0 : 0 ≤ K)
    (h1 : K ≤ 510) : Churn [] (2 + 64 * K) (K + 1) (serve_all layout32 s leak_round) := by
  have a := (churn_create s [] file_x st K h h0 h1 (Or.inr rfl) (by decide)
    (Or.inr (by decide))).2
  have ex : strncpy file_x (layout32.FILE_NAME_SIZE - 1) = file_x := by decide
  rw [ex] at a
  have b := (churn_delete _ file_x file_x K a h0 h1 (by decide) (by decide)).2
  have c := (churn_create _ [] [] (-1) K b h0 h1 (Or.inl (by decide)) (by decide)
    (Or.inl (by decide))).2
  rw [strncpy_nil] at c
  exact c

/-- Every round loses one more extent, as long as there is room for it. -/
theorem leak_rounds (n : Nat) :
    ∀ (s : State) (st K : Int), Churn [] st K s → 0 ≤ K → K + (n : Int) ≤ 511 →
      ∃ st', Churn [] st' (K + (n : Int))
        (serve_all layout32 s (List.replicate n leak_round).flatten) := by
  induction n with
  | zero =>
    intro s st K h _ _
    refine ⟨st, ?_⟩
    simpa [serve_all] using h
  | succ n ih =>
    intro s st K h h0 h1
    push_cast at h1
    have hr := leak_round_step s st K h h0 (by omega)
    obtain ⟨st', h'⟩ := ih _ _ (K + 1) hr (by omega) (by omega)
    refine ⟨st', ?_⟩
    have e : K + ((n + 1 : Nat) : Int) = K + 1 + (n : Int) := by push_cast; omega
    rw [e]
    have e2 : serve_all layout32 s (List.replicate (n + 1) leak_round).flatten =
        serve_all layout32 (serve_all layout32 s leak_round)
          (List.replicate n leak_round).flatten := by
      unfold serve_all
      rw [List.replicate_succ, List.flatten_cons, List.foldl_append]
    rw [e2]
    exact h'

theorem ten_creates_stored :
    ReachableBy layout32 (stored_names layout32)
      (serve_all layout32 (init_disk layout32) ten_creates) :=
  ReachableBy.by_serve_all ReachableBy.init _ (by decide)

set_option maxRecDepth 100000 in
/-- After the ten creates the directory of alice is full, her ten extents are
the first ten, and slot 9 holds the file "9". -/
theorem ten_creates_churn :
    Churn [57] 578 10 (serve_all layout32 (init_disk layout32) ten_creates) := by
  have hb : BInv (serve_all layout32 (init_disk layout32) ten_creates) :=
    ten_creates_stored.by_binv
  have hstart : ∀ j, j < 10 →
      slot_start (serve_all layout32 (init_disk layout32) ten_creates) 0 j
        = 2 + 64 * (j : Int) := by decide
  have hidle : ∀ i, i < 10 → i ≠ 0 →
      ((serve_all layout32 (init_disk layout32) ten_creates).users i).in_use = 0 := by decide
  have honly : ∀ i j,
      2 ≤ slot_start (serve_all layout32 (init_disk layout32) ten_creates) i j →
      i = 0 ∧ j < 10 := by
    intro i j hij
    obtain ⟨hi, hj⟩ := hb.bounded i j hij
    refine ⟨?_, hj⟩
    by_contra hne
    have := hb.idle i (hidle i hi hne) j
    omega
  refine ⟨by decide, by decide, by decide, honly, ?_, by decide⟩
  intro b hb1 hb2
  constructor
  · intro hz
    by_contra hlt
    have hj : ((b - 2) / 64).toNat < 10 := by omega
    have hs := hstart _ hj
    have hused := (hb.exact b).mpr ⟨0, ((b - 2) / 64).toNat, by omega, by omega, by omega⟩
    exact hused hz
  · intro hge
    by_contra hne
    obtain ⟨i, j, h1, h2, h3⟩ := (hb.exact b).mp hne
    obtain ⟨hi, hj⟩ := honly i j h1
    subst hi
    have hs := hstart j hj
    omega

/-- After `leak_requests` the first 511 extents are marked used, and slot 9 of
alice has the empty name. -/
theorem state_disk_full_churn : ∃ st, Churn [] st 511 state_disk_full := by
  have a : Churn [57] (2 + 64 * 9) (9 + 1)
      (serve_all layout32 (init_disk layout32) ten_creates) := ten_creates_churn
  have b := (churn_delete _ [57] [57] 9 a (by decide) (by decide) (by decide) (by decide)).2
  have c := (churn_create _ [] [] (-1) 9 b (by decide) (by decide) (Or.inl (by decide))
    (by decide) (Or.inl (by decide))).2
  rw [strncpy_nil] at c
  obtain ⟨st', d⟩ := leak_rounds 501 _ _ (9 + 1) c (by decide) (by decide)
  refine ⟨st', ?_⟩
  have e : state_disk_full =
      serve_all layout32
        (serve_all layout32
          (serve_all layout32 (init_disk layout32) ten_creates)
          [Request.delete_file alice [57], Request.create_file alice []])
        (List.replicate 501 leak_round).flatten := by
    unfold state_disk_full leak_requests serve_all
    rw [List.foldl_append, List.foldl_append]
  rw [e]
  exact d

theorem state_disk_full_reachable : Reachable layout32 state_disk_full :=
  Reachable.reach_serve_all ReachableBy.init _

/-- C24 (failing input). After the requests of `leak_requests` (ten creates
that fill the directory of alice, a delete, a create with the empty name and
501 rounds of `create("alice","x")`, `delete("alice","x")`,
`create("alice","")`) at most ten slots hold a file, all of alice, but the
first 511 extents are marked used, since every round leaves the extent of the
file with the empty name marked.  The next `create("alice","x")` fails with
"No space on disk" and leaves slot 9 with the name "x" and no extent. -/
theorem create_fails_no_space :
    Reachable layout32 state_disk_full ∧
    (∀ i j, holds_file state_disk_full i j → i = 0 ∧ j < 10) ∧
    (∀ b, 2 ≤ b → b < 32768 → (state_disk_full.block_used b = 0 ↔ 32706 ≤ b)) ∧
    (create_file_1_svc layout32 state_disk_full alice file_x).2.success = -1 ∧
    (create_file_1_svc layout32 state_disk_full alice file_x).2.out_msg
      = "No space on disk" ∧
    slot_name (create_file_1_svc layout32 state_disk_full alice file_x).1 0 9 = file_x ∧
    slot_start (create_file_1_svc layout32 state_disk_full alice file_x).1 0 9 = -1 := by
  obtain ⟨st, h⟩ := state_disk_full_churn
  have hinv : Inv state_disk_full := state_disk_full_reachable.by_inv
  obtain ⟨e1, e2, e3⟩ := churn_full state_disk_full [] file_x st h (Or.inr rfl) (by decide)
    (Or.inr (by decide))
  have ex : strncpy file_x (layout32.FILE_NAME_SIZE - 1) = file_x := by decide
  rw [ex] at e2
  refine ⟨state_disk_full_reachable, ?_, ?_, by rw [e1], by rw [e1], e2, e3⟩
  · intro i j hh
    unfold holds_file at hh
    apply h.only i j
    rcases hinv.slot i j with e | e | e <;> omega
  · intro b hb1 hb2
    rw [h.bitmap b hb1 hb2]
    omega

/-! ## Without files of the empty name the disk does not run out -/

theorem Aligned.aligned_of_users_eq {s t : State} (h : Aligned s) (hu : t.users = s.users) :
    Aligned t := by
  intro i j
  simpa [slot_start, hu] using h i j

theorem Aligned.aligned_slot {s t : State} (h : Aligned s) (i j : Nat) (nm : List Nat)
    (st : Int)
    (hf : ∀ i' j', (t.users i').files j' =
      if i' = i ∧ j' = j then file_meta_t.mk nm st else (s.users i').files j')
    (hst : 2 ≤ st → (st - 2) % 64 = 0) : Aligned t := by
  intro i' j' h1
  unfold slot_start at h1 ⊢
  rw [hf] at h1 ⊢
  by_cases hc : i' = i ∧ j' = j
  · rw [if_pos hc] at h1 ⊢; exact hst h1
  · rw [if_neg hc] at h1 ⊢; exact h i' j' h1

theorem Aligned.aligned_find_or_create_user {L : Layout} {s : State} (u : List Nat)
    (h : Aligned s) : Aligned (find_or_create_user L s u).1 := by
  unfold SSNFS.find_or_create_user
  split
  · exact h
  · split
    · rename_i i _
      intro i' j h1
      unfold slot_start at h1 ⊢
      simp only [save_metadata_users] at h1 ⊢
      by_cases hi : i' = i
      · subst hi
        simp only [Function.update_same, zero_files] at h1
        omega
      · simp only [Function.update_noteq hi] at h1 ⊢
        exact h i' j h1
    · exact h

theorem Aligned.aligned_create_file_meta {L : Layout} {s : State} (i : Nat) (f : List Nat)
    (h : Aligned s) : Aligned (create_file_meta L s i f).1 := by
  unfold SSNFS.create_file_meta
  split
  · exact h
  · split
    · rename_i j _
      exact h.aligned_slot i j _ (-1) (fun i' j' => set_file_files s i j _ i' j')
        (fun h2 => by omega)
    · exact h

/-- The extent that the first-fit scan finds is aligned, when the used blocks
are the extents of the slots and these are aligned: the block before it is
the last block of an extent. -/
theorem first_fit_aligned (s : State) (hb : BInv s) (ha : Aligned s) (st : Int)
    (hscan : allocate_scan s.block_used (TOTAL_BLOCKS - 2).toNat 2 0 (-1) = some st) :
    (st - 2) % 64 = 0 := by
  obtain ⟨h2, hend, hfree⟩ := allocate_scan_start _ st hscan
  by_cases e2 : st = 2
  · rw [e2]; decide
  · have hused : s.block_used (st - 1) ≠ 0 := by
      intro hz
      obtain ⟨r, hr, _, hrle, _⟩ := allocate_scan_first_fit s.block_used (st - 1) (by omega)
        (by omega)
        (by
          intro b hb1 hb2
          by_cases e : b = st - 1
          · rw [e]; exact hz
          · exact hfree b (by omega) (by omega))
      rw [hscan] at hr
      cases hr
      omega
    obtain ⟨i, j, h1, h3, h4⟩ := (hb.exact (st - 1)).mp hused
    have hal := ha i j h1
    have hout : ¬ (slot_start s i j ≤ st ∧ st < slot_start s i j + 64) := by
      intro hc
      exact (hb.exact st).mpr ⟨i, j, h1, hc.1, hc.2⟩ (hfree st (le_refl _) (by omega))
    omega

theorem Aligned.aligned_create_file {L : Layout} {s : State} (u f : List Nat)
    (hb : BInv s) (h : Aligned s) : Aligned (create_file_1_svc L s u f).1 := by
  have h1 := h.aligned_find_or_create_user (L := L) u
  have b1 := hb.binv_find_or_create_user (L := L) u
  unfold create_file_1_svc
  simp only []
  split
  · exact h1
  · rename_i i _
    have h2 := h1.aligned_create_file_meta (L := L) i f
    have b2 := b1.binv_create_file_meta (L := L) i f
    split
    · exact h2
    · rename_i j hj
      rcases allocate_blocks_cases L
          (SSNFS.create_file_meta L (SSNFS.find_or_create_user L s u).1 i f).1
        with ⟨_, e3⟩ | ⟨st, hscan, e3⟩
      · rw [e3]
        simp only [show ((-1 : Int) < 0) from by decide, if_true]
        exact h2
      · have hal := first_fit_aligned _ b2 h2 st hscan
        obtain ⟨hst2, _, _⟩ := allocate_scan_start _ st hscan
        rw [e3]
        simp only []
        rw [if_neg (by omega)]
        refine h2.aligned_slot i j
          (((SSNFS.create_file_meta L (SSNFS.find_or_create_user L s u).1 i f).1.users i).files
            j).file_name st ?_ (fun _ => hal)
        intro i' j'
        simp only [save_metadata_users]
        rw [set_file_files]
        simp only [save_metadata_users]

theorem Aligned.aligned_delete_file {L : Layout} {s : State} (u f : List Nat)
    (h : Aligned s) : Aligned (delete_file_1_svc L s u f).1 := by
  unfold delete_file_1_svc
  split
  · exact h
  · split
    · exact h
    · rename_i i _ _ j hj
      split
      · exact h
      · refine h.aligned_slot i j [] (-1) ?_ (fun h2 => by omega)
        intro i' j'
        simp only [save_metadata_users]
        rw [set_file_files, free_blocks_users]

theorem Aligned.aligned_serve {L : Layout} {s : State} (r : Request) (hb : BInv s)
    (h : Aligned s) : Aligned (serve L s r) := by
  cases r with
  | create_file u f => exact h.aligned_create_file u f hb
  | open_file u f => exact h.aligned_of_users_eq (open_file_users L s u f)
  | read_file fd n => exact h.aligned_of_users_eq (read_file_users s fd n)
  | write_file fd n b => exact h.aligned_of_users_eq (write_file_users s fd n b)
  | seek_position fd pos => exact h.aligned_of_users_eq (seek_position_users s fd pos)
  | close_file fd => exact h.aligned_of_users_eq (close_file_users s fd)
  | delete_file u f => exact h.aligned_delete_file u f
  | list_files u =>
    have e : serve L s (Request.list_files u) = s := list_files_state L s u
    rw [e]; exact h

theorem ReachableBy.by_aligned {L : Layout} {s : State}
    (h : ReachableBy L (stored_names L) s) : Aligned s := by
  induction h with
  | init =>
    intro i j h1
    change (2 : Int) ≤ 0 at h1
    omega
  | step s r hs _ ih => exact ih.aligned_serve r hs.by_binv

/-- At most 100 slots have an extent and there are 511 aligned extents on the
disk, so one of them is free. -/
theorem free_run_exists (s : State) (hb : BInv s) (ha : Aligned s) :
    ∃ i, 2 ≤ i ∧ i ≤ TOTAL_BLOCKS - 64 ∧ ∀ b, i ≤ b → b < i + 64 → s.block_used b = 0 := by
  have hcard : ((Finset.range 10 ×ˢ Finset.range 10).image
      (fun p : Nat × Nat => ((slot_start s p.1 p.2 - 2) / 64).toNat)).card < 511 := by
    refine lt_of_le_of_lt Finset.card_image_le ?_
    rw [Finset.card_product, Finset.card_range]
    decide
  obtain ⟨k, hk, hnot⟩ : ∃ k, k < 511 ∧ k ∉ (Finset.range 10 ×ˢ Finset.range 10).image
      (fun p : Nat × Nat => ((slot_start s p.1 p.2 - 2) / 64).toNat) := by
    by_contra hcon
    push_neg at hcon
    have hsub : Finset.range 511 ⊆ (Finset.range 10 ×ˢ Finset.range 10).image
        (fun p : Nat × Nat => ((slot_start s p.1 p.2 - 2) / 64).toNat) := by
      intro k hk
      exact hcon k (Finset.mem_range.mp hk)
    have := Finset.card_le_card hsub
    rw [Finset.card_range] at this
    omega
  refine ⟨2 + 64 * (k : Int), by omega, by rw [TOTAL_BLOCKS_eq]; omega, ?_⟩
  intro b hb1 hb2
  by_contra hne
  obtain ⟨i, j, h1, h2, h3⟩ := (hb.exact b).mp hne
  obtain ⟨hi, hj⟩ := hb.bounded i j h1
  have hal := ha i j h1
  apply hnot
  rw [Finset.mem_image]
  refine ⟨(i, j), ?_, ?_⟩
  · rw [Finset.mem_product]
    exact ⟨Finset.mem_range.mpr hi, Finset.mem_range.mpr hj⟩
  · simp only []
    omega

/-- Without the lost extents the disk does not run out: in every state
reached from a fresh image by requests whose create and delete file names are
not empty, `allocate_blocks` finds an extent and no create, whatever its
arguments, answers "No space on disk". -/
theorem create_finds_space (L : Layout) (s : State) (u f : List Nat)
    (hr : ReachableBy L (stored_names L) s) :
    (create_file_1_svc L s u f).2.out_msg ≠ "No space on disk" := by
  have b1 := hr.by_binv.binv_find_or_create_user (L := L) u
  have a1 := hr.by_aligned.aligned_find_or_create_user (L := L) u
  unfold create_file_1_svc
  simp only []
  split
  · simp
  · rename_i i _
    have b2 := b1.binv_create_file_meta (L := L) i f
    have a2 := a1.aligned_create_file_meta (L := L) i f
    split
    · simp only []
      split <;> simp
    · rename_i j _
      obtain ⟨t0, ht2, hle, hfree⟩ := free_run_exists _ b2 a2
      obtain ⟨r, hscan, hr2, _, _⟩ := allocate_scan_first_fit _ t0 ht2
        (by rw [TOTAL_BLOCKS_eq] at hle; omega) hfree
      have e3 : (allocate_blocks L
          (SSNFS.create_file_meta L (SSNFS.find_or_create_user L s u).1 i f).1).2 = r := by
        unfold allocate_blocks
        rw [hscan]
      rw [e3, if_neg (by omega)]
      simp

/-! ## C9: two files under one name -/

set_option maxRecDepth 100000 in
/-- C9 (failing input). `create_file_meta` stores the first
`FILE_NAME_SIZE - 1` bytes of a name, `find_file` compares `FILE_NAME_SIZE`
bytes of the name it is given.  With 32-byte name fields, two
`create("alice", a...a)` with 32 characters `a` both succeed and leave two
slots with the name of 31 characters.  Then alice has a created file with that
name and no open session, `delete` of the 31-character name answers
"File deleted" and frees slot 0, but the `open` of the same name after it
succeeds with descriptor 3 on slot 1, and `list("alice")` still shows the
name. -/
theorem delete_leaves_duplicate :
    Reachable layout32 state_twice_32 ∧
    (create_file_1_svc layout32 (init_disk layout32) alice name_32).2.success = 1 ∧
    (create_file_1_svc layout32
      (create_file_1_svc layout32 (init_disk layout32) alice name_32).1 alice
      name_32).2.success = 1 ∧
    slot_name state_twice_32 0 0 = name_31 ∧ slot_name state_twice_32 0 1 = name_31 ∧
    find_user layout32 state_twice_32 alice = some 0 ∧
    find_file layout32 (state_twice_32.users 0) name_31 = some 0 ∧
    holds_file state_twice_32 0 0 ∧
    (∀ k, k < MAX_OPEN_FILES → (state_twice_32.open_table k).in_use = 0) ∧
    (delete_file_1_svc layout32 state_twice_32 alice name_31).2.out_msg = "File deleted" ∧
    slot_start (delete_file_1_svc layout32 state_twice_32 alice name_31).1 0 0 = -1 ∧
    (open_file_1_svc layout32 (delete_file_1_svc layout32 state_twice_32 alice name_31).1
      alice name_31).2.fd = 3 ∧
    (open_file_1_svc layout32 (delete_file_1_svc layout32 state_twice_32 alice name_31).1
      alice name_31).2.out_msg = "File opened" ∧
    (list_files_1_svc layout32 (delete_file_1_svc layout32 state_twice_32 alice name_31).1
      alice).2.out_msg = name_31 ++ [10] :=
  ⟨Reachable.reach_serve_all ReachableBy.init _, by decide, by decide, by decide, by decide,
    by decide, by decide, by decide, by decide, by decide, by decide, by decide, by decide,
    by decide⟩

/-! ## C16: a new session after the metadata was saved -/

set_option maxRecDepth 100000 in
/-- C16 (failing input). Session 3 writes "hello" into alice's file F; the
bytes are on the disk from offset 1024 on, and a session opened right then
would read them.  After `create("alice","G")`, whose `save_metadata` writes the
bitmap over these bytes, `open("alice","F")` returns descriptor 4 for a new
session with cursor 0 and the start block of session 3, and `read(4, 5)`
succeeds and returns five zero bytes, not the bytes session 3 wrote. -/
theorem new_session_reads_zeros :
    Reachable layout32
      (create_file_1_svc layout32 (write_file_1_svc state_open_F 3 5 (c_str "hello")).1
        alice file_G).1 ∧
    (write_file_1_svc state_open_F 3 5 (c_str "hello")).2.success = 1 ∧
    (read_file_1_svc
      (open_file_1_svc layout32 (write_file_1_svc state_open_F 3 5 (c_str "hello")).1
        alice file_F).1 4 5).2.buffer_val = c_str "hello" ∧
    (create_file_1_svc layout32 (write_file_1_svc state_open_F 3 5 (c_str "hello")).1
      alice file_G).2.success = 1 ∧
    find_open_by_fd
      (create_file_1_svc layout32 (write_file_1_svc state_open_F 3 5 (c_str "hello")).1
        alice file_G).1 3 = some 0 ∧
    (open_file_1_svc layout32
      (create_file_1_svc layout32 (write_file_1_svc state_open_F 3 5 (c_str "hello")).1
        alice file_G).1 alice file_F).2.fd = 4 ∧
    (open_file_1_svc layout32
      (create_file_1_svc layout32 (write_file_1_svc state_open_F 3 5 (c_str "hello")).1
        alice file_G).1 alice file_F).2.out_msg = "File opened" ∧
    ((open_file_1_svc layout32
      (create_file_1_svc layout32 (write_file_1_svc state_open_F 3 5 (c_str "hello")).1
        alice file_G).1 alice file_F).1.open_table 1).current_pos = 0 ∧
    ((open_file_1_svc layout32
      (create_file_1_svc layout32 (write_file_1_svc state_open_F 3 5 (c_str "hello")).1
        alice file_G).1 alice file_F).1.open_table 1).start_block
      = (state_open_F.open_table 0).start_block ∧
    (read_file_1_svc
      (open_file_1_svc layout32
        (create_file_1_svc layout32 (write_file_1_svc state_open_F 3 5 (c_str "hello")).1
          alice file_G).1 alice file_F).1 4 5).2.success = 1 ∧
    (read_file_1_svc
      (open_file_1_svc layout32
        (create_file_1_svc layout32 (write_file_1_svc state_open_F 3 5 (c_str "hello")).1
          alice file_G).1 alice file_F).1 4 5).2.buffer_val = [0, 0, 0, 0, 0] :=
  ⟨ReachableBy.step _ (Request.create_file alice file_G)
      (ReachableBy.step state_open_F (Request.write_file 3 5 (c_str "hello"))
        state_open_F_reachable trivial) trivial,
    by decide, by decide, by decide, by decide, by decide, by decide, by decide, by decide,
    by decide, by decide⟩

end SSNFS
